import Mathlib

/-! linopt: the in-memory dense matrix `linopt::inmemory::Matrix<E>`

A shallow embedding of `src/inmemory/matrix/Matrix.h` / `Matrix.tpp`.

* `std::vector<std::vector<E>>` is a `List (List E)`.
* A C++ exception is an `Except.error`; the unchecked `operator[]` of
  `std::vector` outside its bounds (undefined behaviour in C++) is the separate
  outcome `Err.out_of_bounds`, so that it is never confused with a result.
* `int` indices and dimensions are `Int`; loop counters run over `Nat`.
* `E()` is `default`; `+`, `-`, `*` on `E` are the type's own operations.
-/

namespace linopt.inmemory

/-- The `what()` text of each `std::runtime_error` thrown in `Matrix.tpp`. -/
inductive What where
  /-- "Invalid matrix dimension (<1)." -/
  | invalid_dimension
  /-- "Invalid matrix dimension (<1) in initializer_list<E>." -/
  | invalid_dimension_il
  /-- "Jagged initializer_list not allowed for matrix initialization." -/
  | jagged_il
  /-- "Invalid index pair." -/
  | invalid_index_pair
  /-- "Invalid dimensions for matrix addition." -/
  | bad_addition
  /-- "Invalid dimensions for matrix subtraction." -/
  | bad_subtraction
  /-- "Invalid dimensions for matrix multiplication." -/
  | bad_multiplication
  /-- "Invalid row combination: bad index." -/
  | bad_row_combination
  /-- "Invalid column combination: bad index." -/
  | bad_column_combination
  /-- "Invalid row multiplication: bad index." -/
  | bad_row_multiplication
  /-- "Invalid column multiplication: bad index." -/
  | bad_column_multiplication
  /-- "Invalid row fill: bad index." -/
  | bad_row_fill
  /-- "Invalid column fill: bad index." -/
  | bad_column_fill
  deriving DecidableEq, Repr

/-- The ways a call can end without a result. -/
inductive Err where
  /-- A `std::runtime_error` thrown by the matrix code itself. -/
  | runtime_error (what : What)
  /-- The `std::length_error` of `std::vector(count, value)` for a negative
  `int` count (converted to a `size_t` above `max_size()`). -/
  | length_error
  /-- An unchecked `operator[]` outside the vector: undefined behaviour. -/
  | out_of_bounds
  deriving DecidableEq, Repr

deriving instance DecidableEq for Except

/-- The class `Matrix<E>`: its only member is `data`. -/
structure Matrix (E : Type) where
  data : List (List E)
  deriving DecidableEq, Repr

/-- The constructor `std::vector<T>(count, value)` called with an `int` count. -/
def vector_fill {α : Type} (count : Int) (value : α) : Except Err (List α) :=
  if count < 0 then Except.error Err.length_error
  else Except.ok (List.replicate count.toNat value)

/-- The unchecked read `v[i]` of a `std::vector`. -/
def index {α : Type} (v : List α) (i : Int) : Except Err α :=
  if i < 0 then Except.error Err.out_of_bounds
  else match v[i.toNat]? with
    | some x => Except.ok x
    | none => Except.error Err.out_of_bounds

/-- The unchecked write `v[i] = x` of a `std::vector`. -/
def assign {α : Type} (v : List α) (i : Int) (x : α) : Except Err (List α) :=
  if i < 0 then Except.error Err.out_of_bounds
  else if i.toNat < v.length then Except.ok (v.set i.toNat x)
  else Except.error Err.out_of_bounds

/-- The loop `for (int i = 0; i < n; i++) body`, for a bound `n` that the body
does not change: iterations `0, 1, ..., n-1` in this order, stopping at the
first one that throws. -/
def forRange {σ : Type} : Nat → (Int → σ → Except Err σ) → σ → Except Err σ
  | 0, _, s => Except.ok s
  | k + 1, body, s =>
    match forRange k body s with
    | Except.ok s' => body (k : Int) s'
    | Except.error e => Except.error e

/-- The loop `for (int i = 0; i < n; i++) body` with an `int` bound. -/
def forInt {σ : Type} (n : Int) (body : Int → σ → Except Err σ) (s : σ) : Except Err σ :=
  forRange n.toNat body s

/-- The loop `for (int j = lo; j < hi; j++) body`, for a bound `hi` that the
body does not change: iterations `lo, lo+1, ..., hi-1` in this order. -/
def forIntFrom {σ : Type} (lo hi : Int) (body : Int → σ → Except Err σ) (s : σ) :
    Except Err σ :=
  forRange (hi - lo).toNat (fun k s => body (lo + k) s) s

/-- `std::fill(v.begin(), v.end(), e)`: every element becomes `e`. -/
def std_fill {α : Type} (v : List α) (e : α) : List α :=
  v.map (fun _ => e)

/-- The loop `for (const T &x : xs) body`: the elements in order, stopping at
the first iteration that throws. -/
def forEach {α σ : Type} : List α → (α → σ → Except Err σ) → σ → Except Err σ
  | [], _, s => Except.ok s
  | x :: xs, body, s =>
    match body x s with
    | Except.ok s' => forEach xs body s'
    | Except.error e => Except.error e

namespace Matrix

variable {E : Type}

/-- `getN()`: `data.size()`. -/
def getN (A : Matrix E) : Int := (A.data.length : Int)

/-- `getM()`: throws when there is no row, else `data[0].size()`. -/
def getM (A : Matrix E) : Except Err Int :=
  if A.getN = 0 then Except.error (Err.runtime_error What.invalid_dimension)
  else match A.data with
    | [] => Except.error Err.out_of_bounds
    | row :: _ => Except.ok (row.length : Int)

/-- `Matrix(int n, int m, E e)`: the member initialiser
`data(n, std::vector<E>(m, E(e)))` runs first, then the dimension check. -/
def ofFill (n m : Int) (e : E) : Except Err (Matrix E) := do
  let row ← vector_fill m e
  let data ← vector_fill n row
  if n < 1 ∨ m < 1 then
    throw (Err.runtime_error What.invalid_dimension)
  pure ⟨data⟩

/-- `Matrix(int n, int m)`: as `ofFill` with `E()`. -/
def ofDims [Inhabited E] (n m : Int) : Except Err (Matrix E) :=
  ofFill n m default

/-- The unchecked read `data[r][c]`. -/
def raw (A : Matrix E) (r c : Int) : Except Err E := do
  let row ← index A.data r
  index row c

/-- The unchecked write `data[r][c] = e`. -/
def rawSet (A : Matrix E) (r c : Int) (e : E) : Except Err (Matrix E) := do
  let row ← index A.data r
  let row' ← assign row c e
  let data ← assign A.data r row'
  pure ⟨data⟩

/-- `get(int r, int c)`, both overloads: the check
`r >= getN() || r < 0 || c < 0 || c >= getM()` with its short circuit, then
`data[r][c]`. -/
def get (A : Matrix E) (r c : Int) : Except Err E :=
  if r ≥ A.getN ∨ r < 0 ∨ c < 0 then
    Except.error (Err.runtime_error What.invalid_index_pair)
  else do
    let m ← A.getM
    if c ≥ m then
      throw (Err.runtime_error What.invalid_index_pair)
    A.raw r c

/-- The statement `get(r, c) = e` through the mutable overload of `get`. -/
def put (A : Matrix E) (r c : Int) (e : E) : Except Err (Matrix E) := do
  let _ ← A.get r c
  A.rawSet r c e

/-- `operator+`. -/
def add [Inhabited E] [Add E] (A B : Matrix E) : Except Err (Matrix E) := do
  if A.getN ≠ B.getN then
    throw (Err.runtime_error What.bad_addition)
  if (← A.getM) ≠ (← B.getM) then
    throw (Err.runtime_error What.bad_addition)
  let r ← ofDims A.getN (← A.getM)
  forInt A.getN (fun i r => do
    forInt (← A.getM) (fun j r => do
      let x ← A.raw i j
      let y ← B.get i j
      r.put i j (x + y)) r) r

/-- `operator-`. -/
def sub [Inhabited E] [Sub E] (A B : Matrix E) : Except Err (Matrix E) := do
  if A.getN ≠ B.getN then
    throw (Err.runtime_error What.bad_subtraction)
  if (← A.getM) ≠ (← B.getM) then
    throw (Err.runtime_error What.bad_subtraction)
  let r ← ofDims A.getN (← A.getM)
  forInt A.getN (fun i r => do
    forInt (← A.getM) (fun j r => do
      let x ← A.raw i j
      let y ← B.get i j
      r.put i j (x - y)) r) r

/-- `operator*(const Matrix<E>&)`: the statement
`r.get(i, j) += data[i][k] * other.get(k, j)` evaluates its right side, then
`r.get(i, j)`, and stores the old entry plus the product. -/
def mul [Inhabited E] [Add E] [Mul E] (A B : Matrix E) : Except Err (Matrix E) := do
  if (← A.getM) ≠ B.getN then
    throw (Err.runtime_error What.bad_multiplication)
  let r ← ofDims A.getN (← B.getM)
  forInt A.getN (fun i r => do
    forInt (← B.getM) (fun j r => do
      forInt (← A.getM) (fun k r => do
        let x ← A.raw i k
        let y ← B.get k j
        let old ← r.get i j
        r.put i j (old + x * y)) r) r) r

/-- `operator==`: unequal dimensions give `false`, else `data == other.data`. -/
def eq [DecidableEq E] (A B : Matrix E) : Except Err Bool := do
  if A.getN ≠ B.getN then
    return false
  if (← A.getM) ≠ (← B.getM) then
    return false
  return decide (A.data = B.data)

/-- `transpose()`. -/
def transpose [Inhabited E] (A : Matrix E) : Except Err (Matrix E) := do
  let r ← ofDims (← A.getM) A.getN
  forInt A.getN (fun i r => do
    forInt (← A.getM) (fun j r => do
      let x ← A.raw i j
      r.put j i x) r) r

/-- `Matrix(std::initializer_list<std::initializer_list<E>> il)`: the check
`il.size() < 1 || il.begin()->size() < 1`, then every row is compared with the
length of the first one and pushed onto `data`. -/
def ofList (il : List (List E)) : Except Err (Matrix E) :=
  match il with
  | [] => Except.error (Err.runtime_error What.invalid_dimension_il)
  | first :: _ =>
    if first.length < 1 then
      Except.error (Err.runtime_error What.invalid_dimension_il)
    else do
      let data ← forEach il (fun row data =>
        if row.length ≠ first.length then
          throw (Err.runtime_error What.jagged_il)
        else pure (data ++ [row])) []
      pure ⟨data⟩

/-- `operator!=`: `!(*this == other)`. -/
def ne [DecidableEq E] (A B : Matrix E) : Except Err Bool := do
  return !(← A.eq B)

/-- `operator*(const S&)`: every entry of the result is `s * data[i][j]`. -/
def mulScalar {S : Type} [Inhabited E] [HMul S E E] (A : Matrix E) (s : S) :
    Except Err (Matrix E) := do
  let r ← ofDims A.getN (← A.getM)
  forInt A.getN (fun i r => do
    forInt (← A.getM) (fun j r => do
      let x ← A.raw i j
      r.put i j (s * x)) r) r

/-- `operator*=(const S &s)`: `data[i][j] *= s` on every entry. The parameter is
a reference, so `s` is read anew at every entry: `ref` gives what it refers to
for the receiver as it is at that moment (always the same scalar for an object
outside the receiver's storage, the entry as it then is for a reference into
the receiver such as `A.get(r, c)`). The result is the receiver after the
call. -/
def mulAssignRef {S : Type} [HMul E S E] (A : Matrix E) (ref : Matrix E → Except Err S) :
    Except Err (Matrix E) :=
  forInt A.getN (fun i A => do
    forInt (← A.getM) (fun j A => do
      let x ← A.raw i j
      let s ← ref A
      A.rawSet i j (x * s)) A) A

/-- `operator*=(const S &s)` called with a scalar that is no part of the
receiver's storage (a literal, a local variable): the reference reads `s`
throughout. -/
def mulAssignScalar {S : Type} [HMul E S E] (A : Matrix E) (s : S) : Except Err (Matrix E) :=
  A.mulAssignRef (fun _ => Except.ok s)

/-- The statement `A *= A.get(r, c)`: the argument `get(r, c)` is checked and
returns a reference to `data[r][c]` of the receiver, which `operator*=` then
reads at every entry. -/
def mulAssignEntry [Mul E] (A : Matrix E) (r c : Int) : Except Err (Matrix E) := do
  let _ ← A.get r c
  A.mulAssignRef (fun B => B.raw r c)

/-- The move assignment `operator=(Matrix<E>&&)`: `data.swap(other.data)`. The
pair is the receiver and the right side after the call. -/
def moveAssign (A other : Matrix E) : Matrix E × Matrix E :=
  (⟨other.data⟩, ⟨A.data⟩)

/-- The statement `*this = value` for a temporary `value` whose evaluation may
throw: what the statement does, and the receiver afterwards. A throw comes
before the assignment, which then does not take place. -/
def assignTemporary (A : Matrix E) (value : Except Err (Matrix E)) :
    Except Err Unit × Matrix E :=
  match value with
  | Except.ok r => (Except.ok (), (moveAssign A r).1)
  | Except.error e => (Except.error e, A)

/-- `operator+=`: `*this = *this + other`. -/
def addAssign [Inhabited E] [Add E] (A B : Matrix E) : Except Err Unit × Matrix E :=
  assignTemporary A (A.add B)

/-- `operator-=`: `*this = *this - other`. -/
def subAssign [Inhabited E] [Sub E] (A B : Matrix E) : Except Err Unit × Matrix E :=
  assignTemporary A (A.sub B)

/-- `operator*=(const Matrix<E>&)`: `*this = *this * other`. -/
def mulAssign [Inhabited E] [Add E] [Mul E] (A B : Matrix E) : Except Err Unit × Matrix E :=
  assignTemporary A (A.mul B)

/-- `combineRows`: the check `row1 < 0 || row1 >= getN() || row2 < 0 ||
row2 >= getM()` with its short circuit, then for every column the unchecked
`data[destinationRow][j] = factor1 * data[row1][j] + factor2 * data[row2][j]`.
The result is the receiver after the call. -/
def combineRows {S : Type} [HMul S E E] [Add E] (A : Matrix E) (row1 : Int) (factor1 : S)
    (row2 : Int) (factor2 : S) (destinationRow : Int) : Except Err (Matrix E) := do
  if row1 < 0 ∨ row1 ≥ A.getN ∨ row2 < 0 then
    throw (Err.runtime_error What.bad_row_combination)
  if row2 ≥ (← A.getM) then
    throw (Err.runtime_error What.bad_row_combination)
  forInt (← A.getM) (fun j A => do
    let x ← A.raw row1 j
    let y ← A.raw row2 j
    A.rawSet destinationRow j (factor1 * x + factor2 * y)) A

/-- `combineColumns`: the check `column1 < 0 || column1 >= getM() || column2 < 0
|| column2 >= getM()`, then for every row the unchecked
`data[i][destinationColumn] = factor1 * data[i][column1] + factor2 * data[i][column2]`
with `int` factors. The result is the receiver after the call. -/
def combineColumns [HMul Int E E] [Add E] (A : Matrix E) (column1 : Int) (factor1 : Int)
    (column2 : Int) (factor2 : Int) (destinationColumn : Int) : Except Err (Matrix E) := do
  if column1 < 0 then
    throw (Err.runtime_error What.bad_column_combination)
  let m ← A.getM
  if column1 ≥ m ∨ column2 < 0 ∨ column2 ≥ m then
    throw (Err.runtime_error What.bad_column_combination)
  forInt A.getN (fun i A => do
    let x ← A.raw i column1
    let y ← A.raw i column2
    A.rawSet i destinationColumn (factor1 * x + factor2 * y)) A

/-- `multiplyRow`: the check `row < 0 || row >= getN()`, then `data[row][j] *= s`
for every column. The result is the receiver after the call. -/
def multiplyRow {S : Type} [HMul E S E] (A : Matrix E) (row : Int) (s : S) :
    Except Err (Matrix E) := do
  if row < 0 ∨ row ≥ A.getN then
    throw (Err.runtime_error What.bad_row_multiplication)
  forInt (← A.getM) (fun j A => do
    let x ← A.raw row j
    A.rawSet row j (x * s)) A

/-- `multiplyColumn`: the check `column < 0 || column >= getM()`, then
`data[i][column] *= s` for every row. The result is the receiver after the
call. -/
def multiplyColumn {S : Type} [HMul E S E] (A : Matrix E) (column : Int) (s : S) :
    Except Err (Matrix E) := do
  if column < 0 then
    throw (Err.runtime_error What.bad_column_multiplication)
  if column ≥ (← A.getM) then
    throw (Err.runtime_error What.bad_column_multiplication)
  forInt A.getN (fun i A => do
    let x ← A.raw i column
    A.rawSet i column (x * s)) A

/-- The copy constructor `Matrix(const Matrix<E> &src) : data(src.data)`. -/
def copy (src : Matrix E) : Matrix E :=
  ⟨src.data⟩

/-- `swap(Matrix<E> &other)`: `data.swap(other.data)`. The pair is the receiver
and `other` after the call. -/
def swap (A other : Matrix E) : Matrix E × Matrix E :=
  (⟨other.data⟩, ⟨A.data⟩)

/-- `fill(E e)`: `std::fill` on every row. Nothing in it throws; the result is
the receiver after the call. -/
def fill (A : Matrix E) (e : E) : Matrix E :=
  ⟨A.data.map (fun row => std_fill row e)⟩

/-- `fillRow`: the check `row < 0 || row >= getN()`, then `std::fill` on
`data[row]`. The result is the receiver after the call. -/
def fillRow (A : Matrix E) (row : Int) (e : E) : Except Err (Matrix E) := do
  if row < 0 ∨ row ≥ A.getN then
    throw (Err.runtime_error What.bad_row_fill)
  let r ← index A.data row
  let data ← assign A.data row (std_fill r e)
  pure ⟨data⟩

/-- `fillColumn`: the check `column < 0 || column >= getM()`, then
`data[i][column] = E(e)` for every row. The result is the receiver after the
call. -/
def fillColumn (A : Matrix E) (column : Int) (e : E) : Except Err (Matrix E) := do
  if column < 0 then
    throw (Err.runtime_error What.bad_column_fill)
  if column ≥ (← A.getM) then
    throw (Err.runtime_error What.bad_column_fill)
  forInt A.getN (fun i A => A.rawSet i column e) A

/-- `inplaceTranspose()`: when `getM() == getN()`, `std::swap(data[i][j],
data[j][i])` for every `i` and every `j` from `i` on; otherwise
`*this = this->transpose()`. The result is the receiver after the call. -/
def inplaceTranspose [Inhabited E] (A : Matrix E) : Except Err (Matrix E) := do
  if (← A.getM) = A.getN then
    forInt A.getN (fun i A => do
      forIntFrom i (← A.getM) (fun j A => do
        let x ← A.raw i j
        let y ← A.raw j i
        let A ← A.rawSet i j y
        A.rawSet j i x) A) A
  else
    let r ← A.transpose
    pure (moveAssign A r).1

/-! ### Vocabulary of the statements -/

/-- The matrix has `n` rows, each of `m` entries. -/
def HasShape (A : Matrix E) (n m : Nat) : Prop :=
  A.data.length = n ∧ ∀ row ∈ A.data, row.length = m

instance (A : Matrix E) (n m : Nat) : Decidable (A.HasShape n m) := by
  unfold HasShape
  infer_instance

/-- Well-formedness: at least one row, at least one column, no jagged row. -/
def WellFormed (A : Matrix E) : Prop :=
  1 ≤ A.data.length ∧ 1 ≤ (A.data.headD []).length ∧
    ∀ row ∈ A.data, row.length = (A.data.headD []).length

instance (A : Matrix E) : Decidable A.WellFormed := by
  unfold WellFormed
  infer_instance

/-- The element stored at row `i`, column `j` (`default` outside the storage). -/
def entry [Inhabited E] (A : Matrix E) (i j : Nat) : E :=
  (A.data.getD i []).getD j default

/-- The sum `A(i,0)*B(0,j) + ... + A(i,k-1)*B(k-1,j)`, accumulated from left to
right onto `E()`. -/
def dot [Inhabited E] [Add E] [Mul E] (A B : Matrix E) (k i j : Nat) : E :=
  (List.range k).foldl (fun acc t => acc + A.entry i t * B.entry t j) default

end Matrix

/-! ### Matrices of the unit tests -/

/-- The left factor of `TEST(Matrix, TestMatrixMultiplication)`. -/
def test_a : Matrix Int := ⟨[[1, 2, 3, 4], [4, 3, 2, 1], [1, 2, 3, 4]]⟩

/-- The right factor of `TEST(Matrix, TestMatrixMultiplication)`. -/
def test_b : Matrix Int := ⟨[[5, 6], [6, 5], [5, 6], [6, 5]]⟩

/-- The matrix `m1` of `TEST(Matrix, TestTranspose)`. -/
def test_m1 : Matrix Int := ⟨[[1, 2, 1], [0, 1, 0]]⟩

/-- The matrix `m1` of `TEST(Matrix, TestRowCombination)` and of
`TEST(Matrix, TestColumnCombination)`. -/
def test_rc : Matrix Int := ⟨[[1, 0, 1], [0, 1, 0], [0, 0, 0]]⟩

/-- The matrix of `TEST(Matrix, TestRowMultiplication)` and of
`TEST(Matrix, TestColumnMultiplication)`. -/
def test_rm : Matrix Int := ⟨[[1, 2], [1, 2]]⟩

/-- A matrix whose first entry is not `1`, to be scaled by its own first
entry. -/
def test_al : Matrix Int := ⟨[[2, 3], [4, 5]]⟩

/-- A matrix of three rows and two columns. -/
def test_tall : Matrix Int := ⟨[[1, 2], [3, 4], [5, 6]]⟩

/-- The matrix `m1` of `TEST(Matrix, TestInplaceTranspose)`. -/
def test_sq : Matrix Int := ⟨[[1, 2, 1], [0, 1, 0], [0, 0, 5]]⟩

/-- The matrix `src` of `TEST(Matrix, TestStreams)`: two rows of two fours. -/
def test_src : Matrix Int := ⟨[[4, 4], [4, 4]]⟩

/-! ### Text streams

`std::ostream` is the text written so far; `std::istream` is the text still to
be read together with its `failbit`. Formatted output and input of an `int` are
those of the "C" locale in base ten. -/

/-- `INT_MIN` of a 32-bit `int`. -/
def INT_MIN : Int := -2147483648

/-- `INT_MAX` of a 32-bit `int`. -/
def INT_MAX : Int := 2147483647

/-- `os << x` for an `int x`: the decimal digits, after a `-` when negative. -/
def showInt (x : Int) : List Char :=
  match x with
  | Int.ofNat n => Nat.toDigits 10 n
  | Int.negSucc n => '-' :: Nat.toDigits 10 (n + 1)

/-- `std::isspace`: the blank and the characters 9 to 13. -/
def isSpace (c : Char) : Bool :=
  decide (c.toNat = 32 ∨ (9 ≤ c.toNat ∧ c.toNat ≤ 13))

/-- `std::isdigit`. -/
def isDigit (c : Char) : Bool :=
  decide (48 ≤ c.toNat ∧ c.toNat ≤ 57)

/-- The number a run of decimal digits denotes. -/
def digitsValue (ds : List Char) : Nat :=
  ds.foldl (fun acc c => 10 * acc + (c.toNat - 48)) 0

/-- A `std::istream`: the unread text and the `failbit`. -/
structure IStream where
  buf : List Char
  failbit : Bool
  deriving DecidableEq, Repr

/-- `is >> x` for an `int x` holding `old`: nothing happens on a failed stream;
leading white space is skipped and an exhausted stream fails, leaving `x`; then
an optional sign and the longest run of digits are consumed. No digit stores
`0` and fails; a value outside `int` stores the nearest bound and fails. -/
def IStream.readInt (s : IStream) (old : Int) : Int × IStream :=
  if s.failbit then (old, s)
  else
    match s.buf.dropWhile isSpace with
    | [] => (old, ⟨[], true⟩)
    | c :: cs =>
      let body := if c = '-' ∨ c = '+' then cs else c :: cs
      let ds := body.takeWhile isDigit
      let rest := body.dropWhile isDigit
      if ds.isEmpty then (0, ⟨rest, true⟩)
      else
        let v : Int := if c = '-' then -(digitsValue ds : Int) else (digitsValue ds : Int)
        if v < INT_MIN then (INT_MIN, ⟨rest, true⟩)
        else if v > INT_MAX then (INT_MAX, ⟨rest, true⟩)
        else (v, ⟨rest, false⟩)

/-- `operator<<(std::ostream&, const Matrix<E>&)` for an element type whose
`operator<<` appends `shw e`: `N`, `M` and every entry, each followed by a
blank. -/
def write {E : Type} (shw : E → List Char) (os : List Char) (matrix : Matrix E) :
    Except Err (List Char) := do
  let os := os ++ showInt matrix.getN ++ [' ']
  let os := os ++ showInt (← matrix.getM) ++ [' ']
  forInt matrix.getN (fun i os => do
    forInt (← matrix.getM) (fun j os => do
      let x ← matrix.raw i j
      pure (os ++ shw x ++ [' '])) os) os

/-- `operator>>(std::istream&, Matrix<E>&)` for `E = int`: `n` and `m` start as
`0`, the storage is replaced by `n` rows of `m` copies of `E()`, and every entry
is extracted in place. -/
def read (is : IStream) (matrix : Matrix Int) : Except Err (Matrix Int × IStream) := do
  let (n, is) := is.readInt 0
  let (m, is) := is.readInt 0
  let row ← vector_fill m (default : Int)
  let data ← vector_fill n row
  let matrix : Matrix Int := { matrix with data := data }
  forInt matrix.getN (fun i st => do
    forInt (← st.1.getM) (fun j st => do
      let old ← st.1.raw i j
      let (x, is) := st.2.readInt old
      let matrix ← st.1.rawSet i j x
      pure (matrix, is)) st) (matrix, is)

/-- The text of a sequence of tokens, each followed by one blank. -/
def textOf {E : Type} (shw : E → List Char) (xs : List E) : List Char :=
  xs.flatMap (fun x => shw x ++ [' '])

/-- The tokens of a text: its maximal runs without white space. `cur` is the
run being read, latest character first. -/
def tokensAux : List Char → List Char → List (List Char)
  | [], cur => if cur.isEmpty then [] else [cur.reverse]
  | c :: cs, cur =>
    if isSpace c then
      if cur.isEmpty then tokensAux cs [] else cur.reverse :: tokensAux cs []
    else tokensAux cs (c :: cur)

/-- The tokens of a white-space separated text. -/
def tokens (text : List Char) : List (List Char) := tokensAux text []

/-- Every dimension and entry fits a 32-bit `int`. -/
def InIntRange (A : Matrix Int) : Prop :=
  (A.data.length : Int) ≤ INT_MAX ∧ ((A.data.headD []).length : Int) ≤ INT_MAX ∧
    ∀ row ∈ A.data, ∀ x ∈ row, INT_MIN ≤ x ∧ x ≤ INT_MAX

instance (A : Matrix Int) : Decidable (InIntRange A) := by
  unfold InIntRange
  infer_instance

/-! ### Loops and vectors -/

theorem bind_ok {α β : Type} (a : α) (f : α → Except Err β) :
    (Except.ok a >>= f) = f a := rfl

theorem bind_error {α β : Type} (e : Err) (f : α → Except Err β) :
    (Except.error e >>= f) = Except.error e := rfl

theorem pure_eq_ok {α : Type} (a : α) : (pure a : Except Err α) = Except.ok a := rfl

theorem throw_eq_error {α : Type} (e : Err) : (throw e : Except Err α) = Except.error e := rfl

/-- Total-correctness rule for `forRange`: an invariant that holds at entry and
that every iteration re-establishes holds at exit, and the loop returns. -/
theorem forRange_inv {σ : Type} (P : Nat → σ → Prop) (n : Nat)
    (body : Int → σ → Except Err σ) (s : σ) (h0 : P 0 s)
    (hstep : ∀ k t, k < n → P k t → ∃ t', body (k : Int) t = Except.ok t' ∧ P (k + 1) t') :
    ∃ t, forRange n body s = Except.ok t ∧ P n t := by
  induction n with
  | zero => exact ⟨s, rfl, h0⟩
  | succ k ih =>
    obtain ⟨t, ht, hP⟩ := ih (fun j u hj hu => hstep j u (Nat.lt_succ_of_lt hj) hu)
    obtain ⟨t', ht', hP'⟩ := hstep k t (Nat.lt_succ_self k) hP
    exact ⟨t', by simp [forRange, ht, ht'], hP'⟩

theorem forInt_inv {σ : Type} (P : Nat → σ → Prop) (n : Nat)
    (body : Int → σ → Except Err σ) (s : σ) (h0 : P 0 s)
    (hstep : ∀ k t, k < n → P k t → ∃ t', body (k : Int) t = Except.ok t' ∧ P (k + 1) t') :
    ∃ t, forInt (n : Int) body s = Except.ok t ∧ P n t := by
  simpa [forInt] using forRange_inv P n body s h0 hstep

/-- The rule for two nested loops: `P i j` holds when iteration `(i, j)` starts. -/
theorem forInt2_inv {σ : Type} (P : Nat → Nat → σ → Prop) (n m : Nat)
    (body : Int → Int → σ → Except Err σ) (s : σ) (h0 : P 0 0 s)
    (hstep : ∀ i j t, i < n → j < m → P i j t →
      ∃ t', body (i : Int) (j : Int) t = Except.ok t' ∧ P i (j + 1) t')
    (hrow : ∀ i t, i < n → P i m t → P (i + 1) 0 t) :
    ∃ t, forInt (n : Int) (fun i r => forInt (m : Int) (fun j r => body i j r) r) s
      = Except.ok t ∧ P n 0 t := by
  apply forInt_inv (fun i t => P i 0 t) n _ s h0
  intro i t hi hP
  obtain ⟨t', ht', hP'⟩ := forInt_inv (fun j t => P i j t) m
    (fun j r => body (i : Int) j r) t hP (fun j u hj hu => hstep i j u hi hj hu)
  exact ⟨t', ht', hrow i t' hi hP'⟩

theorem index_natCast {α : Type} (v : List α) (i : Nat) (h : i < v.length) :
    index v (i : Int) = Except.ok (v.get ⟨i, h⟩) := by
  simp [index, List.getElem?_eq_getElem h]

theorem assign_natCast {α : Type} (v : List α) (i : Nat) (x : α) (h : i < v.length) :
    assign v (i : Int) x = Except.ok (v.set i x) := by
  simp [assign, h]

theorem getD_set_row {α : Type} (v : List α) (i k : Nat) (x d : α) (h : i < v.length) :
    (v.set i x).getD k d = if k = i then x else v.getD k d := by
  simp only [List.getD_eq_getElem?_getD, List.getElem?_set]
  by_cases hk : i = k
  · subst hk; simp [h]
  · simp [hk, Ne.symm hk]

namespace Matrix

variable {E : Type}

theorem wellFormed_hasShape {A : Matrix E} (h : A.WellFormed) :
    ∃ n m, 1 ≤ n ∧ 1 ≤ m ∧ A.HasShape n m :=
  ⟨A.data.length, (A.data.headD []).length, h.1, h.2.1, rfl, h.2.2⟩

theorem hasShape_wellFormed {A : Matrix E} {n m : Nat} (h : A.HasShape n m)
    (hn : 1 ≤ n) (hm : 1 ≤ m) : A.WellFormed := by
  obtain ⟨hl, hr⟩ := h
  cases hd : A.data with
  | nil => simp [hd] at hl; omega
  | cons row rest =>
    have h0 : row.length = m := hr row (by simp [hd])
    refine ⟨by simp [WellFormed, hd], by simp [hd, h0]; omega, ?_⟩
    intro r hrm
    simp only [hd, List.headD_cons]
    rw [h0]
    exact hr r (by simpa [hd] using hrm)

theorem getN_of_shape {A : Matrix E} {n m : Nat} (h : A.HasShape n m) : A.getN = (n : Int) := by
  simp [getN, h.1]

theorem getM_of_shape {A : Matrix E} {n m : Nat} (h : A.HasShape n m) (hn : 1 ≤ n) :
    A.getM = Except.ok (m : Int) := by
  obtain ⟨hl, hr⟩ := h
  cases hd : A.data with
  | nil => simp [hd] at hl; omega
  | cons row rest =>
    have h0 : row.length = m := hr row (by simp [hd])
    simp [getM, getN, hd, h0]
    omega

theorem shape_unique {A : Matrix E} {n m n' m' : Nat} (h : A.HasShape n m)
    (h' : A.HasShape n' m') (hn : 1 ≤ n) : n = n' ∧ m = m' := by
  have e1 : n = n' := by rw [← h.1, ← h'.1]
  subst e1
  have := getM_of_shape h hn
  rw [getM_of_shape h' hn] at this
  simp at this
  exact ⟨rfl, by omega⟩

theorem row_length {A : Matrix E} {n m : Nat} (h : A.HasShape n m) (i : Nat) (hi : i < n) :
    (A.data.getD i []).length = m := by
  have hi' : i < A.data.length := by rw [h.1]; exact hi
  rw [List.getD_eq_getElem _ _ hi']
  exact h.2 _ (List.getElem_mem _)

theorem raw_of_shape [Inhabited E] {A : Matrix E} {n m : Nat} (h : A.HasShape n m)
    (i j : Nat) (hi : i < n) (hj : j < m) :
    A.raw (i : Int) (j : Int) = Except.ok (A.entry i j) := by
  have hi' : i < A.data.length := by rw [h.1]; exact hi
  have hr := row_length h i hi
  rw [List.getD_eq_getElem _ _ hi'] at hr
  have hj' : j < (A.data.get ⟨i, hi'⟩).length := by simpa [hr] using hj
  simp only [raw, index_natCast _ _ hi', bind_ok, index_natCast _ _ hj', entry]
  have hj2 : j < A.data[i].length := hj'
  simp [List.getElem?_eq_getElem hi', List.getElem?_eq_getElem hj2]

theorem get_of_shape [Inhabited E] {A : Matrix E} {n m : Nat} (h : A.HasShape n m)
    (i j : Nat) (hi : i < n) (hj : j < m) :
    A.get (i : Int) (j : Int) = Except.ok (A.entry i j) := by
  have hn : 1 ≤ n := by omega
  simp only [get, getN_of_shape h, getM_of_shape h hn, bind_ok]
  have h1 : ¬ ((i : Int) ≥ (n : Int) ∨ (i : Int) < 0 ∨ (j : Int) < 0) := by omega
  have h2 : ¬ ((j : Int) ≥ (m : Int)) := by omega
  simp only [h1, h2, if_false]
  exact raw_of_shape h i j hi hj

theorem rawSet_of_shape [Inhabited E] {A : Matrix E} {n m : Nat} (h : A.HasShape n m)
    (i j : Nat) (hi : i < n) (hj : j < m) (v : E) :
    ∃ A', A.rawSet (i : Int) (j : Int) v = Except.ok A' ∧ A'.HasShape n m ∧
      ∀ i' j', A'.entry i' j' = if i' = i ∧ j' = j then v else A.entry i' j' := by
  have hi' : i < A.data.length := by rw [h.1]; exact hi
  have hr := row_length h i hi
  rw [List.getD_eq_getElem _ _ hi'] at hr
  have hj' : j < (A.data.get ⟨i, hi'⟩).length := by simpa [hr] using hj
  refine ⟨⟨A.data.set i ((A.data.get ⟨i, hi'⟩).set j v)⟩, ?_, ⟨?_, ?_⟩, ?_⟩
  · simp only [rawSet, index_natCast _ _ hi', bind_ok, assign_natCast _ _ _ hj',
      assign_natCast _ _ _ hi', pure_eq_ok]
  · simp [h.1]
  · intro row hrow
    rcases List.mem_or_eq_of_mem_set hrow with hmem | heq
    · exact h.2 row hmem
    · rw [heq, List.length_set]; exact hr
  · intro i' j'
    simp only [entry, getD_set_row _ _ _ _ _ hi']
    by_cases hii : i' = i
    · subst hii
      simp only [if_true, true_and, getD_set_row _ _ _ _ _ hj']
      simp [List.getElem?_eq_getElem hi']
    · simp [hii]

theorem put_of_shape [Inhabited E] {A : Matrix E} {n m : Nat} (h : A.HasShape n m)
    (i j : Nat) (hi : i < n) (hj : j < m) (v : E) :
    ∃ A', A.put (i : Int) (j : Int) v = Except.ok A' ∧ A'.HasShape n m ∧
      ∀ i' j', A'.entry i' j' = if i' = i ∧ j' = j then v else A.entry i' j' := by
  obtain ⟨A', h1, h2, h3⟩ := rawSet_of_shape h i j hi hj v
  exact ⟨A', by simp only [put, get_of_shape h i j hi hj, bind_ok, h1], h2, h3⟩

theorem ofFill_of_pos (n m : Nat) (hn : 1 ≤ n) (hm : 1 ≤ m) (e : E) :
    ofFill (n : Int) (m : Int) e = Except.ok ⟨List.replicate n (List.replicate m e)⟩ := by
  have h1 : ¬ ((n : Int) < 0) := by omega
  have h2 : ¬ ((m : Int) < 0) := by omega
  have h3 : ¬ ((n : Int) < 1 ∨ (m : Int) < 1) := by omega
  simp only [ofFill, vector_fill, h1, h2, h3, if_false, bind_ok, pure_eq_ok, Int.toNat_ofNat]

theorem replicate_shape (n m : Nat) (e : E) :
    HasShape (⟨List.replicate n (List.replicate m e)⟩ : Matrix E) n m := by
  refine ⟨by simp, ?_⟩
  intro row hrow
  rw [(List.mem_replicate.mp hrow).2, List.length_replicate]

theorem replicate_entry [Inhabited E] (n m : Nat) (e : E) (i j : Nat) (hi : i < n) (hj : j < m) :
    entry (⟨List.replicate n (List.replicate m e)⟩ : Matrix E) i j = e := by
  simp [entry, List.getD_eq_getElem?_getD, List.getElem?_replicate, hi, hj]

/-- Two matrices of one shape with the same entries have the same storage. -/
theorem ext_of_shape [Inhabited E] {A B : Matrix E} {n m : Nat} (hA : A.HasShape n m)
    (hB : B.HasShape n m) (h : ∀ i j, i < n → j < m → A.entry i j = B.entry i j) :
    A = B := by
  cases A with
  | mk a =>
  cases B with
  | mk b =>
  congr 1
  apply List.ext_getElem
  · rw [hA.1, hB.1]
  · intro i h1 h2
    have hi : i < n := by rw [← hA.1]; exact h1
    have la : (a[i]).length = m := hA.2 _ (List.getElem_mem _)
    have lb : (b[i]).length = m := hB.2 _ (List.getElem_mem _)
    apply List.ext_getElem
    · rw [la, lb]
    · intro j h3 h4
      have hj : j < m := by rw [← la]; exact h3
      have := h i j hi hj
      simpa [entry, List.getD_eq_getElem?_getD, List.getElem?_eq_getElem h1,
        List.getElem?_eq_getElem h2, List.getElem?_eq_getElem h3,
        List.getElem?_eq_getElem h4] using this

/-- The cells written before iteration `(i, j)` of a row-major double loop. -/
theorem before_succ (i j i' j' : Nat) :
    (i' < i ∨ (i' = i ∧ j' < j + 1)) ↔ ((i' < i ∨ (i' = i ∧ j' < j)) ∨ (i' = i ∧ j' = j)) := by
  omega

theorem add_spec [Inhabited E] [Add E] {A B : Matrix E} {n m : Nat} (hA : A.HasShape n m)
    (hB : B.HasShape n m) (hn : 1 ≤ n) (hm : 1 ≤ m) :
    ∃ R, A.add B = Except.ok R ∧ R.HasShape n m ∧
      ∀ i j, i < n → j < m → R.entry i j = A.entry i j + B.entry i j := by
  simp only [add, getN_of_shape hA, getN_of_shape hB, getM_of_shape hA hn,
    getM_of_shape hB hn, bind_ok, ne_eq, not_true_eq_false, if_false, ofDims,
    ofFill_of_pos n m hn hm, pure_eq_ok]
  obtain ⟨R, hR, hS, hE⟩ := forInt2_inv
    (fun i j (r : Matrix E) => r.HasShape n m ∧ ∀ i' j', (i' < i ∨ (i' = i ∧ j' < j)) →
      i' < n → j' < m → r.entry i' j' = A.entry i' j' + B.entry i' j') n m
    (fun i j r => do
      let x ← A.raw i j
      let y ← B.get i j
      r.put i j (x + y))
    ⟨List.replicate n (List.replicate m default)⟩
    ⟨replicate_shape n m default, by intro i' j' h; omega⟩
    (by
      intro i j t hi hj ⟨hs, he⟩
      obtain ⟨t', h1, h2, h3⟩ := put_of_shape hs i j hi hj (A.entry i j + B.entry i j)
      refine ⟨t', by simp only [raw_of_shape hA i j hi hj, get_of_shape hB i j hi hj,
        bind_ok, h1], h2, ?_⟩
      intro i' j' hb hi' hj'
      rw [h3]
      rcases (before_succ i j i' j').mp hb with hb' | ⟨e1, e2⟩
      · have hne : ¬ (i' = i ∧ j' = j) := by omega
        rw [if_neg hne]
        exact he i' j' hb' hi' hj'
      · subst e1 e2
        simp)
    (by
      intro i t _ ⟨hs, he⟩
      exact ⟨hs, fun i' j' hb hi' hj' => he i' j' (by omega) hi' hj'⟩)
  exact ⟨R, hR, hS, fun i j hi hj => hE i j (by omega) hi hj⟩

theorem sub_spec [Inhabited E] [Sub E] {A B : Matrix E} {n m : Nat} (hA : A.HasShape n m)
    (hB : B.HasShape n m) (hn : 1 ≤ n) (hm : 1 ≤ m) :
    ∃ R, A.sub B = Except.ok R ∧ R.HasShape n m ∧
      ∀ i j, i < n → j < m → R.entry i j = A.entry i j - B.entry i j := by
  simp only [sub, getN_of_shape hA, getN_of_shape hB, getM_of_shape hA hn,
    getM_of_shape hB hn, bind_ok, ne_eq, not_true_eq_false, if_false, ofDims,
    ofFill_of_pos n m hn hm, pure_eq_ok]
  obtain ⟨R, hR, hS, hE⟩ := forInt2_inv
    (fun i j (r : Matrix E) => r.HasShape n m ∧ ∀ i' j', (i' < i ∨ (i' = i ∧ j' < j)) →
      i' < n → j' < m → r.entry i' j' = A.entry i' j' - B.entry i' j') n m
    (fun i j r => do
      let x ← A.raw i j
      let y ← B.get i j
      r.put i j (x - y))
    ⟨List.replicate n (List.replicate m default)⟩
    ⟨replicate_shape n m default, by intro i' j' h; omega⟩
    (by
      intro i j t hi hj ⟨hs, he⟩
      obtain ⟨t', h1, h2, h3⟩ := put_of_shape hs i j hi hj (A.entry i j - B.entry i j)
      refine ⟨t', by simp only [raw_of_shape hA i j hi hj, get_of_shape hB i j hi hj,
        bind_ok, h1], h2, ?_⟩
      intro i' j' hb hi' hj'
      rw [h3]
      rcases (before_succ i j i' j').mp hb with hb' | ⟨e1, e2⟩
      · have hne : ¬ (i' = i ∧ j' = j) := by omega
        rw [if_neg hne]
        exact he i' j' hb' hi' hj'
      · subst e1 e2
        simp)
    (by
      intro i t _ ⟨hs, he⟩
      exact ⟨hs, fun i' j' hb hi' hj' => he i' j' (by omega) hi' hj'⟩)
  exact ⟨R, hR, hS, fun i j hi hj => hE i j (by omega) hi hj⟩

theorem transpose_spec [Inhabited E] {A : Matrix E} {n m : Nat} (hA : A.HasShape n m)
    (hn : 1 ≤ n) (hm : 1 ≤ m) :
    ∃ R, A.transpose = Except.ok R ∧ R.HasShape m n ∧
      ∀ i j, i < n → j < m → R.entry j i = A.entry i j := by
  simp only [transpose, getN_of_shape hA, getM_of_shape hA hn, bind_ok, ofDims,
    ofFill_of_pos m n hm hn]
  obtain ⟨R, hR, hS, hE⟩ := forInt2_inv
    (fun i j (r : Matrix E) => r.HasShape m n ∧ ∀ i' j', (i' < i ∨ (i' = i ∧ j' < j)) →
      i' < n → j' < m → r.entry j' i' = A.entry i' j') n m
    (fun i j r => do
      let x ← A.raw i j
      r.put j i x)
    ⟨List.replicate m (List.replicate n default)⟩
    ⟨replicate_shape m n default, by intro i' j' h; omega⟩
    (by
      intro i j t hi hj ⟨hs, he⟩
      obtain ⟨t', h1, h2, h3⟩ := put_of_shape hs j i hj hi (A.entry i j)
      refine ⟨t', by simp only [raw_of_shape hA i j hi hj, bind_ok, h1], h2, ?_⟩
      intro i' j' hb hi' hj'
      rw [h3]
      rcases (before_succ i j i' j').mp hb with hb' | ⟨e1, e2⟩
      · have hne : ¬ (j' = j ∧ i' = i) := by omega
        rw [if_neg hne]
        exact he i' j' hb' hi' hj'
      · subst e1 e2
        simp)
    (by
      intro i t _ ⟨hs, he⟩
      exact ⟨hs, fun i' j' hb hi' hj' => he i' j' (by omega) hi' hj'⟩)
  exact ⟨R, hR, hS, fun i j hi hj => hE i j (by omega) hi hj⟩

theorem dot_succ [Inhabited E] [Add E] [Mul E] (A B : Matrix E) (k i j : Nat) :
    dot A B (k + 1) i j = dot A B k i j + A.entry i k * B.entry k j := by
  simp [dot, List.range_succ, List.foldl_append]

theorem mul_spec [Inhabited E] [Add E] [Mul E] {A B : Matrix E} {n k m : Nat}
    (hA : A.HasShape n k) (hB : B.HasShape k m) (hn : 1 ≤ n) (hk : 1 ≤ k) (hm : 1 ≤ m) :
    ∃ R, A.mul B = Except.ok R ∧ R.HasShape n m ∧
      ∀ i j, i < n → j < m → R.entry i j = dot A B k i j := by
  simp only [mul, getN_of_shape hA, getN_of_shape hB, getM_of_shape hA hn,
    getM_of_shape hB hk, bind_ok, ne_eq, not_true_eq_false, if_false, ofDims,
    ofFill_of_pos n m hn hm, pure_eq_ok]
  obtain ⟨R, hR, hS, hE, _⟩ := forInt2_inv
    (fun i j (r : Matrix E) => r.HasShape n m ∧
      (∀ i' j', (i' < i ∨ (i' = i ∧ j' < j)) → i' < n → j' < m →
        r.entry i' j' = dot A B k i' j') ∧
      (∀ i' j', ¬ (i' < i ∨ (i' = i ∧ j' < j)) → i' < n → j' < m →
        r.entry i' j' = default)) n m
    (fun i j r => forInt (k : Int) (fun t r => do
      let x ← A.raw i t
      let y ← B.get t j
      let old ← r.get i j
      r.put i j (old + x * y)) r)
    ⟨List.replicate n (List.replicate m default)⟩
    ⟨replicate_shape n m default, by intro i' j' h; omega,
      fun i' j' _ hi' hj' => replicate_entry n m default i' j' hi' hj'⟩
    (by
      intro i j r hi hj ⟨hs, hdone, htodo⟩
      obtain ⟨r', hr', hs', hacc, hframe⟩ := forInt_inv
        (fun t (u : Matrix E) => u.HasShape n m ∧ u.entry i j = dot A B t i j ∧
          ∀ i' j', ¬ (i' = i ∧ j' = j) → u.entry i' j' = r.entry i' j') k
        (fun t r => do
          let x ← A.raw i t
          let y ← B.get t j
          let old ← r.get i j
          r.put i j (old + x * y)) r
        ⟨hs, by rw [htodo i j (by omega) hi hj]; simp [dot], fun _ _ _ => rfl⟩
        (by
          intro t u ht ⟨hu, hacc, hfr⟩
          obtain ⟨u', h1, h2, h3⟩ := put_of_shape hu i j hi hj
            (u.entry i j + A.entry i t * B.entry t j)
          refine ⟨u', by simp only [raw_of_shape hA i t hi ht, get_of_shape hB t j ht hj,
            get_of_shape hu i j hi hj, bind_ok, h1], h2, ?_, ?_⟩
          · rw [h3, if_pos ⟨rfl, rfl⟩, hacc, dot_succ]
          · intro i' j' hne
            rw [h3, if_neg hne]
            exact hfr i' j' hne)
      refine ⟨r', hr', hs', ?_, ?_⟩
      · intro i' j' hb hi' hj'
        rcases (before_succ i j i' j').mp hb with hb' | ⟨e1, e2⟩
        · rw [hframe i' j' (by omega)]
          exact hdone i' j' hb' hi' hj'
        · subst e1 e2
          exact hacc
      · intro i' j' hb hi' hj'
        rw [hframe i' j' (by omega)]
        exact htodo i' j' (by omega) hi' hj')
    (by
      intro i t _ ⟨hs, hdone, htodo⟩
      exact ⟨hs, fun i' j' hb hi' hj' => hdone i' j' (by omega) hi' hj',
        fun i' j' hb hi' hj' => htodo i' j' (by omega) hi' hj'⟩)
  exact ⟨R, hR, hS, fun i j hi hj => hE i j (by omega) hi hj⟩

theorem eq_of_shape [DecidableEq E] {A B : Matrix E} {n m : Nat} (hA : A.HasShape n m)
    (hB : B.HasShape n m) (hn : 1 ≤ n) :
    A.eq B = Except.ok (decide (A.data = B.data)) := by
  simp [eq, getN_of_shape hA, getN_of_shape hB, getM_of_shape hA hn, getM_of_shape hB hn,
    bind_ok, pure_eq_ok]

theorem mul_mismatch [Inhabited E] [Add E] [Mul E] {A B : Matrix E} {n k : Nat}
    (hA : A.HasShape n k) (hn : 1 ≤ n) (h : (k : Int) ≠ B.getN) :
    A.mul B = Except.error (Err.runtime_error What.bad_multiplication) := by
  simp only [mul, getM_of_shape hA hn, bind_ok, ne_eq, h, not_false_eq_true, if_true,
    throw_eq_error, bind_error]

theorem add_mismatch [Inhabited E] [Add E] {A B : Matrix E} {n m n' m' : Nat}
    (hA : A.HasShape n m) (hB : B.HasShape n' m') (hn : 1 ≤ n) (hn' : 1 ≤ n')
    (h : ¬ (n = n' ∧ m = m')) :
    A.add B = Except.error (Err.runtime_error What.bad_addition) := by
  simp only [add, getN_of_shape hA, getN_of_shape hB, getM_of_shape hA hn,
    getM_of_shape hB hn', bind_ok]
  by_cases h1 : (n : Int) = (n' : Int)
  · have h3 : (m : Int) ≠ (m' : Int) := by omega
    simp [h1, h3, throw_eq_error, bind_error, pure_eq_ok, bind_ok]
  · simp [h1, throw_eq_error, bind_error]

theorem sub_mismatch [Inhabited E] [Sub E] {A B : Matrix E} {n m n' m' : Nat}
    (hA : A.HasShape n m) (hB : B.HasShape n' m') (hn : 1 ≤ n) (hn' : 1 ≤ n')
    (h : ¬ (n = n' ∧ m = m')) :
    A.sub B = Except.error (Err.runtime_error What.bad_subtraction) := by
  simp only [sub, getN_of_shape hA, getN_of_shape hB, getM_of_shape hA hn,
    getM_of_shape hB hn', bind_ok]
  by_cases h1 : (n : Int) = (n' : Int)
  · have h3 : (m : Int) ≠ (m' : Int) := by omega
    simp [h1, h3, throw_eq_error, bind_error, pure_eq_ok, bind_ok]
  · simp [h1, throw_eq_error, bind_error]

theorem ofFill_fails (n m : Int) (e : E) (h : n < 1 ∨ m < 1) :
    ∃ err, ofFill n m e = Except.error err := by
  unfold ofFill vector_fill
  by_cases h1 : m < 0
  · exact ⟨Err.length_error, by simp only [h1, if_true, bind_error]⟩
  · by_cases h2 : n < 0
    · exact ⟨Err.length_error, by simp only [h1, h2, if_true, if_false, bind_ok, bind_error]⟩
    · exact ⟨Err.runtime_error What.invalid_dimension, by
        simp only [h1, h2, h, if_true, if_false, bind_ok, throw_eq_error, bind_error]⟩

theorem ofFill_succeeds [Inhabited E] (n m : Int) (e : E) (h : ¬ (n < 1 ∨ m < 1)) :
    ∃ R, ofFill n m e = Except.ok R ∧ R.getN = n ∧ R.getM = Except.ok m ∧
      ∀ i j : Int, 0 ≤ i → i < n → 0 ≤ j → j < m → R.get i j = Except.ok e := by
  obtain ⟨n', rfl⟩ : ∃ n' : Nat, n = (n' : Int) := ⟨n.toNat, by omega⟩
  obtain ⟨m', rfl⟩ : ∃ m' : Nat, m = (m' : Int) := ⟨m.toNat, by omega⟩
  have hn : 1 ≤ n' := by omega
  have hm : 1 ≤ m' := by omega
  have hS := replicate_shape n' m' e
  refine ⟨_, ofFill_of_pos n' m' hn hm e, getN_of_shape hS, getM_of_shape hS hn, ?_⟩
  intro i j hi0 hi hj0 hj
  obtain ⟨i', rfl⟩ : ∃ i' : Nat, i = (i' : Int) := ⟨i.toNat, by omega⟩
  obtain ⟨j', rfl⟩ : ∃ j' : Nat, j = (j' : Int) := ⟨j.toNat, by omega⟩
  rw [get_of_shape hS i' j' (by omega) (by omega),
    replicate_entry n' m' e i' j' (by omega) (by omega)]

end Matrix

/-! ### The claims -/

open Matrix

/-- C1: for `A` of shape `(n, k)` and `B` of shape `(k, m)` with `n, k, m ≥ 1`,
`A * B` returns a matrix whose entry `(i, j)`, read with `get`, is
`A(i,0)*B(0,j) + ... + A(i,k-1)*B(k-1,j)` accumulated from left to right onto the
default element, where `A(i,t)` and `B(t,j)` are what `get` reads; and the
product of the two matrices of the unit test is `[[56,54],[54,56],[56,54]]`. -/
theorem C1_mul_entries {E : Type} [Inhabited E] [Add E] [Mul E] (A B : Matrix E)
    (n k m : Nat) (hA : A.HasShape n k) (hB : B.HasShape k m)
    (hn : 1 ≤ n) (hk : 1 ≤ k) (hm : 1 ≤ m) :
    (∃ R, A.mul B = Except.ok R ∧
      ∀ i j : Nat, i < n → j < m → R.get (i : Int) (j : Int) = Except.ok
        ((List.range k).foldl (fun acc t => acc + A.entry i t * B.entry t j) default)) ∧
    (∀ i t : Nat, i < n → t < k → A.get (i : Int) (t : Int) = Except.ok (A.entry i t)) ∧
    (∀ t j : Nat, t < k → j < m → B.get (t : Int) (j : Int) = Except.ok (B.entry t j)) ∧
    test_a.mul test_b = Except.ok ⟨[[56, 54], [54, 56], [56, 54]]⟩ := by
  obtain ⟨R, hR, hS, hE⟩ := mul_spec hA hB hn hk hm
  refine ⟨⟨R, hR, fun i j hi hj => ?_⟩, fun i t hi ht => get_of_shape hA i t hi ht,
    fun t j ht hj => get_of_shape hB t j ht hj, by decide⟩
  rw [get_of_shape hS i j hi hj, hE i j hi hj]
  rfl

theorem C1_mul_entries_witness :
    test_a.HasShape 3 4 ∧ test_b.HasShape 4 2 ∧
    (∃ R, test_a.mul test_b = Except.ok R ∧
      ∀ i j : Nat, i < 3 → j < 2 → R.get (i : Int) (j : Int) = Except.ok
        ((List.range 4).foldl
          (fun acc t => acc + test_a.entry i t * test_b.entry t j) default)) :=
  ⟨by decide, by decide,
    (C1_mul_entries test_a test_b 3 4 2 (by decide) (by decide) (by decide) (by decide)
      (by decide)).1⟩

/-- C2: for well-formed `A` and `B`, `A * B` throws exactly when
`A.getM() != B.getN()`, and a product that is returned has `getN() = A.getN()`
and `getM() = B.getM()`. -/
theorem C2_mul_shape {E : Type} [Inhabited E] [Add E] [Mul E] (A B : Matrix E)
    (hA : A.WellFormed) (hB : B.WellFormed) :
    ((∃ e, A.mul B = Except.error e) ↔ A.getM ≠ Except.ok B.getN) ∧
    (A.getM = Except.ok B.getN → ∃ R, A.mul B = Except.ok R) ∧
    (∀ R, A.mul B = Except.ok R → R.getN = A.getN ∧ R.getM = B.getM) := by
  obtain ⟨n, k, hn, hk, sA⟩ := wellFormed_hasShape hA
  obtain ⟨k', m, hk', hm, sB⟩ := wellFormed_hasShape hB
  rw [getM_of_shape sA hn, getN_of_shape sB, getN_of_shape sA, getM_of_shape sB hk']
  by_cases h : k = k'
  · subst h
    obtain ⟨R, hR, hS, _⟩ := mul_spec sA sB hn hk hm
    refine ⟨?_, fun _ => ⟨R, hR⟩, ?_⟩
    · simp [hR]
    · intro R' hR'
      rw [hR] at hR'
      injection hR' with hR'
      subst hR'
      exact ⟨getN_of_shape hS, getM_of_shape hS hn⟩
  · have hne : (k : Int) ≠ B.getN := by rw [getN_of_shape sB]; omega
    have hE := mul_mismatch sA hn hne
    refine ⟨?_, ?_, ?_⟩
    · constructor
      · intro _ h2
        injection h2 with h2
        omega
      · intro _
        exact ⟨_, hE⟩
    · intro h2
      injection h2 with h2
      omega
    · intro R' hR'
      rw [hE] at hR'
      cases hR'

theorem C2_mul_shape_witness :
    test_a.WellFormed ∧ test_b.WellFormed ∧
    ((∃ e, test_a.mul test_b = Except.error e) ↔ test_a.getM ≠ Except.ok test_b.getN) ∧
    (test_a.getM = Except.ok test_b.getN → ∃ R, test_a.mul test_b = Except.ok R) ∧
    (∀ R, test_a.mul test_b = Except.ok R → R.getN = test_a.getN ∧ R.getM = test_b.getM) :=
  ⟨by decide, by decide, C2_mul_shape test_a test_b (by decide) (by decide)⟩

/-- C3: for a well-formed `A` of shape `(n, m)` and a well-formed `B`, `A + B`
and `A - B` throw exactly when `B` does not have the same `getN()` and `getM()`
as `A`; otherwise each returns a matrix of the shape of `A` whose entry `(i, j)`
is `A(i,j) + B(i,j)`, respectively `A(i,j) - B(i,j)`, for every `i < n` and
`j < m`. Both operators are functions of their operands, which they leave as
they are. -/
theorem C3_add_sub {E : Type} [Inhabited E] [Add E] [Sub E] (A B : Matrix E) (n m : Nat)
    (hA : A.HasShape n m) (hn : 1 ≤ n) (hm : 1 ≤ m) (hB : B.WellFormed) :
    ((∃ e, A.add B = Except.error e) ↔ ¬ (A.getN = B.getN ∧ A.getM = B.getM)) ∧
    ((∃ e, A.sub B = Except.error e) ↔ ¬ (A.getN = B.getN ∧ A.getM = B.getM)) ∧
    ((A.getN = B.getN ∧ A.getM = B.getM) →
      (∃ R, A.add B = Except.ok R ∧ R.getN = A.getN ∧ R.getM = A.getM ∧
        ∀ i j : Nat, i < n → j < m → ∃ a b, A.get (i : Int) (j : Int) = Except.ok a ∧
          B.get (i : Int) (j : Int) = Except.ok b ∧
          R.get (i : Int) (j : Int) = Except.ok (a + b)) ∧
      (∃ R, A.sub B = Except.ok R ∧ R.getN = A.getN ∧ R.getM = A.getM ∧
        ∀ i j : Nat, i < n → j < m → ∃ a b, A.get (i : Int) (j : Int) = Except.ok a ∧
          B.get (i : Int) (j : Int) = Except.ok b ∧
          R.get (i : Int) (j : Int) = Except.ok (a - b))) := by
  obtain ⟨n', m', hn', hm', sB⟩ := wellFormed_hasShape hB
  rw [getN_of_shape hA, getM_of_shape hA hn, getN_of_shape sB, getM_of_shape sB hn']
  by_cases h : n = n' ∧ m = m'
  · obtain ⟨e1, e2⟩ := h
    subst e1 e2
    obtain ⟨R, hR, hS, hE⟩ := add_spec hA sB hn hm
    obtain ⟨R', hR', hS', hE'⟩ := sub_spec hA sB hn hm
    refine ⟨by simp [hR], by simp [hR'], fun _ => ⟨⟨R, hR, ?_, ?_, ?_⟩, ⟨R', hR', ?_, ?_, ?_⟩⟩⟩
    · exact getN_of_shape hS
    · exact getM_of_shape hS hn
    · intro i j hi hj
      exact ⟨_, _, get_of_shape hA i j hi hj, get_of_shape sB i j hi hj,
        by rw [get_of_shape hS i j hi hj, hE i j hi hj]⟩
    · exact getN_of_shape hS'
    · exact getM_of_shape hS' hn
    · intro i j hi hj
      exact ⟨_, _, get_of_shape hA i j hi hj, get_of_shape sB i j hi hj,
        by rw [get_of_shape hS' i j hi hj, hE' i j hi hj]⟩
  · have hne : ¬ ((n : Int) = (n' : Int) ∧
        (Except.ok (m : Int) : Except Err Int) = Except.ok (m' : Int)) := by
      intro ⟨h1, h2⟩
      injection h2 with h2
      omega
    refine ⟨?_, ?_, fun h2 => absurd h2 hne⟩
    · exact ⟨fun _ => hne, fun _ => ⟨_, add_mismatch hA sB hn hn' h⟩⟩
    · exact ⟨fun _ => hne, fun _ => ⟨_, sub_mismatch hA sB hn hn' h⟩⟩

theorem C3_add_sub_witness :
    test_a.HasShape 3 4 ∧ test_a.WellFormed ∧
    ((∃ e, test_a.add test_a = Except.error e) ↔
      ¬ (test_a.getN = test_a.getN ∧ test_a.getM = test_a.getM)) ∧
    ((∃ e, test_a.add test_b = Except.error e) ↔
      ¬ (test_a.getN = test_b.getN ∧ test_a.getM = test_b.getM)) :=
  ⟨by decide, by decide,
    (C3_add_sub test_a test_a 3 4 (by decide) (by decide) (by decide) (by decide)).1,
    (C3_add_sub test_a test_b 3 4 (by decide) (by decide) (by decide) (by decide)).1⟩

/-- C4: for well-formed `A` and `B` of one shape over a ring, `A + B` returns a
matrix `S`, `S - B` returns a matrix `R`, and `R == A` is true. -/
theorem C4_add_sub_cancel {E : Type} [Inhabited E] [DecidableEq E] [Ring E]
    (A B : Matrix E) (n m : Nat) (hA : A.HasShape n m) (hB : B.HasShape n m)
    (hn : 1 ≤ n) (hm : 1 ≤ m) :
    ∃ S R, A.add B = Except.ok S ∧ S.sub B = Except.ok R ∧ R.eq A = Except.ok true := by
  obtain ⟨S, hS, sS, eS⟩ := add_spec hA hB hn hm
  obtain ⟨R, hR, sR, eR⟩ := sub_spec sS hB hn hm
  refine ⟨S, R, hS, hR, ?_⟩
  have hRA : R = A := ext_of_shape sR hA (fun i j hi hj => by
    rw [eR i j hi hj, eS i j hi hj, add_sub_cancel_right])
  rw [eq_of_shape sR hA hn, hRA]
  simp

theorem C4_add_sub_cancel_witness :
    test_a.HasShape 3 4 ∧
    ∃ S R, test_a.add test_a = Except.ok S ∧ S.sub test_a = Except.ok R ∧
      R.eq test_a = Except.ok true :=
  ⟨by decide,
    C4_add_sub_cancel test_a test_a 3 4 (by decide) (by decide) (by decide) (by decide)⟩

/-- C5: for well-formed `A` and `B` of one shape over a ring, `A + B` and
`B + A` both return, and `(A + B) == (B + A)` is true. -/
theorem C5_add_comm {E : Type} [Inhabited E] [DecidableEq E] [Ring E]
    (A B : Matrix E) (n m : Nat) (hA : A.HasShape n m) (hB : B.HasShape n m)
    (hn : 1 ≤ n) (hm : 1 ≤ m) :
    ∃ S T, A.add B = Except.ok S ∧ B.add A = Except.ok T ∧ S.eq T = Except.ok true := by
  obtain ⟨S, hS, sS, eS⟩ := add_spec hA hB hn hm
  obtain ⟨T, hT, sT, eT⟩ := add_spec hB hA hn hm
  refine ⟨S, T, hS, hT, ?_⟩
  have hST : S = T := ext_of_shape sS sT (fun i j hi hj => by
    rw [eS i j hi hj, eT i j hi hj, add_comm])
  rw [eq_of_shape sS sT hn, hST]
  simp

theorem C5_add_comm_witness :
    test_a.HasShape 3 4 ∧ (⟨[[0, 1, 0, 2], [5, 5, 5, 5], [-1, 0, 0, 9]]⟩ : Matrix Int).HasShape 3 4 ∧
    ∃ S T, test_a.add ⟨[[0, 1, 0, 2], [5, 5, 5, 5], [-1, 0, 0, 9]]⟩ = Except.ok S ∧
      Matrix.add ⟨[[0, 1, 0, 2], [5, 5, 5, 5], [-1, 0, 0, 9]]⟩ test_a = Except.ok T ∧
      S.eq T = Except.ok true :=
  ⟨by decide, by decide,
    C5_add_comm test_a ⟨[[0, 1, 0, 2], [5, 5, 5, 5], [-1, 0, 0, 9]]⟩ 3 4 (by decide)
      (by decide) (by decide) (by decide)⟩

/-- C6: for a well-formed `A` of shape `(n, m)`, `transpose()` returns a matrix
with `getN() = m` and `getM() = n` whose entry `(j, i)` is the entry `(i, j)` of
`A` for every `i < n` and `j < m`. The method is a function of `A`, which it
leaves as it is. -/
theorem C6_transpose {E : Type} [Inhabited E] (A : Matrix E) (n m : Nat)
    (hA : A.HasShape n m) (hn : 1 ≤ n) (hm : 1 ≤ m) :
    ∃ R, A.transpose = Except.ok R ∧ R.getN = (m : Int) ∧ R.getM = Except.ok (n : Int) ∧
      A.getN = (n : Int) ∧ A.getM = Except.ok (m : Int) ∧
      ∀ i j : Nat, i < n → j < m → ∃ x, A.get (i : Int) (j : Int) = Except.ok x ∧
        R.get (j : Int) (i : Int) = Except.ok x := by
  obtain ⟨R, hR, sR, eR⟩ := transpose_spec hA hn hm
  refine ⟨R, hR, getN_of_shape sR, getM_of_shape sR hm, getN_of_shape hA,
    getM_of_shape hA hn, fun i j hi hj => ⟨_, get_of_shape hA i j hi hj, ?_⟩⟩
  rw [get_of_shape sR j i hj hi, eR i j hi hj]

theorem C6_transpose_witness :
    test_m1.HasShape 2 3 ∧
    ∃ R, test_m1.transpose = Except.ok R ∧ R.getN = 3 ∧ R.getM = Except.ok 2 ∧
      test_m1.getN = 2 ∧ test_m1.getM = Except.ok 3 ∧
      ∀ i j : Nat, i < 2 → j < 3 → ∃ x, test_m1.get (i : Int) (j : Int) = Except.ok x ∧
        R.get (j : Int) (i : Int) = Except.ok x :=
  ⟨by decide, C6_transpose test_m1 2 3 (by decide) (by decide) (by decide)⟩

/-- C7: for every well-formed `A`, square or not, `A.transpose()` returns a
matrix `T`, `T.transpose()` returns a matrix `R`, and `R == A` is true. -/
theorem C7_transpose_involution {E : Type} [Inhabited E] [DecidableEq E] (A : Matrix E)
    (hA : A.WellFormed) :
    ∃ T R, A.transpose = Except.ok T ∧ T.transpose = Except.ok R ∧
      R.eq A = Except.ok true := by
  obtain ⟨n, m, hn, hm, sA⟩ := wellFormed_hasShape hA
  obtain ⟨T, hT, sT, eT⟩ := transpose_spec sA hn hm
  obtain ⟨R, hR, sR, eR⟩ := transpose_spec sT hm hn
  refine ⟨T, R, hT, hR, ?_⟩
  have hRA : R = A := ext_of_shape sR sA (fun i j hi hj => by
    rw [eR j i hj hi, eT i j hi hj])
  rw [eq_of_shape sR sA hn, hRA]
  simp

theorem C7_transpose_involution_witness :
    test_m1.WellFormed ∧
    ∃ T R, test_m1.transpose = Except.ok T ∧ T.transpose = Except.ok R ∧
      R.eq test_m1 = Except.ok true :=
  ⟨by decide, C7_transpose_involution test_m1 (by decide)⟩

/-- C10: for all integers `n`, `m` and every element `e`, `Matrix(n, m)` and
`Matrix(n, m, e)` throw exactly when `n < 1` or `m < 1`; otherwise the matrix
built has `getN() = n`, `getM() = m` and `get(i, j)` is `E()`, respectively `e`,
for every `0 <= i < n` and `0 <= j < m`. -/
theorem C10_constructors {E : Type} [Inhabited E] (n m : Int) (e : E) :
    ((∃ err, (ofDims n m : Except Err (Matrix E)) = Except.error err) ↔ (n < 1 ∨ m < 1)) ∧
    ((∃ err, ofFill n m e = Except.error err) ↔ (n < 1 ∨ m < 1)) ∧
    (¬ (n < 1 ∨ m < 1) →
      (∃ R : Matrix E, ofDims n m = Except.ok R ∧ R.getN = n ∧ R.getM = Except.ok m ∧
        ∀ i j : Int, 0 ≤ i → i < n → 0 ≤ j → j < m → R.get i j = Except.ok default) ∧
      (∃ R : Matrix E, ofFill n m e = Except.ok R ∧ R.getN = n ∧ R.getM = Except.ok m ∧
        ∀ i j : Int, 0 ≤ i → i < n → 0 ≤ j → j < m → R.get i j = Except.ok e)) := by
  have key : ∀ x : E, ((∃ err, ofFill n m x = Except.error err) ↔ (n < 1 ∨ m < 1)) := by
    intro x
    constructor
    · intro ⟨err, herr⟩
      by_contra hc
      obtain ⟨R, hR, _⟩ := ofFill_succeeds n m x hc
      rw [hR] at herr
      cases herr
    · exact ofFill_fails n m x
  exact ⟨key default, key e, fun h => ⟨ofFill_succeeds n m default h, ofFill_succeeds n m e h⟩⟩


/-! ### Decimal text of an `int` -/


theorem digitChar_toNat (d : Nat) (h : d < 10) : (Nat.digitChar d).toNat = 48 + d := by
  interval_cases d <;> rfl

theorem toDigitsCore_append (fuel : Nat) : ∀ (n : Nat) (ds : List Char),
    Nat.toDigitsCore 10 fuel n ds = Nat.toDigitsCore 10 fuel n [] ++ ds := by
  induction fuel with
  | zero => intro n ds; simp [Nat.toDigitsCore]
  | succ f ih =>
    intro n ds
    simp only [Nat.toDigitsCore]
    split
    · simp
    · rw [ih (n / 10) (Nat.digitChar (n % 10) :: ds), ih (n / 10) [Nat.digitChar (n % 10)]]
      simp

theorem digitsValue_snoc (l : List Char) (c : Char) :
    digitsValue (l ++ [c]) = 10 * digitsValue l + (c.toNat - 48) := by
  simp [digitsValue, List.foldl_append]

theorem toDigitsCore_spec (fuel : Nat) : ∀ n : Nat, n < fuel →
    Nat.toDigitsCore 10 fuel n [] ≠ [] ∧
    (∀ c ∈ Nat.toDigitsCore 10 fuel n [], isDigit c = true) ∧
    digitsValue (Nat.toDigitsCore 10 fuel n []) = n := by
  induction fuel with
  | zero => intro n h; omega
  | succ f ih =>
    intro n hn
    have hd : n % 10 < 10 := Nat.mod_lt _ (by decide)
    have hc := digitChar_toNat (n % 10) hd
    have hdig : isDigit (Nat.digitChar (n % 10)) = true := by
      simp only [isDigit, hc, decide_eq_true_eq]; omega
    simp only [Nat.toDigitsCore]
    split
    · rename_i h0
      refine ⟨by simp, ?_, ?_⟩
      · intro c hcm
        rw [List.mem_singleton] at hcm
        rw [hcm]; exact hdig
      · simp only [digitsValue, List.foldl_cons, List.foldl_nil, hc]
        omega
    · rename_i h0
      rw [toDigitsCore_append]
      obtain ⟨_, h2, h3⟩ := ih (n / 10) (by omega)
      refine ⟨by simp, ?_, ?_⟩
      · intro c hcm
        rcases List.mem_append.mp hcm with h | h
        · exact h2 c h
        · rw [List.mem_singleton] at h
          rw [h]; exact hdig
      · rw [digitsValue_snoc, h3, hc]
        omega

theorem toDigits_spec (n : Nat) :
    Nat.toDigits 10 n ≠ [] ∧ (∀ c ∈ Nat.toDigits 10 n, isDigit c = true) ∧
    digitsValue (Nat.toDigits 10 n) = n :=
  toDigitsCore_spec (n + 1) n (Nat.lt_succ_self n)

theorem dropWhile_space (sp : List Char) (hsp : ∀ c ∈ sp, isSpace c = true) (d : Char)
    (hd : isSpace d = false) (t : List Char) :
    (sp ++ d :: t).dropWhile isSpace = d :: t := by
  induction sp with
  | nil => simp [List.dropWhile, hd]
  | cons c cs ih =>
    have hc : isSpace c = true := hsp c (by simp)
    simp only [List.cons_append, List.dropWhile_cons, hc, if_true]
    exact ih (fun x hx => hsp x (by simp [hx]))

theorem takeWhile_digits (ds : List Char) (hds : ∀ c ∈ ds, isDigit c = true) (d : Char)
    (hd : isDigit d = false) (t : List Char) :
    (ds ++ d :: t).takeWhile isDigit = ds ∧ (ds ++ d :: t).dropWhile isDigit = d :: t := by
  induction ds with
  | nil => simp [List.takeWhile, List.dropWhile, hd]
  | cons c cs ih =>
    have hc : isDigit c = true := hds c (by simp)
    obtain ⟨h1, h2⟩ := ih (fun x hx => hds x (by simp [hx]))
    simp [List.takeWhile_cons, List.dropWhile_cons, hc, h1, h2]

theorem showInt_spec (x : Int) :
    ∃ c cs, showInt x = c :: cs ∧ isSpace c = false ∧ c ≠ Char.ofNat 43 ∧
      (∀ d ∈ c :: cs, isSpace d = false) ∧
      ∃ ds, (∀ d ∈ ds, isDigit d = true) ∧ ds ≠ [] ∧
        (if c = Char.ofNat 45 then cs else c :: cs) = ds ∧
        (if c = Char.ofNat 45 then -(digitsValue ds : Int) else (digitsValue ds : Int)) = x := by
  have digit_facts : ∀ d : Char, isDigit d = true →
      isSpace d = false ∧ d ≠ Char.ofNat 43 ∧ d ≠ Char.ofNat 45 := by
    intro d hd
    simp only [isDigit, decide_eq_true_eq] at hd
    refine ⟨?_, ?_, ?_⟩
    · simp only [isSpace, decide_eq_false_iff_not]; omega
    · intro h; rw [h] at hd; revert hd; decide
    · intro h; rw [h] at hd; revert hd; decide
  cases x with
  | ofNat n =>
    obtain ⟨h1, h2, h3⟩ := toDigits_spec n
    cases hl : Nat.toDigits 10 n with
    | nil => exact absurd hl h1
    | cons c cs =>
      rw [hl] at h2 h3
      obtain ⟨f1, f2, f3⟩ := digit_facts c (h2 c (by simp))
      refine ⟨c, cs, by simp [showInt, hl], f1, f2, fun d hd => (digit_facts d (h2 d hd)).1,
        c :: cs, h2, by simp, by simp [f3], ?_⟩
      simp [f3, h3]
  | negSucc n =>
    obtain ⟨h1, h2, h3⟩ := toDigits_spec (n + 1)
    refine ⟨Char.ofNat 45, Nat.toDigits 10 (n + 1), by simp [showInt], by decide, by decide,
      ?_, Nat.toDigits 10 (n + 1), h2, h1, by simp, ?_⟩
    · intro d hd
      rcases List.mem_cons.mp hd with h | h
      · rw [h]; decide
      · exact (digit_facts d (h2 d h)).1
    · simp only [if_true, h3]
      rw [Int.negSucc_eq]
      push_cast
      ring

theorem readInt_showInt (sp : List Char) (hsp : ∀ c ∈ sp, isSpace c = true) (x : Int)
    (hx : INT_MIN ≤ x ∧ x ≤ INT_MAX) (rest : List Char) (old : Int) :
    IStream.readInt ⟨sp ++ (showInt x ++ Char.ofNat 32 :: rest), false⟩ old
      = (x, ⟨Char.ofNat 32 :: rest, false⟩) := by
  obtain ⟨c, cs, hshow, hc, hplus, _, ds, hds, hne, hbody, hval⟩ := showInt_spec x
  have hdrop : (sp ++ (showInt x ++ Char.ofNat 32 :: rest)).dropWhile isSpace
      = c :: (cs ++ Char.ofNat 32 :: rest) := by
    rw [hshow, List.cons_append]
    exact dropWhile_space sp hsp c hc _
  have hb : (if c = Char.ofNat 45 ∨ c = Char.ofNat 43 then cs ++ Char.ofNat 32 :: rest
      else c :: (cs ++ Char.ofNat 32 :: rest)) = ds ++ Char.ofNat 32 :: rest := by
    by_cases h45 : c = Char.ofNat 45
    · simp only [h45, true_or, if_true] at hbody ⊢
      rw [hbody]
    · simp only [h45, hplus, or_self, if_false] at hbody ⊢
      rw [← hbody, List.cons_append]
  obtain ⟨ht, hd⟩ := takeWhile_digits ds hds (Char.ofNat 32) (by decide) rest
  have hempty : ds.isEmpty = false := by
    cases ds with
    | nil => exact absurd rfl hne
    | cons _ _ => rfl
  have h1 : ¬ x < INT_MIN := by omega
  have h2 : ¬ x > INT_MAX := by omega
  have e45 : (Char.ofNat 45) = '-' := rfl
  have e43 : (Char.ofNat 43) = '+' := rfl
  rw [e45] at hb hval
  rw [e43] at hb
  simp only [IStream.readInt, hdrop, hb, ht, hd, hempty, hval, h1, h2, if_false,
    Bool.false_eq_true]

/-! ### Serialisation -/

/-- The rule for two nested loops whose inner bound is read from the state. -/
theorem forInt2_inv_bound {σ : Type} (P : Nat → Nat → σ → Prop) (n m : Nat)
    (bound : σ → Except Err Int) (body : Int → Int → σ → Except Err σ) (s : σ) (h0 : P 0 0 s)
    (hbound : ∀ i t, i < n → P i 0 t → bound t = Except.ok (m : Int))
    (hstep : ∀ i j t, i < n → j < m → P i j t →
      ∃ t', body (i : Int) (j : Int) t = Except.ok t' ∧ P i (j + 1) t')
    (hrow : ∀ i t, i < n → P i m t → P (i + 1) 0 t) :
    ∃ t, forInt (n : Int)
      (fun i r => bound r >>= fun b => forInt b (fun j r => body i j r) r) s
      = Except.ok t ∧ P n 0 t := by
  apply forInt_inv (fun i t => P i 0 t) n _ s h0
  intro i t hi hP
  obtain ⟨t', ht', hP'⟩ := forInt_inv (fun j t => P i j t) m
    (fun j r => body (i : Int) j r) t hP (fun j u hj hu => hstep i j u hi hj hu)
  exact ⟨t', by simp only [hbound i t hi hP, bind_ok, ht'], hrow i t' hi hP'⟩

theorem textOf_append {E : Type} (shw : E → List Char) (xs ys : List E) :
    textOf shw (xs ++ ys) = textOf shw xs ++ textOf shw ys := by
  simp [textOf, List.flatMap_append]

theorem textOf_cons {E : Type} (shw : E → List Char) (x : E) (xs : List E) :
    textOf shw (x :: xs) = shw x ++ ' ' :: textOf shw xs := by
  simp [textOf, List.flatMap_cons]

namespace Matrix

variable {E : Type}

theorem row_getElem? [Inhabited E] {A : Matrix E} {n m : Nat} (h : A.HasShape n m)
    (i j : Nat) (hi : i < n) (hj : j < m) :
    (A.data.getD i [])[j]? = some (A.entry i j) := by
  have hl := row_length h i hi
  have hj' : j < (A.data.getD i []).length := by rw [hl]; exact hj
  rw [List.getElem?_eq_getElem hj', entry, List.getD_eq_getElem _ _ hj']

theorem data_getElem? {A : Matrix E} {n m : Nat} (h : A.HasShape n m) (i : Nat) (hi : i < n) :
    A.data[i]? = some (A.data.getD i []) := by
  have hi' : i < A.data.length := by rw [h.1]; exact hi
  simp [List.getD_eq_getElem?_getD, List.getElem?_eq_getElem hi']

theorem write_spec [Inhabited E] (shw : E → List Char) (os : List Char) {A : Matrix E}
    {n m : Nat} (hA : A.HasShape n m) (hn : 1 ≤ n) :
    write shw os A = Except.ok (os ++ showInt (n : Int) ++ [' '] ++ showInt (m : Int) ++ [' ']
      ++ textOf shw A.data.flatten) := by
  simp only [write, getN_of_shape hA, getM_of_shape hA hn, bind_ok]
  obtain ⟨out, hout, hP⟩ := forInt2_inv
    (fun i j (out : List Char) => out = os ++ showInt (n : Int) ++ [' '] ++ showInt (m : Int)
      ++ [' '] ++ textOf shw ((A.data.take i).flatten ++ (A.data.getD i []).take j)) n m
    (fun i j out => do
      let x ← A.raw i j
      pure (out ++ shw x ++ [' ']))
    (os ++ showInt (n : Int) ++ [' '] ++ showInt (m : Int) ++ [' '])
    (by simp [textOf])
    (by
      intro i j t hi hj ht
      refine ⟨t ++ shw (A.entry i j) ++ [' '], ?_, ?_⟩
      · simp only [raw_of_shape hA i j hi hj, bind_ok, pure_eq_ok]
      · simp only [ht, List.take_succ, row_getElem? hA i j hi hj]
        simp [textOf_append, textOf_cons, textOf])
    (by
      intro i t hi ht
      have hl := row_length hA i hi
      have : (A.data.getD i []).take m = A.data.getD i [] := by
        rw [← hl]; exact List.take_length _
      simp only [ht, List.take_succ, data_getElem? hA i hi, this]
      simp)
  rw [hout, hP]
  have h1 : A.data.take n = A.data := by rw [← hA.1]; exact List.take_length _
  simp [h1]

theorem flatten_drop (l : List (List E)) (i : Nat) :
    (l.drop i).flatten = l.getD i [] ++ (l.drop (i + 1)).flatten := by
  by_cases hi : i < l.length
  · rw [List.drop_eq_getElem_cons hi, List.flatten_cons, List.getD_eq_getElem _ _ hi]
  · have h1 : l.length ≤ i := by omega
    rw [List.drop_of_length_le h1, List.drop_of_length_le (by omega),
      List.getD_eq_default _ _ h1]
    rfl

theorem entry_inRange {A : Matrix Int} {n m : Nat} (hA : A.HasShape n m)
    (hr : InIntRange A) (i j : Nat) (hi : i < n) (hj : j < m) :
    INT_MIN ≤ A.entry i j ∧ A.entry i j ≤ INT_MAX := by
  have hi' : i < A.data.length := by rw [hA.1]; exact hi
  have hl := row_length hA i hi
  have hj' : j < (A.data.getD i []).length := by rw [hl]; exact hj
  have hmem : A.data.getD i [] ∈ A.data := by
    rw [List.getD_eq_getElem _ _ hi']; exact List.getElem_mem _
  have hx : A.entry i j ∈ A.data.getD i [] := by
    rw [entry, List.getD_eq_getElem _ _ hj']; exact List.getElem_mem _
  exact hr.2.2 _ hmem _ hx

theorem read_spec {A : Matrix Int} {n m : Nat} (hA : A.HasShape n m) (hn : 1 ≤ n)
    (hm : 1 ≤ m) (hr : InIntRange A) (D : Matrix Int) :
    read ⟨showInt (n : Int) ++ ' ' :: (showInt (m : Int) ++ ' ' ::
      textOf showInt A.data.flatten), false⟩ D = Except.ok (A, ⟨[' '], false⟩) := by
  have hwf := hasShape_wellFormed hA hn hm
  have hm' : (A.data.headD []).length = m := by
    have := wellFormed_hasShape hwf
    exact (shape_unique ⟨rfl, hwf.2.2⟩ hA hwf.1).2
  have hnr : INT_MIN ≤ (n : Int) ∧ (n : Int) ≤ INT_MAX := by
    have := hr.1
    rw [hA.1] at this
    exact ⟨by unfold INT_MIN; omega, this⟩
  have hmr : INT_MIN ≤ (m : Int) ∧ (m : Int) ≤ INT_MAX := by
    have := hr.2.1
    rw [hm'] at this
    exact ⟨by unfold INT_MIN; omega, this⟩
  have r1 := readInt_showInt [] (by simp) (n : Int) hnr
    (showInt (m : Int) ++ ' ' :: textOf showInt A.data.flatten) 0
  have r2 := readInt_showInt [' '] (by decide) (m : Int) hmr
    (textOf showInt A.data.flatten) 0
  simp only [List.nil_append, List.singleton_append] at r1 r2
  have hblank : ∀ c ∈ [' '], isSpace c = true := by decide
  obtain ⟨t, ht, hs, he, hb⟩ := forInt2_inv_bound
    (fun i j (st : Matrix Int × IStream) => st.1.HasShape n m ∧
      (∀ i' j', (i' < i ∨ (i' = i ∧ j' < j)) → i' < n → j' < m →
        st.1.entry i' j' = A.entry i' j') ∧
      st.2 = ⟨' ' :: textOf showInt ((A.data.getD i []).drop j ++
        (A.data.drop (i + 1)).flatten), false⟩) n m
    (fun st => st.1.getM)
    (fun i j st => do
      let old ← st.1.raw i j
      let (x, is) := st.2.readInt old
      let matrix ← st.1.rawSet i j x
      pure (matrix, is))
    (⟨List.replicate n (List.replicate m default)⟩,
      ⟨' ' :: textOf showInt A.data.flatten, false⟩)
    ⟨replicate_shape n m default, by intro i' j' h; omega, by
      have := flatten_drop A.data 0
      simp only [List.drop_zero] at this ⊢
      rw [← this]⟩
    (fun i t hi hP => getM_of_shape hP.1 hn)
    (by
      intro i j st hi hj ⟨hs, he, hb⟩
      have hl := row_length hA i hi
      have hj' : j < (A.data.getD i []).length := by rw [hl]; exact hj
      have hx : (A.data.getD i [])[j] = A.entry i j := by
        rw [entry, List.getD_eq_getElem _ _ hj']
      obtain ⟨M', h1, h2, h3⟩ := rawSet_of_shape hs i j hi hj (A.entry i j)
      have hread := readInt_showInt [' '] hblank (A.entry i j)
        (entry_inRange hA hr i j hi hj)
        (textOf showInt ((A.data.getD i []).drop (j + 1) ++ (A.data.drop (i + 1)).flatten))
        (st.1.entry i j)
      simp only [List.singleton_append] at hread
      refine ⟨(M', ⟨' ' :: textOf showInt ((A.data.getD i []).drop (j + 1) ++
        (A.data.drop (i + 1)).flatten), false⟩), ?_, h2, ?_, rfl⟩
      · simp only [raw_of_shape hs i j hi hj, bind_ok, hb, List.drop_eq_getElem_cons hj', hx,
          List.cons_append, textOf_cons, hread, h1, pure_eq_ok]
      · intro i' j' hbf hi' hj'
        rw [h3]
        rcases (before_succ i j i' j').mp hbf with hb' | ⟨e1, e2⟩
        · have hne : ¬ (i' = i ∧ j' = j) := by omega
          rw [if_neg hne]
          exact he i' j' hb' hi' hj'
        · subst e1 e2
          simp)
    (by
      intro i st hi ⟨hs, he, hb⟩
      refine ⟨hs, fun i' j' hbf hi' hj' => he i' j' (by omega) hi' hj', ?_⟩
      have hl := row_length hA i hi
      rw [hb, List.drop_of_length_le (by omega), List.nil_append, flatten_drop,
        List.drop_zero])
  have h1 : t.1 = A := ext_of_shape hs hA (fun i j hi hj => he i j (by omega) hi hj)
  have hlen := hA.1
  have h2 : t.2 = ⟨[' '], false⟩ := by
    rw [hb, List.getD_eq_default _ _ (by omega : A.data.length ≤ n),
      List.drop_of_length_le (by omega : A.data.length ≤ n + 1)]
    rfl
  have h3 : t = (A, ⟨[' '], false⟩) := by
    cases t
    simp only at h1 h2
    rw [h1, h2]
  rw [h3] at ht
  have hm0 : ¬ ((m : Int) < 0) := by omega
  have hn0 : ¬ ((n : Int) < 0) := by omega
  have hg : getN (⟨List.replicate n (List.replicate m default)⟩ : Matrix Int) = (n : Int) :=
    getN_of_shape (replicate_shape n m default)
  simp only [read, r1, r2, vector_fill, hm0, hn0, if_false, bind_ok, Int.toNat_ofNat, hg]
  exact ht

end Matrix

theorem tokensAux_token (w : List Char) : ∀ (cur rest : List Char),
    (∀ c ∈ w, isSpace c = false) → cur.reverse ++ w ≠ [] →
    tokensAux (w ++ ' ' :: rest) cur = (cur.reverse ++ w) :: tokensAux rest [] := by
  induction w with
  | nil =>
    intro cur rest _ hne
    have hsp : isSpace ' ' = true := by decide
    have hcur : cur.isEmpty = false := by
      cases cur with
      | nil => simp at hne
      | cons _ _ => rfl
    simp [tokensAux, hsp, hcur]
  | cons c w ih =>
    intro cur rest hw _
    have hc : isSpace c = false := hw c (by simp)
    have := ih (c :: cur) rest (fun d hd => hw d (by simp [hd])) (by simp)
    have e : tokensAux (c :: (w ++ ' ' :: rest)) cur
        = tokensAux (w ++ ' ' :: rest) (c :: cur) := by
      rw [tokensAux]
      simp [hc]
    rw [List.cons_append, e, this]
    simp

theorem tokens_textOf {E : Type} (shw : E → List Char)
    (hshw : ∀ x, shw x ≠ [] ∧ ∀ c ∈ shw x, isSpace c = false) (xs : List E) :
    tokensAux (textOf shw xs) [] = xs.map shw := by
  induction xs with
  | nil => simp [textOf, tokensAux]
  | cons x xs ih =>
    rw [textOf_cons, tokensAux_token (shw x) [] _ (hshw x).2 (by simpa using (hshw x).1), ih]
    simp

theorem showInt_token (x : Int) : showInt x ≠ [] ∧ ∀ c ∈ showInt x, isSpace c = false := by
  obtain ⟨c, cs, h1, _, _, h4, _⟩ := showInt_spec x
  rw [h1]
  exact ⟨by simp, h4⟩

/-- C8: for every well-formed matrix `A` of `int` (dimensions and entries
within the 32-bit range) and every destination `D`, writing `A` with
`operator<<` on an empty stream returns a text, reading that text into `D` with
`operator>>` returns without a failed stream, and the matrix read compares
equal to `A` under `operator==`. -/
theorem C8_roundtrip (A D : Matrix Int) (hA : A.WellFormed) (hr : InIntRange A) :
    ∃ text D' rest, write showInt [] A = Except.ok text ∧
      read ⟨text, false⟩ D = Except.ok (D', ⟨rest, false⟩) ∧
      D'.eq A = Except.ok true := by
  obtain ⟨n, m, hn, hm, sA⟩ := wellFormed_hasShape hA
  refine ⟨_, A, [' '], write_spec showInt [] sA hn, ?_, ?_⟩
  · have := read_spec sA hn hm hr D
    simpa using this
  · simp [eq_of_shape sA sA hn]

theorem C8_roundtrip_witness :
    test_src.WellFormed ∧ InIntRange test_src ∧
    ∃ text D' rest, write showInt [] test_src = Except.ok text ∧
      read ⟨text, false⟩ test_a = Except.ok (D', ⟨rest, false⟩) ∧
      D'.eq test_src = Except.ok true :=
  ⟨by decide, by decide, C8_roundtrip test_src test_a (by decide) (by decide)⟩

/-- C9: for a matrix of `n ≥ 1` rows of `m` entries each (every well-formed
matrix is one), `operator<<` appends to the
stream the text of `n`, of `m` and of every entry in row-major order, each
followed by one blank and nothing else; so the tokens of the text written on an
empty stream are `n`, `m` and the entries, when no entry's text is empty or
holds white space. The 2 x 2 matrix of fours is written as the tokens of
`2 2 4 4 4 4`. -/
theorem C9_write {E : Type} [Inhabited E] (shw : E → List Char)
    (hshw : ∀ x, shw x ≠ [] ∧ ∀ c ∈ shw x, isSpace c = false)
    (A : Matrix E) (n m : Nat) (hA : A.HasShape n m) (hn : 1 ≤ n) (os : List Char) :
    write shw os A = Except.ok
      (os ++ textOf showInt [(n : Int), (m : Int)] ++ textOf shw A.data.flatten) ∧
    (∃ text, write shw [] A = Except.ok text ∧
      tokens text = showInt (n : Int) :: showInt (m : Int) :: A.data.flatten.map shw) ∧
    (∃ src text, ofFill 2 2 (4 : Int) = Except.ok src ∧
      write showInt [] src = Except.ok text ∧ text = "2 2 4 4 4 4 ".toList ∧
      tokens text = tokens "2 2 4 4 4 4".toList) := by
  have hw := fun o => write_spec shw o hA hn
  refine ⟨?_, ⟨_, hw [], ?_⟩, ⟨test_src, _, by decide, by decide, rfl, by decide⟩⟩
  · rw [hw os]
    simp [textOf]
  · have h1 := showInt_token (n : Int)
    have h2 := showInt_token (m : Int)
    simp only [tokens, List.nil_append, List.append_assoc, List.singleton_append,
      List.cons_append]
    rw [tokensAux_token _ [] _ h1.2 (by simpa using h1.1),
      tokensAux_token _ [] _ h2.2 (by simpa using h2.1), tokens_textOf shw hshw]
    simp

theorem C9_write_witness :
    (∀ x, showInt x ≠ [] ∧ ∀ c ∈ showInt x, isSpace c = false) ∧ test_a.HasShape 3 4 ∧
    ∃ text, write showInt [] test_a = Except.ok text ∧
      tokens text = showInt 3 :: showInt 4 :: test_a.data.flatten.map showInt :=
  ⟨showInt_token, by decide,
    (C9_write showInt showInt_token test_a 3 4 (by decide) (by decide) []).2.1⟩

/-! ### Access, literal construction and comparison -/

namespace Matrix

variable {E : Type}

theorem get_out_of_range {A : Matrix E} {n m : Nat} (h : A.HasShape n m) (hn : 1 ≤ n)
    (r c : Int) (hrc : r < 0 ∨ r ≥ (n : Int) ∨ c < 0 ∨ c ≥ (m : Int)) :
    A.get r c = Except.error (Err.runtime_error What.invalid_index_pair) := by
  simp only [get, getN_of_shape h, getM_of_shape h hn, bind_ok]
  by_cases h1 : r ≥ (n : Int) ∨ r < 0 ∨ c < 0
  · simp only [h1, if_true]
  · have h2 : c ≥ (m : Int) := by omega
    simp only [h1, if_false, h2, if_true, throw_eq_error, bind_error]

theorem get_in_range [Inhabited E] {A : Matrix E} {n m : Nat} (h : A.HasShape n m)
    (r c : Int) (hr0 : 0 ≤ r) (hr : r < (n : Int)) (hc0 : 0 ≤ c) (hc : c < (m : Int)) :
    A.get r c = Except.ok (A.entry r.toNat c.toNat) := by
  have := get_of_shape h r.toNat c.toNat (by omega) (by omega)
  rwa [Int.toNat_of_nonneg hr0, Int.toNat_of_nonneg hc0] at this

theorem put_out_of_range {A : Matrix E} {n m : Nat} (h : A.HasShape n m) (hn : 1 ≤ n)
    (r c : Int) (v : E) (hrc : r < 0 ∨ r ≥ (n : Int) ∨ c < 0 ∨ c ≥ (m : Int)) :
    A.put r c v = Except.error (Err.runtime_error What.invalid_index_pair) := by
  simp only [put, get_out_of_range h hn r c hrc, bind_error]

theorem entry_eq_getElem? [Inhabited E] {A : Matrix E} {n m : Nat} (h : A.HasShape n m)
    (i j : Nat) (hi : i < n) (hj : j < m) :
    ∃ row, A.data[i]? = some row ∧ row[j]? = some (A.entry i j) :=
  ⟨A.data.getD i [], by
    have hi' : i < A.data.length := by rw [h.1]; exact hi
    simp [List.getD_eq_getElem?_getD, List.getElem?_eq_getElem hi'], by
    have hl := row_length h i hi
    have hj' : j < (A.data.getD i []).length := by rw [hl]; exact hj
    rw [List.getElem?_eq_getElem hj', entry, List.getD_eq_getElem _ _ hj']⟩

end Matrix

/-- C11: for a matrix of `n ≥ 1` rows of `m` entries each (every well-formed
matrix is one) and all integers `r`, `c`, `get(r, c)` throws its
`runtime_error` ("Invalid index pair.") exactly when `r` is outside `[0, n)` or
`c` is outside `[0, m)`, for both overloads, and no unchecked access is ever
made outside the storage; otherwise it returns the element stored at row `r`,
column `c`, and the assignment `get(r, c) = v` returns a matrix of the same
`getN()` and `getM()` that holds `v` at `(r, c)` and what it held before at
every other index in range. -/
theorem C11_get {E : Type} [Inhabited E] (A : Matrix E) (n m : Nat) (hA : A.HasShape n m)
    (hn : 1 ≤ n) (r c : Int) (v : E) :
    (A.get r c = Except.error (Err.runtime_error What.invalid_index_pair) ↔
      (r < 0 ∨ r ≥ (n : Int) ∨ c < 0 ∨ c ≥ (m : Int))) ∧
    (A.put r c v = Except.error (Err.runtime_error What.invalid_index_pair) ↔
      (r < 0 ∨ r ≥ (n : Int) ∨ c < 0 ∨ c ≥ (m : Int))) ∧
    ((∃ e, A.get r c = Except.error e) → (r < 0 ∨ r ≥ (n : Int) ∨ c < 0 ∨ c ≥ (m : Int))) ∧
    ((∃ e, A.put r c v = Except.error e) →
      (r < 0 ∨ r ≥ (n : Int) ∨ c < 0 ∨ c ≥ (m : Int))) ∧
    (0 ≤ r → r < (n : Int) → 0 ≤ c → c < (m : Int) →
      (∃ row x, A.data[r.toNat]? = some row ∧ row[c.toNat]? = some x ∧
        A.get r c = Except.ok x) ∧
      ∃ A', A.put r c v = Except.ok A' ∧ A'.getN = A.getN ∧ A'.getM = A.getM ∧
        A'.get r c = Except.ok v ∧
        ∀ r' c' : Int, 0 ≤ r' → r' < (n : Int) → 0 ≤ c' → c' < (m : Int) →
          ¬ (r' = r ∧ c' = c) → A'.get r' c' = A.get r' c') := by
  have hin : 0 ≤ r → r < (n : Int) → 0 ≤ c → c < (m : Int) →
      (∃ row x, A.data[r.toNat]? = some row ∧ row[c.toNat]? = some x ∧
        A.get r c = Except.ok x) ∧
      ∃ A', A.put r c v = Except.ok A' ∧ A'.getN = A.getN ∧ A'.getM = A.getM ∧
        A'.get r c = Except.ok v ∧
        ∀ r' c' : Int, 0 ≤ r' → r' < (n : Int) → 0 ≤ c' → c' < (m : Int) →
          ¬ (r' = r ∧ c' = c) → A'.get r' c' = A.get r' c' := by
    intro hr0 hr hc0 hc
    have hi : r.toNat < n := by omega
    have hj : c.toNat < m := by omega
    obtain ⟨row, h1, h2⟩ := entry_eq_getElem? hA r.toNat c.toNat hi hj
    refine ⟨⟨row, _, h1, h2, get_in_range hA r c hr0 hr hc0 hc⟩, ?_⟩
    obtain ⟨A', hput, hS, hE⟩ := put_of_shape hA r.toNat c.toNat hi hj v
    rw [Int.toNat_of_nonneg hr0, Int.toNat_of_nonneg hc0] at hput
    refine ⟨A', hput, ?_, ?_, ?_, ?_⟩
    · rw [getN_of_shape hS, getN_of_shape hA]
    · rw [getM_of_shape hS hn, getM_of_shape hA hn]
    · rw [get_in_range hS r c hr0 hr hc0 hc, hE]
      simp
    · intro r' c' hr0' hr' hc0' hc' hne
      rw [get_in_range hS r' c' hr0' hr' hc0' hc', get_in_range hA r' c' hr0' hr' hc0' hc', hE]
      have : ¬ (r'.toNat = r.toNat ∧ c'.toNat = c.toNat) := by omega
      rw [if_neg this]
  have hget : (∃ e, A.get r c = Except.error e) →
      (r < 0 ∨ r ≥ (n : Int) ∨ c < 0 ∨ c ≥ (m : Int)) := by
    intro ⟨e, he⟩
    by_contra hc
    obtain ⟨⟨_, _, _, _, h3⟩, _⟩ := hin (by omega) (by omega) (by omega) (by omega)
    rw [h3] at he
    cases he
  have hput : (∃ e, A.put r c v = Except.error e) →
      (r < 0 ∨ r ≥ (n : Int) ∨ c < 0 ∨ c ≥ (m : Int)) := by
    intro ⟨e, he⟩
    by_contra hc
    obtain ⟨_, ⟨_, h3, _⟩⟩ := hin (by omega) (by omega) (by omega) (by omega)
    rw [h3] at he
    cases he
  exact ⟨⟨fun h => hget ⟨_, h⟩, get_out_of_range hA hn r c⟩,
    ⟨fun h => hput ⟨_, h⟩, put_out_of_range hA hn r c v⟩, hget, hput, hin⟩

theorem C11_get_witness :
    test_m1.HasShape 2 3 ∧
    (test_m1.get 2 0 = Except.error (Err.runtime_error What.invalid_index_pair) ↔
      ((2 : Int) < 0 ∨ (2 : Int) ≥ ((2 : Nat) : Int) ∨ (0 : Int) < 0 ∨
        (0 : Int) ≥ ((3 : Nat) : Int))) ∧
    (test_m1.get 0 1 = Except.error (Err.runtime_error What.invalid_index_pair) ↔
      ((0 : Int) < 0 ∨ (0 : Int) ≥ ((2 : Nat) : Int) ∨ (1 : Int) < 0 ∨
        (1 : Int) ≥ ((3 : Nat) : Int))) :=
  ⟨by decide, (C11_get test_m1 2 3 (by decide) (by decide) 2 0 0).1,
    (C11_get test_m1 2 3 (by decide) (by decide) 0 1 0).1⟩

theorem forEach_cons_ok {α σ : Type} (x : α) (xs : List α) (body : α → σ → Except Err σ)
    (s s' : σ) (h : body x s = Except.ok s') :
    forEach (x :: xs) body s = forEach xs body s' := by
  simp only [forEach, h]

theorem forEach_cons_error {α σ : Type} (x : α) (xs : List α) (body : α → σ → Except Err σ)
    (s : σ) (e : Err) (h : body x s = Except.error e) :
    forEach (x :: xs) body s = Except.error e := by
  simp only [forEach, h]

theorem forEach_rows {E : Type} (k : Nat) (il : List (List E)) : ∀ init : List (List E),
    (∀ row ∈ il, row.length = k) →
    forEach il (fun row data =>
      if row.length ≠ k then throw (Err.runtime_error What.jagged_il)
      else pure (data ++ [row])) init = Except.ok (init ++ il) := by
  induction il with
  | nil => intro init _; simp [forEach]
  | cons row rest ih =>
    intro init h
    have h0 : row.length = k := h row (by simp)
    rw [forEach_cons_ok row rest _ init (init ++ [row]) (by simp [h0, pure_eq_ok]),
      ih (init ++ [row]) (fun r hr => h r (by simp [hr]))]
    simp

theorem forEach_jagged {E : Type} (k : Nat) (il : List (List E)) : ∀ init : List (List E),
    (∃ row ∈ il, row.length ≠ k) →
    forEach il (fun row data =>
      if row.length ≠ k then throw (Err.runtime_error What.jagged_il)
      else pure (data ++ [row])) init = Except.error (Err.runtime_error What.jagged_il) := by
  induction il with
  | nil => intro init ⟨row, hrow, _⟩; simp at hrow
  | cons row rest ih =>
    intro init ⟨bad, hbad, hlen⟩
    by_cases h0 : row.length = k
    · have hbad' : bad ∈ rest := by
        rcases List.mem_cons.mp hbad with h | h
        · rw [h] at hlen; exact absurd h0 hlen
        · exact h
      rw [forEach_cons_ok row rest _ init (init ++ [row]) (by simp [h0, pure_eq_ok])]
      exact ih (init ++ [row]) ⟨bad, hbad', hlen⟩
    · exact forEach_cons_error row rest _ init _ (by simp [h0, throw_eq_error])

namespace Matrix

variable {E : Type}

theorem eq_mismatch [DecidableEq E] {A B : Matrix E} {n m n' m' : Nat}
    (hA : A.HasShape n m) (hB : B.HasShape n' m') (hn : 1 ≤ n) (hn' : 1 ≤ n')
    (h : ¬ (n = n' ∧ m = m')) : A.eq B = Except.ok false := by
  simp only [eq, getN_of_shape hA, getN_of_shape hB, getM_of_shape hA hn,
    getM_of_shape hB hn', bind_ok]
  by_cases h1 : (n : Int) = (n' : Int)
  · have h3 : (m : Int) ≠ (m' : Int) := by omega
    simp [h1, h3, pure_eq_ok, bind_ok]
  · simp [h1, pure_eq_ok]

theorem mulScalar_spec {S : Type} [Inhabited E] [HMul S E E] {A : Matrix E} {n m : Nat}
    (hA : A.HasShape n m) (hn : 1 ≤ n) (hm : 1 ≤ m) (s : S) :
    ∃ R, A.mulScalar s = Except.ok R ∧ R.HasShape n m ∧
      ∀ i j, i < n → j < m → R.entry i j = s * A.entry i j := by
  simp only [mulScalar, getN_of_shape hA, getM_of_shape hA hn, bind_ok, ofDims,
    ofFill_of_pos n m hn hm]
  obtain ⟨R, hR, hS, hE⟩ := forInt2_inv
    (fun i j (r : Matrix E) => r.HasShape n m ∧ ∀ i' j', (i' < i ∨ (i' = i ∧ j' < j)) →
      i' < n → j' < m → r.entry i' j' = s * A.entry i' j') n m
    (fun i j r => do
      let x ← A.raw i j
      r.put i j (s * x))
    ⟨List.replicate n (List.replicate m default)⟩
    ⟨replicate_shape n m default, by intro i' j' h; omega⟩
    (by
      intro i j t hi hj ⟨hs, he⟩
      obtain ⟨t', h1, h2, h3⟩ := put_of_shape hs i j hi hj (s * A.entry i j)
      refine ⟨t', by simp only [raw_of_shape hA i j hi hj, bind_ok, h1], h2, ?_⟩
      intro i' j' hb hi' hj'
      rw [h3]
      rcases (before_succ i j i' j').mp hb with hb' | ⟨e1, e2⟩
      · have hne : ¬ (i' = i ∧ j' = j) := by omega
        rw [if_neg hne]
        exact he i' j' hb' hi' hj'
      · subst e1 e2
        simp)
    (by
      intro i t _ ⟨hs, he⟩
      exact ⟨hs, fun i' j' hb hi' hj' => he i' j' (by omega) hi' hj'⟩)
  exact ⟨R, hR, hS, fun i j hi hj => hE i j (by omega) hi hj⟩

theorem mulAssignScalar_spec {S : Type} [Inhabited E] [HMul E S E] {A : Matrix E} {n m : Nat}
    (hA : A.HasShape n m) (hn : 1 ≤ n) (s : S) :
    ∃ R, A.mulAssignScalar s = Except.ok R ∧ R.HasShape n m ∧
      ∀ i j, i < n → j < m → R.entry i j = A.entry i j * s := by
  simp only [mulAssignScalar, mulAssignRef, getN_of_shape hA, bind_ok]
  obtain ⟨R, hR, hS, hE⟩ := forInt2_inv_bound
    (fun i j (r : Matrix E) => r.HasShape n m ∧ ∀ i' j', i' < n → j' < m →
      r.entry i' j' = if i' < i ∨ (i' = i ∧ j' < j) then A.entry i' j' * s
        else A.entry i' j') n m
    (fun r => r.getM)
    (fun i j r => do
      let x ← r.raw i j
      r.rawSet i j (x * s))
    A
    ⟨hA, by intro i' j' _ _; simp⟩
    (fun i t _ hP => getM_of_shape hP.1 hn)
    (by
      intro i j t hi hj ⟨hs, he⟩
      obtain ⟨t', h1, h2, h3⟩ := rawSet_of_shape hs i j hi hj (t.entry i j * s)
      refine ⟨t', by simp only [raw_of_shape hs i j hi hj, bind_ok, h1], h2, ?_⟩
      intro i' j' hi' hj'
      rw [h3]
      by_cases hc : i' = i ∧ j' = j
      · obtain ⟨e1, e2⟩ := hc
        subst e1 e2
        have h0 := he i' j' hi' hj'
        simp only [lt_self_iff_false, and_false, or_false, if_false] at h0
        simp [h0]
      · rw [if_neg hc, he i' j' hi' hj']
        have : (i' < i ∨ (i' = i ∧ j' < j + 1)) ↔ (i' < i ∨ (i' = i ∧ j' < j)) := by omega
        simp only [this])
    (by
      intro i t _ ⟨hs, he⟩
      refine ⟨hs, fun i' j' hi' hj' => ?_⟩
      rw [he i' j' hi' hj']
      have : (i' < i + 1 ∨ (i' = i + 1 ∧ j' < 0)) ↔ (i' < i ∨ (i' = i ∧ j' < m)) := by omega
      simp only [this])
  refine ⟨R, hR, hS, fun i j hi hj => ?_⟩
  rw [hE i j hi hj, if_pos (Or.inl hi)]

end Matrix

/-- C13: for a well-formed `A` of shape `(n, m)` and every scalar `s`, `A * s`
returns a matrix `R` with the `getN()` and `getM()` of `A` and
`R.get(i, j) = s * A.get(i, j)` for every `i < n` and `j < m`. The operator is a
function of `A`, which it leaves as it is. -/
theorem C13_mulScalar {E S : Type} [Inhabited E] [HMul S E E] (A : Matrix E) (n m : Nat)
    (hA : A.HasShape n m) (hn : 1 ≤ n) (hm : 1 ≤ m) (s : S) :
    ∃ R, A.mulScalar s = Except.ok R ∧ R.getN = A.getN ∧ R.getM = A.getM ∧
      ∀ i j : Nat, i < n → j < m → ∃ a, A.get (i : Int) (j : Int) = Except.ok a ∧
        R.get (i : Int) (j : Int) = Except.ok (s * a) := by
  obtain ⟨R, hR, hS, hE⟩ := mulScalar_spec hA hn hm s
  refine ⟨R, hR, ?_, ?_, fun i j hi hj => ⟨_, get_of_shape hA i j hi hj, ?_⟩⟩
  · rw [getN_of_shape hS, getN_of_shape hA]
  · rw [getM_of_shape hS hn, getM_of_shape hA hn]
  · rw [get_of_shape hS i j hi hj, hE i j hi hj]

theorem C13_mulScalar_witness :
    test_rm.HasShape 2 2 ∧
    ∃ R, test_rm.mulScalar (3 : Int) = Except.ok R ∧ R.getN = test_rm.getN ∧
      R.getM = test_rm.getM ∧
      ∀ i j : Nat, i < 2 → j < 2 → ∃ a, test_rm.get (i : Int) (j : Int) = Except.ok a ∧
        R.get (i : Int) (j : Int) = Except.ok ((3 : Int) * a) :=
  ⟨by decide, C13_mulScalar test_rm 2 2 (by decide) (by decide) (by decide) (3 : Int)⟩

/-- C15: for `A` of `n ≥ 1` rows of `m` entries each (every well-formed matrix
is one) and a well-formed `B`, `A == B` returns, and it is true exactly
when `getN()` and `getM()` agree and `A(i, j) = B(i, j)` at every index of `A`;
`A != B` returns the negation of `A == B`. -/
theorem C15_eq {E : Type} [Inhabited E] [DecidableEq E] (A B : Matrix E) (n m : Nat)
    (hA : A.HasShape n m) (hn : 1 ≤ n) (hB : B.WellFormed) :
    ∃ b, A.eq B = Except.ok b ∧ A.ne B = Except.ok (!b) ∧
      (b = true ↔ (A.getN = B.getN ∧ A.getM = B.getM ∧
        ∀ i j : Nat, i < n → j < m →
          A.get (i : Int) (j : Int) = B.get (i : Int) (j : Int))) := by
  obtain ⟨n', m', hn', hm', sB⟩ := wellFormed_hasShape hB
  rw [getN_of_shape hA, getM_of_shape hA hn, getN_of_shape sB, getM_of_shape sB hn']
  by_cases h : n = n' ∧ m = m'
  · obtain ⟨e1, e2⟩ := h
    subst e1 e2
    have hE := eq_of_shape hA sB hn
    refine ⟨decide (A.data = B.data), hE, by simp only [ne, hE, bind_ok, pure_eq_ok], ?_⟩
    rw [decide_eq_true_iff]
    constructor
    · intro hd
      have hAB : A = B := by
        cases A; cases B; simp only at hd; rw [hd]
      rw [hAB]
      exact ⟨rfl, rfl, fun _ _ _ _ => rfl⟩
    · intro ⟨_, _, hg⟩
      have hAB : A = B := ext_of_shape hA sB (fun i j hi hj => by
        have := hg i j hi hj
        rw [get_of_shape hA i j hi hj, get_of_shape sB i j hi hj] at this
        injection this)
      rw [hAB]
  · have hE := eq_mismatch hA sB hn hn' h
    refine ⟨false, hE, by simp only [ne, hE, bind_ok, pure_eq_ok, Bool.not_false], ?_⟩
    constructor
    · intro hf
      cases hf
    · intro ⟨h1, h2, _⟩
      injection h2 with h2
      omega

theorem C15_eq_witness :
    test_a.HasShape 3 4 ∧ test_b.WellFormed ∧
    ∃ b, test_a.eq test_b = Except.ok b ∧ test_a.ne test_b = Except.ok (!b) ∧
      (b = true ↔ (test_a.getN = test_b.getN ∧ test_a.getM = test_b.getM ∧
        ∀ i j : Nat, i < 3 → j < 4 →
          test_a.get (i : Int) (j : Int) = test_b.get (i : Int) (j : Int))) :=
  ⟨by decide, by decide,
    C15_eq test_a test_b 3 4 (by decide) (by decide) (by decide)⟩

/-- What holds of the in-place operators: `+=`, `-=` and `*=` with a matrix throw
what the operator throws and then leave the receiver as it was, and otherwise
leave it holding the operator's result; `*=` with a scalar outside the
receiver's storage that commutes with the entries leaves what the scalar
product returns. -/
theorem inplace_operators {E S : Type} [Inhabited E] [Add E] [Sub E] [Mul E] [HMul S E E]
    [HMul E S E] (hcomm : ∀ (e : E) (s : S), e * s = s * e) (A B : Matrix E)
    (hA : A.WellFormed) (s : S) :
    (∀ e, A.add B = Except.error e → A.addAssign B = (Except.error e, A)) ∧
    (∀ R, A.add B = Except.ok R → A.addAssign B = (Except.ok (), R)) ∧
    (∀ e, A.sub B = Except.error e → A.subAssign B = (Except.error e, A)) ∧
    (∀ R, A.sub B = Except.ok R → A.subAssign B = (Except.ok (), R)) ∧
    (∀ e, A.mul B = Except.error e → A.mulAssign B = (Except.error e, A)) ∧
    (∀ R, A.mul B = Except.ok R → A.mulAssign B = (Except.ok (), R)) ∧
    (∃ R, A.mulScalar s = Except.ok R ∧ A.mulAssignScalar s = Except.ok R) := by
  refine ⟨fun e h => by simp only [addAssign, h, assignTemporary],
    fun R h => by simp only [addAssign, h, assignTemporary, moveAssign],
    fun e h => by simp only [subAssign, h, assignTemporary],
    fun R h => by simp only [subAssign, h, assignTemporary, moveAssign],
    fun e h => by simp only [mulAssign, h, assignTemporary],
    fun R h => by simp only [mulAssign, h, assignTemporary, moveAssign], ?_⟩
  obtain ⟨n, m, hn, hm, sA⟩ := wellFormed_hasShape hA
  obtain ⟨R, hR, hS, hE⟩ := mulScalar_spec sA hn hm s
  obtain ⟨R', hR', hS', hE'⟩ := mulAssignScalar_spec sA hn s
  have hRR : R' = R := ext_of_shape hS' hS (fun i j hi hj => by
    rw [hE i j hi hj, hE' i j hi hj, hcomm])
  exact ⟨R, hR, by rw [hR', hRR]⟩

/-- C14: `operator*=(const S &s)` reads its scalar through the reference at
every entry, after the entries before it have been overwritten. On the
well-formed matrix `[[2,3],[4,5]]` the statement `A *= A.get(0, 0)` first turns
`data[0][0]` into `4` and then multiplies the other entries by that `4`: it
leaves `[[4,12],[16,20]]`, while `A * A.get(0, 0)`, the product by `2`, returns
`[[4,6],[8,10]]`. -/
theorem C14_mulAssign_aliased :
    test_al.WellFormed ∧ test_al.get 0 0 = Except.ok 2 ∧
    test_al.mulAssignEntry 0 0 = Except.ok ⟨[[4, 12], [16, 20]]⟩ ∧
    test_al.mulScalar (2 : Int) = Except.ok ⟨[[4, 6], [8, 10]]⟩ ∧
    test_al.mulAssignEntry 0 0 ≠ test_al.mulScalar (2 : Int) := by
  decide

/-! ### Row and column operations -/

theorem forRange_succ_error {σ : Type} (body : Int → σ → Except Err σ) (s : σ) (e : Err)
    (k : Nat) (h : forRange k body s = Except.error e) :
    forRange (k + 1) body s = Except.error e := by
  rw [forRange, h]

theorem forRange_error_first {σ : Type} (body : Int → σ → Except Err σ) (s : σ) (e : Err)
    (h : body ((0 : Nat) : Int) s = Except.error e) :
    ∀ k, 1 ≤ k → forRange k body s = Except.error e := by
  intro k
  induction k with
  | zero => intro h0; omega
  | succ k ih =>
    intro _
    cases k with
    | zero => simp only [forRange, h]
    | succ k => exact forRange_succ_error body s e (k + 1) (ih (by omega))

theorem index_outside {α : Type} (v : List α) (i : Int)
    (h : i < 0 ∨ i ≥ (v.length : Int)) : index v i = Except.error Err.out_of_bounds := by
  unfold index
  by_cases h0 : i < 0
  · simp only [h0, if_true]
  · have : v[i.toNat]? = none := List.getElem?_eq_none (by omega)
    simp only [h0, if_false, this]

namespace Matrix

variable {E : Type}

theorem raw_row_outside (A : Matrix E) (r c : Int)
    (h : r < 0 ∨ r ≥ (A.data.length : Int)) : A.raw r c = Except.error Err.out_of_bounds := by
  simp only [raw, index_outside A.data r h, bind_error]

theorem rawSet_row_outside (A : Matrix E) (r c : Int) (v : E)
    (h : r < 0 ∨ r ≥ (A.data.length : Int)) :
    A.rawSet r c v = Except.error Err.out_of_bounds := by
  simp only [rawSet, index_outside A.data r h, bind_error]

theorem combineRows_rejected {S : Type} [HMul S E E] [Add E] {A : Matrix E} {n m : Nat}
    (hA : A.HasShape n m) (hn : 1 ≤ n) (r1 r2 dest : Int) (f1 f2 : S)
    (h : r1 < 0 ∨ r1 ≥ (n : Int) ∨ r2 < 0 ∨ r2 ≥ (m : Int)) :
    A.combineRows r1 f1 r2 f2 dest
      = Except.error (Err.runtime_error What.bad_row_combination) := by
  simp only [combineRows, getN_of_shape hA, getM_of_shape hA hn, bind_ok]
  by_cases h1 : r1 < 0 ∨ r1 ≥ (n : Int) ∨ r2 < 0
  · simp only [h1, if_true, throw_eq_error, bind_error]
  · have h2 : r2 ≥ (m : Int) := by omega
    simp only [h1, if_false, h2, if_true, throw_eq_error, bind_error, pure_eq_ok, bind_ok]

theorem combineRows_spec {S : Type} [Inhabited E] [HMul S E E] [Add E] {A : Matrix E}
    {n m : Nat} (hA : A.HasShape n m) (hn : 1 ≤ n) (r1 r2 dest : Nat) (f1 f2 : S)
    (h1 : r1 < n) (h2 : r2 < n) (h2' : r2 < m) (hd : dest < n) :
    ∃ R, A.combineRows (r1 : Int) f1 (r2 : Int) f2 (dest : Int) = Except.ok R ∧
      R.HasShape n m ∧ ∀ i' j', R.entry i' j' =
        if i' = dest ∧ j' < m then f1 * A.entry r1 j' + f2 * A.entry r2 j'
        else A.entry i' j' := by
  have c1 : ¬ ((r1 : Int) < 0 ∨ (r1 : Int) ≥ (n : Int) ∨ (r2 : Int) < 0) := by omega
  have c2 : ¬ ((r2 : Int) ≥ (m : Int)) := by omega
  simp only [combineRows, getN_of_shape hA, getM_of_shape hA hn, bind_ok, c1, c2, if_false,
    pure_eq_ok]
  exact forInt_inv
    (fun j (r : Matrix E) => r.HasShape n m ∧ ∀ i' j', r.entry i' j' =
      if i' = dest ∧ j' < j then f1 * A.entry r1 j' + f2 * A.entry r2 j'
      else A.entry i' j') m
    (fun j r => do
      let x ← r.raw (r1 : Int) j
      let y ← r.raw (r2 : Int) j
      r.rawSet (dest : Int) j (f1 * x + f2 * y))
    A ⟨hA, by intro i' j'; simp⟩
    (by
      intro j t hj ⟨hs, he⟩
      have e1 : t.entry r1 j = A.entry r1 j := by rw [he]; simp
      have e2 : t.entry r2 j = A.entry r2 j := by rw [he]; simp
      obtain ⟨t', g1, g2, g3⟩ := rawSet_of_shape hs dest j hd hj
        (f1 * A.entry r1 j + f2 * A.entry r2 j)
      refine ⟨t', by simp only [raw_of_shape hs r1 j h1 hj, raw_of_shape hs r2 j h2 hj,
        bind_ok, e1, e2, g1], g2, ?_⟩
      intro i' j'
      rw [g3, he]
      by_cases hc : i' = dest ∧ j' = j
      · obtain ⟨q1, q2⟩ := hc
        subst q1 q2
        simp
      · rw [if_neg hc]
        have : (i' = dest ∧ j' < j + 1) ↔ (i' = dest ∧ j' < j) := by omega
        simp only [this])

theorem combineRows_outside {S : Type} [Inhabited E] [HMul S E E] [Add E] {A : Matrix E}
    {n m : Nat} (hA : A.HasShape n m) (hn : 1 ≤ n) (hm : 1 ≤ m) (r1 r2 dest : Int) (f1 f2 : S)
    (h1 : 0 ≤ r1 ∧ r1 < (n : Int)) (h2 : 0 ≤ r2 ∧ r2 < (m : Int))
    (h : r2 ≥ (n : Int) ∨ dest < 0 ∨ dest ≥ (n : Int)) :
    A.combineRows r1 f1 r2 f2 dest = Except.error Err.out_of_bounds := by
  have c1 : ¬ (r1 < 0 ∨ r1 ≥ (n : Int) ∨ r2 < 0) := by omega
  have c2 : ¬ (r2 ≥ (m : Int)) := by omega
  simp only [combineRows, getN_of_shape hA, getM_of_shape hA hn, bind_ok, c1, c2, if_false,
    pure_eq_ok, forInt, Int.toNat_ofNat]
  apply forRange_error_first _ _ _ _ m hm
  have hlen : (A.data.length : Int) = (n : Int) := by rw [hA.1]
  have hr1 := raw_of_shape hA r1.toNat 0 (by omega) (by omega)
  rw [Int.toNat_of_nonneg h1.1] at hr1
  simp only [hr1, bind_ok]
  by_cases hr2 : r2 ≥ (n : Int)
  · simp only [raw_row_outside A r2 _ (Or.inr (by omega)), bind_error]
  · have hr2' := raw_of_shape hA r2.toNat 0 (by omega) (by omega)
    rw [Int.toNat_of_nonneg h2.1] at hr2'
    simp only [hr2', bind_ok]
    exact rawSet_row_outside A dest _ _ (by omega)

end Matrix

/-- C16: the check of `combineRows` compares `row2` with `getM()`, not with
`getN()`. On the well-formed 3 x 2 matrix `[[1,2],[3,4],[5,6]]` the call
`combineRows(0, 1, 2, 1, 0)`, whose rows 0 and 2 and destination 0 are all
valid, throws the bad-index `runtime_error`; on the well-formed 2 x 3 matrix
`[[1,2,1],[0,1,0]]` the same call, whose row 2 is invalid, is not rejected and
reads `data[2][0]` outside the storage. -/
theorem C16_combineRows_row2_check :
    test_tall.WellFormed ∧ test_tall.getN = 3 ∧ test_tall.getM = Except.ok 2 ∧
    test_tall.combineRows 0 (1 : Int) 2 1 0
      = Except.error (Err.runtime_error What.bad_row_combination) ∧
    test_m1.WellFormed ∧ test_m1.getN = 2 ∧ test_m1.getM = Except.ok 3 ∧
    test_m1.combineRows 0 (1 : Int) 2 1 0 = Except.error Err.out_of_bounds := by
  decide

/-- C17: for a well-formed matrix of shape `(n, m)`, when
`combineRows(r1, f1, r2, f2, dest)` returns, the matrix it leaves has the same
`getN()` and `getM()`, its entry `(dest, j)` is `f1 * old(r1, j) + f2 * old(r2, j)`
for every column `j`, with `old` the matrix before the call (also when `dest` is
`r1` or `r2`), and every row other than `dest` is as before; and
`combineRows(0, 2, 1, 1, 2)` on `[[1,0,1],[0,1,0],[0,0,0]]` leaves
`[[1,0,1],[0,1,0],[2,1,2]]`. -/
theorem C17_combineRows {E S : Type} [Inhabited E] [HMul S E E] [Add E] (A A' : Matrix E)
    (n m : Nat) (hA : A.HasShape n m) (hn : 1 ≤ n) (hm : 1 ≤ m) (r1 r2 dest : Int)
    (f1 f2 : S) (hret : A.combineRows r1 f1 r2 f2 dest = Except.ok A') :
    A'.getN = A.getN ∧ A'.getM = A.getM ∧
    (∀ j : Nat, j < m → ∃ x y, A.get r1 (j : Int) = Except.ok x ∧
      A.get r2 (j : Int) = Except.ok y ∧ A'.get dest (j : Int) = Except.ok (f1 * x + f2 * y)) ∧
    (∀ i j : Nat, i < n → j < m → (i : Int) ≠ dest →
      A'.get (i : Int) (j : Int) = A.get (i : Int) (j : Int)) ∧
    test_rc.combineRows 0 (2 : Int) 1 1 2 = Except.ok ⟨[[1, 0, 1], [0, 1, 0], [2, 1, 2]]⟩ := by
  by_cases hchk : r1 < 0 ∨ r1 ≥ (n : Int) ∨ r2 < 0 ∨ r2 ≥ (m : Int)
  · rw [combineRows_rejected hA hn r1 r2 dest f1 f2 hchk] at hret
    cases hret
  by_cases hout : r2 ≥ (n : Int) ∨ dest < 0 ∨ dest ≥ (n : Int)
  · rw [combineRows_outside hA hn hm r1 r2 dest f1 f2 (by omega) (by omega) hout] at hret
    cases hret
  obtain ⟨a, rfl⟩ : ∃ a : Nat, r1 = (a : Int) := ⟨r1.toNat, by omega⟩
  obtain ⟨b, rfl⟩ : ∃ b : Nat, r2 = (b : Int) := ⟨r2.toNat, by omega⟩
  obtain ⟨d, rfl⟩ : ∃ d : Nat, dest = (d : Int) := ⟨dest.toNat, by omega⟩
  have ha : a < n := by omega
  have hb : b < n := by omega
  have hd : d < n := by omega
  obtain ⟨R, hR, hS, hE⟩ := combineRows_spec hA hn a b d f1 f2 ha hb (by omega) hd
  rw [hR] at hret
  injection hret with hret
  subst hret
  refine ⟨?_, ?_, ?_, ?_, by decide⟩
  · rw [getN_of_shape hS, getN_of_shape hA]
  · rw [getM_of_shape hS hn, getM_of_shape hA hn]
  · intro j hj
    refine ⟨_, _, get_of_shape hA a j ha hj, get_of_shape hA b j hb hj, ?_⟩
    rw [get_of_shape hS d j hd hj, hE, if_pos ⟨rfl, hj⟩]
  · intro i j hi hj hne
    have : ¬ (i = d ∧ j < m) := by omega
    rw [get_of_shape hS i j hi hj, get_of_shape hA i j hi hj, hE, if_neg this]

theorem C17_combineRows_witness :
    test_rc.HasShape 3 3 ∧
    test_rc.combineRows 2 (2 : Int) 1 1 2 = Except.ok ⟨[[1, 0, 1], [0, 1, 0], [0, 1, 0]]⟩ ∧
    (∀ j : Nat, j < 3 → ∃ x y, test_rc.get 2 (j : Int) = Except.ok x ∧
      test_rc.get 1 (j : Int) = Except.ok y ∧
      Matrix.get ⟨[[1, 0, 1], [0, 1, 0], [0, 1, 0]]⟩ 2 (j : Int)
        = Except.ok ((2 : Int) * x + (1 : Int) * y)) :=
  ⟨by decide, by decide,
    (C17_combineRows test_rc ⟨[[1, 0, 1], [0, 1, 0], [0, 1, 0]]⟩ 3 3 (by decide) (by decide)
      (by decide) 2 1 2 (2 : Int) 1 (by decide)).2.2.1⟩

/-- C19: neither `combineRows` nor `combineColumns` checks the destination. On
the well-formed 3 x 3 matrix `[[1,0,1],[0,1,0],[0,0,0]]` with valid sources,
`combineRows(0, 2, 1, 1, 3)` and `combineColumns(0, 7, 1, 1, 3)` throw no
`runtime_error`: each reaches its unchecked write, `data[3][0]` and `data[0][3]`,
outside the storage. -/
theorem C19_destination_unchecked :
    test_rc.WellFormed ∧ test_rc.getN = 3 ∧ test_rc.getM = Except.ok 3 ∧
    test_rc.combineRows 0 (2 : Int) 1 1 3 = Except.error Err.out_of_bounds ∧
    test_rc.combineColumns 0 7 1 1 3 = Except.error Err.out_of_bounds ∧
    test_rc.combineRows 0 (2 : Int) 1 1 3
      ≠ Except.error (Err.runtime_error What.bad_row_combination) ∧
    test_rc.combineColumns 0 7 1 1 3
      ≠ Except.error (Err.runtime_error What.bad_column_combination) := by
  decide

namespace Matrix

variable {E : Type}

theorem combineColumns_rejected [HMul Int E E] [Add E] {A : Matrix E} {n m : Nat}
    (hA : A.HasShape n m) (hn : 1 ≤ n) (c1 c2 dest : Int) (f1 f2 : Int)
    (h : c1 < 0 ∨ c1 ≥ (m : Int) ∨ c2 < 0 ∨ c2 ≥ (m : Int)) :
    A.combineColumns c1 f1 c2 f2 dest
      = Except.error (Err.runtime_error What.bad_column_combination) := by
  simp only [combineColumns, getM_of_shape hA hn, bind_ok]
  by_cases h1 : c1 < 0
  · simp only [h1, if_true, throw_eq_error, bind_error]
  · have h2 : c1 ≥ (m : Int) ∨ c2 < 0 ∨ c2 ≥ (m : Int) := by omega
    simp only [h1, if_false, h2, if_true, throw_eq_error, bind_error, pure_eq_ok, bind_ok]

theorem combineColumns_spec [Inhabited E] [HMul Int E E] [Add E] {A : Matrix E}
    {n m : Nat} (hA : A.HasShape n m) (hn : 1 ≤ n) (c1 c2 dest : Nat) (f1 f2 : Int)
    (h1 : c1 < m) (h2 : c2 < m) (hd : dest < m) :
    ∃ R, A.combineColumns (c1 : Int) f1 (c2 : Int) f2 (dest : Int) = Except.ok R ∧
      R.HasShape n m ∧ ∀ i' j', R.entry i' j' =
        if j' = dest ∧ i' < n then f1 * A.entry i' c1 + f2 * A.entry i' c2
        else A.entry i' j' := by
  have k1 : ¬ ((c1 : Int) < 0) := by omega
  have k2 : ¬ ((c1 : Int) ≥ (m : Int) ∨ (c2 : Int) < 0 ∨ (c2 : Int) ≥ (m : Int)) := by omega
  simp only [combineColumns, getN_of_shape hA, getM_of_shape hA hn, bind_ok, k1, k2, if_false,
    pure_eq_ok]
  exact forInt_inv
    (fun i (r : Matrix E) => r.HasShape n m ∧ ∀ i' j', r.entry i' j' =
      if j' = dest ∧ i' < i then f1 * A.entry i' c1 + f2 * A.entry i' c2
      else A.entry i' j') n
    (fun i r => do
      let x ← r.raw i (c1 : Int)
      let y ← r.raw i (c2 : Int)
      r.rawSet i (dest : Int) (f1 * x + f2 * y))
    A ⟨hA, by intro i' j'; simp⟩
    (by
      intro i t hi ⟨hs, he⟩
      have e1 : t.entry i c1 = A.entry i c1 := by rw [he]; simp
      have e2 : t.entry i c2 = A.entry i c2 := by rw [he]; simp
      obtain ⟨t', g1, g2, g3⟩ := rawSet_of_shape hs i dest hi hd
        (f1 * A.entry i c1 + f2 * A.entry i c2)
      refine ⟨t', by simp only [raw_of_shape hs i c1 hi h1, raw_of_shape hs i c2 hi h2,
        bind_ok, e1, e2, g1], g2, ?_⟩
      intro i' j'
      rw [g3, he]
      by_cases hc : i' = i ∧ j' = dest
      · obtain ⟨q1, q2⟩ := hc
        subst q1 q2
        simp
      · rw [if_neg hc]
        have : (j' = dest ∧ i' < i + 1) ↔ (j' = dest ∧ i' < i) := by omega
        simp only [this])

theorem multiplyRow_rejected {S : Type} [HMul E S E] {A : Matrix E} {n m : Nat}
    (hA : A.HasShape n m) (r : Int) (s : S) (h : r < 0 ∨ r ≥ (n : Int)) :
    A.multiplyRow r s = Except.error (Err.runtime_error What.bad_row_multiplication) := by
  simp only [multiplyRow, getN_of_shape hA, h, if_true, throw_eq_error, bind_error]

theorem multiplyRow_spec {S : Type} [Inhabited E] [HMul E S E] {A : Matrix E} {n m : Nat}
    (hA : A.HasShape n m) (hn : 1 ≤ n) (r : Nat) (s : S) (hr : r < n) :
    ∃ R, A.multiplyRow (r : Int) s = Except.ok R ∧ R.HasShape n m ∧
      ∀ i' j', R.entry i' j' = if i' = r ∧ j' < m then A.entry i' j' * s
        else A.entry i' j' := by
  have k1 : ¬ ((r : Int) < 0 ∨ (r : Int) ≥ (n : Int)) := by omega
  simp only [multiplyRow, getN_of_shape hA, getM_of_shape hA hn, bind_ok, k1, if_false,
    pure_eq_ok]
  exact forInt_inv
    (fun j (t : Matrix E) => t.HasShape n m ∧ ∀ i' j', t.entry i' j' =
      if i' = r ∧ j' < j then A.entry i' j' * s else A.entry i' j') m
    (fun j t => do
      let x ← t.raw (r : Int) j
      t.rawSet (r : Int) j (x * s))
    A ⟨hA, by intro i' j'; simp⟩
    (by
      intro j t hj ⟨hs, he⟩
      have e1 : t.entry r j = A.entry r j := by rw [he]; simp
      obtain ⟨t', g1, g2, g3⟩ := rawSet_of_shape hs r j hr hj (A.entry r j * s)
      refine ⟨t', by simp only [raw_of_shape hs r j hr hj, bind_ok, e1, g1], g2, ?_⟩
      intro i' j'
      rw [g3, he]
      by_cases hc : i' = r ∧ j' = j
      · obtain ⟨q1, q2⟩ := hc
        subst q1 q2
        simp
      · rw [if_neg hc]
        have : (i' = r ∧ j' < j + 1) ↔ (i' = r ∧ j' < j) := by omega
        simp only [this])

theorem multiplyColumn_rejected {S : Type} [HMul E S E] {A : Matrix E} {n m : Nat}
    (hA : A.HasShape n m) (hn : 1 ≤ n) (c : Int) (s : S) (h : c < 0 ∨ c ≥ (m : Int)) :
    A.multiplyColumn c s
      = Except.error (Err.runtime_error What.bad_column_multiplication) := by
  simp only [multiplyColumn, getM_of_shape hA hn, bind_ok]
  by_cases h1 : c < 0
  · simp only [h1, if_true, throw_eq_error, bind_error]
  · have h2 : c ≥ (m : Int) := by omega
    simp only [h1, if_false, h2, if_true, throw_eq_error, bind_error, pure_eq_ok, bind_ok]

theorem multiplyColumn_spec {S : Type} [Inhabited E] [HMul E S E] {A : Matrix E} {n m : Nat}
    (hA : A.HasShape n m) (hn : 1 ≤ n) (c : Nat) (s : S) (hc : c < m) :
    ∃ R, A.multiplyColumn (c : Int) s = Except.ok R ∧ R.HasShape n m ∧
      ∀ i' j', R.entry i' j' = if j' = c ∧ i' < n then A.entry i' j' * s
        else A.entry i' j' := by
  have k1 : ¬ ((c : Int) < 0) := by omega
  have k2 : ¬ ((c : Int) ≥ (m : Int)) := by omega
  simp only [multiplyColumn, getN_of_shape hA, getM_of_shape hA hn, bind_ok, k1, k2, if_false,
    pure_eq_ok]
  exact forInt_inv
    (fun i (t : Matrix E) => t.HasShape n m ∧ ∀ i' j', t.entry i' j' =
      if j' = c ∧ i' < i then A.entry i' j' * s else A.entry i' j') n
    (fun i t => do
      let x ← t.raw i (c : Int)
      t.rawSet i (c : Int) (x * s))
    A ⟨hA, by intro i' j'; simp⟩
    (by
      intro i t hi ⟨hs, he⟩
      have e1 : t.entry i c = A.entry i c := by rw [he]; simp
      obtain ⟨t', g1, g2, g3⟩ := rawSet_of_shape hs i c hi hc (A.entry i c * s)
      refine ⟨t', by simp only [raw_of_shape hs i c hi hc, bind_ok, e1, g1], g2, ?_⟩
      intro i' j'
      rw [g3, he]
      by_cases hq : i' = i ∧ j' = c
      · obtain ⟨q1, q2⟩ := hq
        subst q1 q2
        simp
      · rw [if_neg hq]
        have : (j' = c ∧ i' < i + 1) ↔ (j' = c ∧ i' < i) := by omega
        simp only [this])

end Matrix

/-- C18: for a matrix of `n ≥ 1` rows of `m` entries each (every well-formed
matrix is one), `int` factors and a destination column in `[0, m)`,
`combineColumns(c1, f1, c2, f2, dest)` throws its `runtime_error` ("Invalid
column combination: bad index.") when `c1` or `c2` is outside `[0, m)`;
otherwise it returns and leaves a matrix of the same `getN()` and
`getM()` whose entry `(i, dest)` is `f1 * old(i, c1) + f2 * old(i, c2)` for every
row `i`, with `old` the matrix before the call (also when `dest` is `c1` or
`c2`), and whose other columns are as before; and `combineColumns(0, 7, 1, 1, 1)`
on `[[1,0,1],[0,1,0],[0,0,0]]` leaves `[[1,7,1],[0,1,0],[0,0,0]]`. -/
theorem C18_combineColumns {E : Type} [Inhabited E] [HMul Int E E] [Add E] (A : Matrix E)
    (n m : Nat) (hA : A.HasShape n m) (hn : 1 ≤ n) (c1 c2 dest : Int) (f1 f2 : Int)
    (hd0 : 0 ≤ dest) (hd : dest < (m : Int)) :
    ((c1 < 0 ∨ c1 ≥ (m : Int) ∨ c2 < 0 ∨ c2 ≥ (m : Int)) →
      A.combineColumns c1 f1 c2 f2 dest
        = Except.error (Err.runtime_error What.bad_column_combination)) ∧
    (¬ (c1 < 0 ∨ c1 ≥ (m : Int) ∨ c2 < 0 ∨ c2 ≥ (m : Int)) →
      ∃ A', A.combineColumns c1 f1 c2 f2 dest = Except.ok A' ∧
        A'.getN = A.getN ∧ A'.getM = A.getM ∧
        (∀ i : Nat, i < n → ∃ x y, A.get (i : Int) c1 = Except.ok x ∧
          A.get (i : Int) c2 = Except.ok y ∧
          A'.get (i : Int) dest = Except.ok (f1 * x + f2 * y)) ∧
        (∀ i j : Nat, i < n → j < m → (j : Int) ≠ dest →
          A'.get (i : Int) (j : Int) = A.get (i : Int) (j : Int))) ∧
    test_rc.combineColumns 0 7 1 1 1 = Except.ok ⟨[[1, 7, 1], [0, 1, 0], [0, 0, 0]]⟩ := by
  refine ⟨fun h => combineColumns_rejected hA hn c1 c2 dest f1 f2 h, ?_, by decide⟩
  intro hin
  obtain ⟨a, rfl⟩ : ∃ a : Nat, c1 = (a : Int) := ⟨c1.toNat, by omega⟩
  obtain ⟨b, rfl⟩ : ∃ b : Nat, c2 = (b : Int) := ⟨c2.toNat, by omega⟩
  obtain ⟨d, rfl⟩ : ∃ d : Nat, dest = (d : Int) := ⟨dest.toNat, by omega⟩
  have ha : a < m := by omega
  have hb : b < m := by omega
  have hdm : d < m := by omega
  obtain ⟨R, hR, hS, hE⟩ := combineColumns_spec hA hn a b d f1 f2 ha hb hdm
  refine ⟨R, hR, ?_, ?_, ?_, ?_⟩
  · rw [getN_of_shape hS, getN_of_shape hA]
  · rw [getM_of_shape hS hn, getM_of_shape hA hn]
  · intro i hi
    refine ⟨_, _, get_of_shape hA i a hi ha, get_of_shape hA i b hi hb, ?_⟩
    rw [get_of_shape hS i d hi hdm, hE, if_pos ⟨rfl, hi⟩]
  · intro i j hi hj hne
    have : ¬ (j = d ∧ i < n) := by omega
    rw [get_of_shape hS i j hi hj, get_of_shape hA i j hi hj, hE, if_neg this]

theorem C18_combineColumns_witness :
    test_rc.HasShape 3 3 ∧
    test_rc.combineColumns 0 7 3 1 1
      = Except.error (Err.runtime_error What.bad_column_combination) ∧
    ∃ A', test_rc.combineColumns 1 7 0 1 1 = Except.ok A' ∧
      A'.getN = test_rc.getN ∧ A'.getM = test_rc.getM ∧
      (∀ i : Nat, i < 3 → ∃ x y, test_rc.get (i : Int) 1 = Except.ok x ∧
        test_rc.get (i : Int) 0 = Except.ok y ∧
        A'.get (i : Int) 1 = Except.ok (7 * x + 1 * y)) ∧
      (∀ i j : Nat, i < 3 → j < 3 → (j : Int) ≠ 1 →
        A'.get (i : Int) (j : Int) = test_rc.get (i : Int) (j : Int)) :=
  ⟨by decide,
    (C18_combineColumns test_rc 3 3 (by decide) (by decide) 0 3 1 7 1 (by decide)
      (by decide)).1 (by decide),
    (C18_combineColumns test_rc 3 3 (by decide) (by decide) 1 0 1 7 1 (by decide)
      (by decide)).2.1 (by decide)⟩

/-- C20: for a matrix of `n ≥ 1` rows of `m` entries each (every well-formed
matrix is one) and a scalar `s`: `multiplyRow(r, s)` throws its `runtime_error`
("Invalid row multiplication: bad index.") exactly when `r` is outside
`[0, n)`, and otherwise returns and leaves a matrix of the same `getN()` and
`getM()` whose row `r` holds the old entries times `s` and whose other rows are
as before; `multiplyColumn(c, s)` throws its `runtime_error` ("Invalid column
multiplication: bad index.") exactly when `c` is outside `[0, m)`, and
otherwise does the same for column `c`. On `[[1,2],[1,2]]`,
`multiplyRow(1, 3)` leaves `[[1,2],[3,6]]` and `multiplyColumn(1, 3)` leaves
`[[1,6],[1,6]]`. -/
theorem C20_multiply {E S : Type} [Inhabited E] [HMul E S E] (A : Matrix E) (n m : Nat)
    (hA : A.HasShape n m) (hn : 1 ≤ n) (s : S) (r c : Int) :
    (A.multiplyRow r s = Except.error (Err.runtime_error What.bad_row_multiplication) ↔
      (r < 0 ∨ r ≥ (n : Int))) ∧
    (¬ (r < 0 ∨ r ≥ (n : Int)) →
      ∃ A', A.multiplyRow r s = Except.ok A' ∧ A'.getN = A.getN ∧ A'.getM = A.getM ∧
        (∀ j : Nat, j < m → ∃ x, A.get r (j : Int) = Except.ok x ∧
          A'.get r (j : Int) = Except.ok (x * s)) ∧
        (∀ i j : Nat, i < n → j < m → (i : Int) ≠ r →
          A'.get (i : Int) (j : Int) = A.get (i : Int) (j : Int))) ∧
    (A.multiplyColumn c s = Except.error (Err.runtime_error What.bad_column_multiplication) ↔
      (c < 0 ∨ c ≥ (m : Int))) ∧
    (¬ (c < 0 ∨ c ≥ (m : Int)) →
      ∃ A', A.multiplyColumn c s = Except.ok A' ∧ A'.getN = A.getN ∧ A'.getM = A.getM ∧
        (∀ i : Nat, i < n → ∃ x, A.get (i : Int) c = Except.ok x ∧
          A'.get (i : Int) c = Except.ok (x * s)) ∧
        (∀ i j : Nat, i < n → j < m → (j : Int) ≠ c →
          A'.get (i : Int) (j : Int) = A.get (i : Int) (j : Int))) ∧
    test_rm.multiplyRow 1 (3 : Int) = Except.ok ⟨[[1, 2], [3, 6]]⟩ ∧
    test_rm.multiplyColumn 1 (3 : Int) = Except.ok ⟨[[1, 6], [1, 6]]⟩ := by
  have hrow : ¬ (r < 0 ∨ r ≥ (n : Int)) →
      ∃ A', A.multiplyRow r s = Except.ok A' ∧ A'.getN = A.getN ∧ A'.getM = A.getM ∧
        (∀ j : Nat, j < m → ∃ x, A.get r (j : Int) = Except.ok x ∧
          A'.get r (j : Int) = Except.ok (x * s)) ∧
        (∀ i j : Nat, i < n → j < m → (i : Int) ≠ r →
          A'.get (i : Int) (j : Int) = A.get (i : Int) (j : Int)) := by
    intro hin
    obtain ⟨a, rfl⟩ : ∃ a : Nat, r = (a : Int) := ⟨r.toNat, by omega⟩
    have ha : a < n := by omega
    obtain ⟨R, hR, hS, hE⟩ := multiplyRow_spec hA hn a s ha
    refine ⟨R, hR, ?_, ?_, ?_, ?_⟩
    · rw [getN_of_shape hS, getN_of_shape hA]
    · rw [getM_of_shape hS hn, getM_of_shape hA hn]
    · intro j hj
      refine ⟨_, get_of_shape hA a j ha hj, ?_⟩
      rw [get_of_shape hS a j ha hj, hE, if_pos ⟨rfl, hj⟩]
    · intro i j hi hj hne
      have : ¬ (i = a ∧ j < m) := by omega
      rw [get_of_shape hS i j hi hj, get_of_shape hA i j hi hj, hE, if_neg this]
  have hcol : ¬ (c < 0 ∨ c ≥ (m : Int)) →
      ∃ A', A.multiplyColumn c s = Except.ok A' ∧ A'.getN = A.getN ∧ A'.getM = A.getM ∧
        (∀ i : Nat, i < n → ∃ x, A.get (i : Int) c = Except.ok x ∧
          A'.get (i : Int) c = Except.ok (x * s)) ∧
        (∀ i j : Nat, i < n → j < m → (j : Int) ≠ c →
          A'.get (i : Int) (j : Int) = A.get (i : Int) (j : Int)) := by
    intro hin
    obtain ⟨b, rfl⟩ : ∃ b : Nat, c = (b : Int) := ⟨c.toNat, by omega⟩
    have hb : b < m := by omega
    obtain ⟨R, hR, hS, hE⟩ := multiplyColumn_spec hA hn b s hb
    refine ⟨R, hR, ?_, ?_, ?_, ?_⟩
    · rw [getN_of_shape hS, getN_of_shape hA]
    · rw [getM_of_shape hS hn, getM_of_shape hA hn]
    · intro i hi
      refine ⟨_, get_of_shape hA i b hi hb, ?_⟩
      rw [get_of_shape hS i b hi hb, hE, if_pos ⟨rfl, hi⟩]
    · intro i j hi hj hne
      have : ¬ (j = b ∧ i < n) := by omega
      rw [get_of_shape hS i j hi hj, get_of_shape hA i j hi hj, hE, if_neg this]
  refine ⟨⟨?_, fun h => multiplyRow_rejected hA r s h⟩, hrow,
    ⟨?_, fun h => multiplyColumn_rejected hA hn c s h⟩, hcol, by decide, by decide⟩
  · intro he
    by_contra hc
    obtain ⟨_, h1, _⟩ := hrow hc
    rw [h1] at he
    cases he
  · intro he
    by_contra hc
    obtain ⟨_, h1, _⟩ := hcol hc
    rw [h1] at he
    cases he

theorem C20_multiply_witness :
    test_rm.HasShape 2 2 ∧
    (test_rm.multiplyRow 2 (3 : Int)
        = Except.error (Err.runtime_error What.bad_row_multiplication) ↔
      ((2 : Int) < 0 ∨ (2 : Int) ≥ ((2 : Nat) : Int))) ∧
    (test_rm.multiplyColumn 1 (3 : Int)
        = Except.error (Err.runtime_error What.bad_column_multiplication) ↔
      ((1 : Int) < 0 ∨ (1 : Int) ≥ ((2 : Nat) : Int))) :=
  ⟨by decide, (C20_multiply test_rm 2 2 (by decide) (by decide) (3 : Int) 2 1).1,
    (C20_multiply test_rm 2 2 (by decide) (by decide) (3 : Int) 2 1).2.2.1⟩

/-! ### Filling -/

theorem std_fill_length {α : Type} (v : List α) (e : α) : (std_fill v e).length = v.length := by
  simp [std_fill]

theorem std_fill_getD {α : Type} (v : List α) (e d : α) (j : Nat) :
    (std_fill v e).getD j d = if j < v.length then e else d := by
  simp only [std_fill, List.getD_eq_getElem?_getD, List.getElem?_map]
  by_cases hj : j < v.length
  · simp [List.getElem?_eq_getElem hj, hj]
  · simp [List.getElem?_eq_none (Nat.le_of_not_lt hj), hj]

namespace Matrix

variable {E : Type}

theorem fill_spec [Inhabited E] {A : Matrix E} {n m : Nat} (hA : A.HasShape n m) (e : E) :
    (A.fill e).HasShape n m ∧ ∀ i j, i < n → j < m → (A.fill e).entry i j = e := by
  refine ⟨⟨by simp [fill, hA.1], ?_⟩, ?_⟩
  · intro row hrow
    simp only [fill, List.mem_map] at hrow
    obtain ⟨r, hr, rfl⟩ := hrow
    rw [std_fill_length, hA.2 r hr]
  · intro i j hi hj
    have hi' : i < A.data.length := by rw [hA.1]; exact hi
    have hl := row_length hA i hi
    rw [List.getD_eq_getElem _ _ hi'] at hl
    simp only [entry, fill, List.getD_eq_getElem?_getD, List.getElem?_map,
      List.getElem?_eq_getElem hi', Option.map_some', Option.getD_some]
    rw [← List.getD_eq_getElem?_getD, std_fill_getD, hl, if_pos hj]

theorem fillRow_rejected {A : Matrix E} {n m : Nat} (hA : A.HasShape n m) (r : Int) (e : E)
    (h : r < 0 ∨ r ≥ (n : Int)) :
    A.fillRow r e = Except.error (Err.runtime_error What.bad_row_fill) := by
  simp only [fillRow, getN_of_shape hA, h, if_true, throw_eq_error, bind_error]

theorem fillRow_spec [Inhabited E] {A : Matrix E} {n m : Nat} (hA : A.HasShape n m)
    (r : Nat) (e : E) (hr : r < n) :
    ∃ R, A.fillRow (r : Int) e = Except.ok R ∧ R.HasShape n m ∧
      ∀ i' j', R.entry i' j' = if i' = r ∧ j' < m then e else A.entry i' j' := by
  have hr' : r < A.data.length := by rw [hA.1]; exact hr
  have hl := row_length hA r hr
  rw [List.getD_eq_getElem _ _ hr'] at hl
  have k1 : ¬ ((r : Int) < 0 ∨ (r : Int) ≥ (n : Int)) := by omega
  refine ⟨⟨A.data.set r (std_fill (A.data.get ⟨r, hr'⟩) e)⟩, ?_, ⟨?_, ?_⟩, ?_⟩
  · simp only [fillRow, getN_of_shape hA, k1, if_false, index_natCast _ _ hr', bind_ok,
      assign_natCast _ _ _ hr', pure_eq_ok]
  · simp [hA.1]
  · intro row hrow
    rcases List.mem_or_eq_of_mem_set hrow with hmem | heq
    · exact hA.2 row hmem
    · rw [heq, std_fill_length]; exact hl
  · intro i' j'
    simp only [entry, getD_set_row _ _ _ _ _ hr']
    by_cases hii : i' = r
    · subst hii
      have hl' : (A.data.get ⟨i', hr'⟩).length = m := hl
      simp only [if_true, true_and, std_fill_getD, hl']
      by_cases hj : j' < m
      · simp [hj]
      · have : (A.data.getD i' []).length ≤ j' := by
          rw [List.getD_eq_getElem _ _ hr']; omega
        simp only [hj, if_false]
        rw [List.getD_eq_default _ _ this]
    · simp [hii]

theorem fillColumn_rejected {A : Matrix E} {n m : Nat} (hA : A.HasShape n m) (hn : 1 ≤ n)
    (c : Int) (e : E) (h : c < 0 ∨ c ≥ (m : Int)) :
    A.fillColumn c e = Except.error (Err.runtime_error What.bad_column_fill) := by
  simp only [fillColumn, getM_of_shape hA hn, bind_ok]
  by_cases h1 : c < 0
  · simp only [h1, if_true, throw_eq_error, bind_error]
  · have h2 : c ≥ (m : Int) := by omega
    simp only [h1, if_false, h2, if_true, throw_eq_error, bind_error, pure_eq_ok, bind_ok]

theorem fillColumn_spec [Inhabited E] {A : Matrix E} {n m : Nat} (hA : A.HasShape n m)
    (hn : 1 ≤ n) (c : Nat) (e : E) (hc : c < m) :
    ∃ R, A.fillColumn (c : Int) e = Except.ok R ∧ R.HasShape n m ∧
      ∀ i' j', R.entry i' j' = if j' = c ∧ i' < n then e else A.entry i' j' := by
  have k1 : ¬ ((c : Int) < 0) := by omega
  have k2 : ¬ ((c : Int) ≥ (m : Int)) := by omega
  simp only [fillColumn, getN_of_shape hA, getM_of_shape hA hn, bind_ok, k1, k2, if_false,
    pure_eq_ok]
  exact forInt_inv
    (fun i (t : Matrix E) => t.HasShape n m ∧ ∀ i' j', t.entry i' j' =
      if j' = c ∧ i' < i then e else A.entry i' j') n
    (fun i t => t.rawSet i (c : Int) e)
    A ⟨hA, by intro i' j'; simp⟩
    (by
      intro i t hi ⟨hs, he⟩
      obtain ⟨t', g1, g2, g3⟩ := rawSet_of_shape hs i c hi hc e
      refine ⟨t', g1, g2, ?_⟩
      intro i' j'
      rw [g3, he]
      by_cases hq : i' = i ∧ j' = c
      · obtain ⟨q1, q2⟩ := hq
        subst q1 q2
        simp
      · rw [if_neg hq]
        have : (j' = c ∧ i' < i + 1) ↔ (j' = c ∧ i' < i) := by omega
        simp only [this])

end Matrix

/-- The run of `TEST(Matrix, TestFill)`. -/
theorem fill_test :
    ∃ M0 M1 M2 : Matrix Int, ofFill 200 300 (3 : Int) = Except.ok M0 ∧
      M0.fillColumn 2 8 = Except.ok M1 ∧ M1.fillRow 2 7 = Except.ok M2 ∧
      M2.get 1 2 = Except.ok 8 ∧ M2.get 2 1 = Except.ok 7 ∧ M2.get 2 2 = Except.ok 7 ∧
      M2.get 3 3 = Except.ok 3 := by
  have h0 := ofFill_of_pos 200 300 (by decide) (by decide) (3 : Int)
  have s0 := replicate_shape 200 300 (3 : Int)
  obtain ⟨M1, h1, s1, e1⟩ := fillColumn_spec s0 (by decide) 2 (8 : Int) (by decide)
  obtain ⟨M2, h2, s2, e2⟩ := fillRow_spec s1 2 (7 : Int) (by decide)
  have g12 := get_of_shape s2 1 2 (by decide) (by decide)
  have g21 := get_of_shape s2 2 1 (by decide) (by decide)
  have g22 := get_of_shape s2 2 2 (by decide) (by decide)
  have g33 := get_of_shape s2 3 3 (by decide) (by decide)
  have r33 := replicate_entry 200 300 (3 : Int) 3 3 (by decide) (by decide)
  rw [e2, e1] at g12 g21 g22 g33
  rw [r33] at g33
  refine ⟨_, M1, M2, by exact_mod_cast h0, by exact_mod_cast h1, by exact_mod_cast h2,
    ?_, ?_, ?_, ?_⟩
  · simpa using g12
  · simpa using g21
  · simpa using g22
  · simpa using g33

/-- C21: for a matrix of `n ≥ 1` rows of `m` entries each (every well-formed
matrix is one) and an element `e`: `fill(e)` leaves a matrix of the same
`getN()` and `getM()` whose every entry is `e`; `fillRow(r, e)` throws its
`runtime_error` ("Invalid row fill: bad index.") exactly when `r` is outside
`[0, n)` and otherwise returns and leaves a matrix of the same `getN()` and
`getM()` whose row `r` holds `e` and whose other rows are as before;
`fillColumn(c, e)` throws its `runtime_error` ("Invalid column fill: bad
index.") exactly when `c` is outside `[0, m)` and otherwise does the same for
column `c`. After `fillColumn(2, 8)` then `fillRow(2, 7)` on
the 200 x 300 matrix filled with 3, `get(1,2) = 8`, `get(2,1) = 7`,
`get(2,2) = 7` and `get(3,3) = 3`. -/
theorem C21_fill {E : Type} [Inhabited E] (A : Matrix E) (n m : Nat) (hA : A.HasShape n m)
    (hn : 1 ≤ n) (e : E) (r c : Int) :
    ((A.fill e).getN = A.getN ∧ (A.fill e).getM = A.getM ∧
      ∀ i j : Nat, i < n → j < m → (A.fill e).get (i : Int) (j : Int) = Except.ok e) ∧
    (A.fillRow r e = Except.error (Err.runtime_error What.bad_row_fill) ↔
      (r < 0 ∨ r ≥ (n : Int))) ∧
    (¬ (r < 0 ∨ r ≥ (n : Int)) →
      ∃ A', A.fillRow r e = Except.ok A' ∧ A'.getN = A.getN ∧ A'.getM = A.getM ∧
        (∀ j : Nat, j < m → A'.get r (j : Int) = Except.ok e) ∧
        (∀ i j : Nat, i < n → j < m → (i : Int) ≠ r →
          A'.get (i : Int) (j : Int) = A.get (i : Int) (j : Int))) ∧
    (A.fillColumn c e = Except.error (Err.runtime_error What.bad_column_fill) ↔
      (c < 0 ∨ c ≥ (m : Int))) ∧
    (¬ (c < 0 ∨ c ≥ (m : Int)) →
      ∃ A', A.fillColumn c e = Except.ok A' ∧ A'.getN = A.getN ∧ A'.getM = A.getM ∧
        (∀ i : Nat, i < n → A'.get (i : Int) c = Except.ok e) ∧
        (∀ i j : Nat, i < n → j < m → (j : Int) ≠ c →
          A'.get (i : Int) (j : Int) = A.get (i : Int) (j : Int))) ∧
    (∃ M0 M1 M2 : Matrix Int, ofFill 200 300 (3 : Int) = Except.ok M0 ∧
      M0.fillColumn 2 8 = Except.ok M1 ∧ M1.fillRow 2 7 = Except.ok M2 ∧
      M2.get 1 2 = Except.ok 8 ∧ M2.get 2 1 = Except.ok 7 ∧ M2.get 2 2 = Except.ok 7 ∧
      M2.get 3 3 = Except.ok 3) := by
  have hfill : (A.fill e).getN = A.getN ∧ (A.fill e).getM = A.getM ∧
      ∀ i j : Nat, i < n → j < m → (A.fill e).get (i : Int) (j : Int) = Except.ok e := by
    obtain ⟨hS, hE⟩ := fill_spec hA e
    refine ⟨?_, ?_, fun i j hi hj => ?_⟩
    · rw [getN_of_shape hS, getN_of_shape hA]
    · rw [getM_of_shape hS hn, getM_of_shape hA hn]
    · rw [get_of_shape hS i j hi hj, hE i j hi hj]
  have hrow : ¬ (r < 0 ∨ r ≥ (n : Int)) →
      ∃ A', A.fillRow r e = Except.ok A' ∧ A'.getN = A.getN ∧ A'.getM = A.getM ∧
        (∀ j : Nat, j < m → A'.get r (j : Int) = Except.ok e) ∧
        (∀ i j : Nat, i < n → j < m → (i : Int) ≠ r →
          A'.get (i : Int) (j : Int) = A.get (i : Int) (j : Int)) := by
    intro hin
    obtain ⟨a, rfl⟩ : ∃ a : Nat, r = (a : Int) := ⟨r.toNat, by omega⟩
    have ha : a < n := by omega
    obtain ⟨R, hR, hS, hE⟩ := fillRow_spec hA a e ha
    refine ⟨R, hR, ?_, ?_, ?_, ?_⟩
    · rw [getN_of_shape hS, getN_of_shape hA]
    · rw [getM_of_shape hS hn, getM_of_shape hA hn]
    · intro j hj
      rw [get_of_shape hS a j ha hj, hE, if_pos ⟨rfl, hj⟩]
    · intro i j hi hj hne
      have : ¬ (i = a ∧ j < m) := by omega
      rw [get_of_shape hS i j hi hj, get_of_shape hA i j hi hj, hE, if_neg this]
  have hcol : ¬ (c < 0 ∨ c ≥ (m : Int)) →
      ∃ A', A.fillColumn c e = Except.ok A' ∧ A'.getN = A.getN ∧ A'.getM = A.getM ∧
        (∀ i : Nat, i < n → A'.get (i : Int) c = Except.ok e) ∧
        (∀ i j : Nat, i < n → j < m → (j : Int) ≠ c →
          A'.get (i : Int) (j : Int) = A.get (i : Int) (j : Int)) := by
    intro hin
    obtain ⟨b, rfl⟩ : ∃ b : Nat, c = (b : Int) := ⟨c.toNat, by omega⟩
    have hb : b < m := by omega
    obtain ⟨R, hR, hS, hE⟩ := fillColumn_spec hA hn b e hb
    refine ⟨R, hR, ?_, ?_, ?_, ?_⟩
    · rw [getN_of_shape hS, getN_of_shape hA]
    · rw [getM_of_shape hS hn, getM_of_shape hA hn]
    · intro i hi
      rw [get_of_shape hS i b hi hb, hE, if_pos ⟨rfl, hi⟩]
    · intro i j hi hj hne
      have : ¬ (j = b ∧ i < n) := by omega
      rw [get_of_shape hS i j hi hj, get_of_shape hA i j hi hj, hE, if_neg this]
  refine ⟨hfill, ⟨?_, fun h => fillRow_rejected hA r e h⟩, hrow,
    ⟨?_, fun h => fillColumn_rejected hA hn c e h⟩, hcol, fill_test⟩
  · intro he
    by_contra hc
    obtain ⟨_, h1, _⟩ := hrow hc
    rw [h1] at he
    cases he
  · intro he
    by_contra hc
    obtain ⟨_, h1, _⟩ := hcol hc
    rw [h1] at he
    cases he

theorem C21_fill_witness :
    test_m1.HasShape 2 3 ∧
    (test_m1.fillRow 2 9 = Except.error (Err.runtime_error What.bad_row_fill) ↔
      ((2 : Int) < 0 ∨ (2 : Int) ≥ ((2 : Nat) : Int))) ∧
    (test_m1.fillColumn 2 9 = Except.error (Err.runtime_error What.bad_column_fill) ↔
      ((2 : Int) < 0 ∨ (2 : Int) ≥ ((3 : Nat) : Int))) :=
  ⟨by decide, (C21_fill test_m1 2 3 (by decide) (by decide) 9 2 2).2.1,
    (C21_fill test_m1 2 3 (by decide) (by decide) 9 2 2).2.2.2.1⟩

/-! ### Transposition in place -/

theorem forIntFrom_inv {σ : Type} (P : Nat → σ → Prop) (lo hi : Nat) (hle : lo ≤ hi)
    (body : Int → σ → Except Err σ) (s : σ) (h0 : P lo s)
    (hstep : ∀ k t, lo ≤ k → k < hi → P k t →
      ∃ t', body (k : Int) t = Except.ok t' ∧ P (k + 1) t') :
    ∃ t, forIntFrom (lo : Int) (hi : Int) body s = Except.ok t ∧ P hi t := by
  have hcount : ((hi : Int) - (lo : Int)).toNat = hi - lo := by omega
  obtain ⟨t, ht, hP⟩ := forRange_inv (fun d t => P (lo + d) t) (hi - lo)
    (fun k s => body ((lo : Int) + k) s) s h0
    (by
      intro d t hd hPd
      obtain ⟨t', h1, h2⟩ := hstep (lo + d) t (by omega) (by omega) hPd
      refine ⟨t', ?_, h2⟩
      rw [← h1]
      push_cast
      rfl)
  refine ⟨t, ?_, ?_⟩
  · rw [forIntFrom, hcount]
    exact ht
  · have : lo + (hi - lo) = hi := by omega
    rw [← this]
    exact hP

namespace Matrix

variable {E : Type}

/-- The statement `std::swap(data[i][j], data[j][i])` inside the storage. -/
theorem swap_step [Inhabited E] {t : Matrix E} {n : Nat} (hs : t.HasShape n n) (i j : Nat)
    (hi : i < n) (hj : j < n) :
    ∃ t', (do
        let x ← t.raw (i : Int) (j : Int)
        let y ← t.raw (j : Int) (i : Int)
        let u ← t.rawSet (i : Int) (j : Int) y
        u.rawSet (j : Int) (i : Int) x) = Except.ok t' ∧ t'.HasShape n n ∧
      ∀ i' j', t'.entry i' j' =
        if i' = j ∧ j' = i then t.entry i j
        else if i' = i ∧ j' = j then t.entry j i else t.entry i' j' := by
  obtain ⟨u, g1, g2, g3⟩ := rawSet_of_shape hs i j hi hj (t.entry j i)
  obtain ⟨t', k1, k2, k3⟩ := rawSet_of_shape g2 j i hj hi (t.entry i j)
  refine ⟨t', by simp only [raw_of_shape hs i j hi hj, raw_of_shape hs j i hj hi, bind_ok,
    g1, k1], k2, ?_⟩
  intro i' j'
  rw [k3, g3]

theorem inplaceTranspose_square [Inhabited E] {A : Matrix E} {n : Nat}
    (hA : A.HasShape n n) (hn : 1 ≤ n) :
    ∃ R, A.inplaceTranspose = Except.ok R ∧ R.HasShape n n ∧
      ∀ i j, i < n → j < n → R.entry j i = A.entry i j := by
  simp only [inplaceTranspose, getN_of_shape hA, getM_of_shape hA hn, bind_ok, if_true]
  obtain ⟨R, hR, hS, hE⟩ := forInt_inv
    (fun i (r : Matrix E) => r.HasShape n n ∧ ∀ i' j', i' < n → j' < n →
      r.entry i' j' = if i' < i ∨ j' < i then A.entry j' i' else A.entry i' j') n
    (fun i r => do
      forIntFrom i (← r.getM) (fun j r => do
        let x ← r.raw i j
        let y ← r.raw j i
        let u ← r.rawSet i j y
        u.rawSet j i x) r)
    A ⟨hA, by intro i' j' _ _; simp⟩
    (by
      intro i r hi ⟨hs, he⟩
      obtain ⟨r', hr', hs', he'⟩ := forIntFrom_inv
        (fun j (t : Matrix E) => t.HasShape n n ∧ ∀ i' j', i' < n → j' < n →
          t.entry i' j' =
            if (i' < i ∨ (i' = i ∧ j' < j)) ∨ (j' < i ∨ (j' = i ∧ i' < j))
            then A.entry j' i' else A.entry i' j') i n (by omega)
        (fun j t => do
          let x ← t.raw (i : Int) j
          let y ← t.raw j (i : Int)
          let u ← t.rawSet (i : Int) j y
          u.rawSet j (i : Int) x) r
        ⟨hs, by
          intro i' j' hi' hj'
          rw [he i' j' hi' hj']
          have : ((i' < i ∨ (i' = i ∧ j' < i)) ∨ (j' < i ∨ (j' = i ∧ i' < i)))
              ↔ (i' < i ∨ j' < i) := by omega
          simp only [this]⟩
        (by
          intro j t hij hj ⟨hts, hte⟩
          obtain ⟨t', q1, q2, q3⟩ := swap_step hts i j hi hj
          refine ⟨t', q1, q2, ?_⟩
          intro i' j' hi' hj'
          rw [q3]
          by_cases ca : i' = j ∧ j' = i
          · obtain ⟨c1, c2⟩ := ca
            subst c1 c2
            have n1 : ¬ ((j' < j' ∨ (j' = j' ∧ i' < i')) ∨ (i' < j' ∨ (i' = j' ∧ j' < i'))) := by
              omega
            have p1 : (i' < j' ∨ (i' = j' ∧ j' < i' + 1)) ∨ (j' < j' ∨ (j' = j' ∧ i' < i' + 1)) := by
              omega
            rw [if_pos ⟨rfl, rfl⟩, hte j' i' hj' hi', if_neg n1, if_pos p1]
          · rw [if_neg ca]
            by_cases cb : i' = i ∧ j' = j
            · obtain ⟨c1, c2⟩ := cb
              subst c1 c2
              have n1 : ¬ ((j' < i' ∨ (j' = i' ∧ i' < j')) ∨ (i' < i' ∨ (i' = i' ∧ j' < j'))) := by
                omega
              have p1 : (i' < i' ∨ (i' = i' ∧ j' < j' + 1)) ∨ (j' < i' ∨ (j' = i' ∧ i' < j' + 1)) := by
                omega
              rw [if_pos ⟨rfl, rfl⟩, hte j' i' hj' hi', if_neg n1, if_pos p1]
            · rw [if_neg cb, hte i' j' hi' hj']
              have : ((i' < i ∨ (i' = i ∧ j' < j + 1)) ∨ (j' < i ∨ (j' = i ∧ i' < j + 1)))
                  ↔ ((i' < i ∨ (i' = i ∧ j' < j)) ∨ (j' < i ∨ (j' = i ∧ i' < j))) := by omega
              simp only [this])
      refine ⟨r', by simp only [getM_of_shape hs hn, bind_ok, hr'], hs', ?_⟩
      intro i' j' hi' hj'
      rw [he' i' j' hi' hj']
      have : ((i' < i ∨ (i' = i ∧ j' < n)) ∨ (j' < i ∨ (j' = i ∧ i' < n)))
          ↔ (i' < i + 1 ∨ j' < i + 1) := by omega
      simp only [this])
  refine ⟨R, hR, hS, fun i j hi hj => ?_⟩
  rw [hE j i hj hi, if_pos (Or.inl hj)]

end Matrix

namespace Matrix

variable {E : Type}

theorem inplaceTranspose_fallback [Inhabited E] {A : Matrix E} {n m : Nat}
    (hA : A.HasShape n m) (hn : 1 ≤ n) (hne : n ≠ m) (R : Matrix E)
    (hT : A.transpose = Except.ok R) : A.inplaceTranspose = Except.ok R := by
  have hc : ¬ ((m : Int) = (n : Int)) := by omega
  simp only [inplaceTranspose, getN_of_shape hA, getM_of_shape hA hn, bind_ok, hc, if_false,
    hT, moveAssign, pure_eq_ok]

theorem inplaceTranspose_spec [Inhabited E] {A : Matrix E} {n m : Nat}
    (hA : A.HasShape n m) (hn : 1 ≤ n) (hm : 1 ≤ m) :
    ∃ R, A.inplaceTranspose = Except.ok R ∧ A.transpose = Except.ok R ∧ R.HasShape m n ∧
      ∀ i j, i < n → j < m → R.entry j i = A.entry i j := by
  obtain ⟨T, hT, sT, eT⟩ := transpose_spec hA hn hm
  by_cases hsq : n = m
  · subst hsq
    obtain ⟨R, hR, sR, eR⟩ := inplaceTranspose_square hA hn
    have hRT : R = T := ext_of_shape sR sT (fun i j hi hj => by
      rw [eR j i hj hi, eT j i hj hi])
    exact ⟨T, by rw [hR, hRT], hT, sT, eT⟩
  · exact ⟨T, inplaceTranspose_fallback hA hn hsq T hT, hT, sT, eT⟩

end Matrix

/-- C22: for every well-formed `A` of shape `(n, m)`, square or not,
`inplaceTranspose()` returns, and the matrix it leaves is the one `transpose()`
returns on `A`: `getN() = m`, `getM() = n` and entry `(j, i)` is the entry
`(i, j)` of `A`. On the square matrix of the unit test it leaves
`[[1,0,0],[2,1,0],[1,0,5]]`. -/
theorem C22_inplaceTranspose {E : Type} [Inhabited E] (A : Matrix E) (n m : Nat)
    (hA : A.HasShape n m) (hn : 1 ≤ n) (hm : 1 ≤ m) :
    (∃ R, A.inplaceTranspose = Except.ok R ∧ A.transpose = Except.ok R ∧
      R.getN = (m : Int) ∧ R.getM = Except.ok (n : Int) ∧
      ∀ i j : Nat, i < n → j < m → ∃ x, A.get (i : Int) (j : Int) = Except.ok x ∧
        R.get (j : Int) (i : Int) = Except.ok x) ∧
    test_sq.inplaceTranspose = Except.ok ⟨[[1, 0, 0], [2, 1, 0], [1, 0, 5]]⟩ := by
  obtain ⟨R, hR, hT, sR, eR⟩ := inplaceTranspose_spec hA hn hm
  refine ⟨⟨R, hR, hT, getN_of_shape sR, getM_of_shape sR hm, fun i j hi hj =>
    ⟨_, get_of_shape hA i j hi hj, ?_⟩⟩, by decide⟩
  rw [get_of_shape sR j i hj hi, eR i j hi hj]

theorem C22_inplaceTranspose_witness :
    test_tall.HasShape 3 2 ∧
    ∃ R, test_tall.inplaceTranspose = Except.ok R ∧ test_tall.transpose = Except.ok R ∧
      R.getN = ((2 : Nat) : Int) ∧ R.getM = Except.ok ((3 : Nat) : Int) ∧
      ∀ i j : Nat, i < 3 → j < 2 → ∃ x, test_tall.get (i : Int) (j : Int) = Except.ok x ∧
        R.get (j : Int) (i : Int) = Except.ok x :=
  ⟨by decide, (C22_inplaceTranspose test_tall 3 2 (by decide) (by decide) (by decide)).1⟩

/-- C23: on the well-formed 2 x 3 matrix `[[1,2,1],[0,1,0]]`, for which
`TEST(Matrix, TestTranspose)` asserts that `inplaceTranspose()` throws a
`std::runtime_error`, the code throws nothing: it takes the branch
`*this = this->transpose()` and leaves `[[1,0],[2,1],[1,0]]`. -/
theorem C23_nonsquare_no_throw :
    test_m1.WellFormed ∧ test_m1.getN = 2 ∧ test_m1.getM = Except.ok 3 ∧
    test_m1.inplaceTranspose = Except.ok ⟨[[1, 0], [2, 1], [1, 0]]⟩ ∧
    ¬ ∃ e, test_m1.inplaceTranspose = Except.error e := by
  have h : test_m1.inplaceTranspose = Except.ok ⟨[[1, 0], [2, 1], [1, 0]]⟩ := by decide
  refine ⟨by decide, by decide, by decide, h, ?_⟩
  intro ⟨e, he⟩
  rw [h] at he
  cases he


/-! ### Well-formedness of every result -/

theorem assign_outside {α : Type} (v : List α) (i : Int) (x : α)
    (h : i < 0 ∨ i ≥ (v.length : Int)) : assign v i x = Except.error Err.out_of_bounds := by
  unfold assign
  by_cases h0 : i < 0
  · simp only [h0, if_true]
  · have : ¬ (i.toNat < v.length) := by omega
    simp only [h0, if_false, this]

namespace Matrix

variable {E : Type}

theorem rawSet_col_outside {A : Matrix E} {n m : Nat} (hA : A.HasShape n m) (i : Nat)
    (hi : i < n) (c : Int) (v : E) (h : c < 0 ∨ c ≥ (m : Int)) :
    A.rawSet (i : Int) c v = Except.error Err.out_of_bounds := by
  have hi' : i < A.data.length := by rw [hA.1]; exact hi
  have hl := row_length hA i hi
  rw [List.getD_eq_getElem _ _ hi'] at hl
  have hl' : (A.data.get ⟨i, hi'⟩).length = m := hl
  simp only [rawSet, index_natCast _ _ hi', bind_ok,
    assign_outside (A.data.get ⟨i, hi'⟩) c v (by rw [hl']; exact h), bind_error]

theorem combineColumns_outside [Inhabited E] [HMul Int E E] [Add E] {A : Matrix E}
    {n m : Nat} (hA : A.HasShape n m) (hn : 1 ≤ n) (c1 c2 dest : Int) (f1 f2 : Int)
    (h1 : 0 ≤ c1 ∧ c1 < (m : Int)) (h2 : 0 ≤ c2 ∧ c2 < (m : Int))
    (h : dest < 0 ∨ dest ≥ (m : Int)) :
    A.combineColumns c1 f1 c2 f2 dest = Except.error Err.out_of_bounds := by
  have k1 : ¬ (c1 < 0) := by omega
  have k2 : ¬ (c1 ≥ (m : Int) ∨ c2 < 0 ∨ c2 ≥ (m : Int)) := by omega
  simp only [combineColumns, getN_of_shape hA, getM_of_shape hA hn, bind_ok, k1, k2, if_false,
    pure_eq_ok, forInt, Int.toNat_ofNat]
  apply forRange_error_first _ _ _ _ n hn
  have r1 := raw_of_shape hA 0 c1.toNat (by omega) (by omega)
  have r2 := raw_of_shape hA 0 c2.toNat (by omega) (by omega)
  rw [Int.toNat_of_nonneg h1.1] at r1
  rw [Int.toNat_of_nonneg h2.1] at r2
  simp only [r1, r2, bind_ok]
  exact rawSet_col_outside hA 0 (by omega) dest _ h

theorem ofFill_ok_wf (n m : Int) (e : E) (R : Matrix E) (h : ofFill n m e = Except.ok R) :
    R.WellFormed := by
  by_cases hc : n < 1 ∨ m < 1
  · obtain ⟨err, herr⟩ := ofFill_fails n m e hc
    rw [herr] at h
    cases h
  · obtain ⟨n', rfl⟩ : ∃ n' : Nat, n = (n' : Int) := ⟨n.toNat, by omega⟩
    obtain ⟨m', rfl⟩ : ∃ m' : Nat, m = (m' : Int) := ⟨m.toNat, by omega⟩
    rw [ofFill_of_pos n' m' (by omega) (by omega) e] at h
    injection h with h
    subst h
    exact hasShape_wellFormed (replicate_shape n' m' e) (by omega) (by omega)

theorem ofList_ok_wf (L : List (List E)) (R : Matrix E) (h : ofList L = Except.ok R) :
    R.WellFormed := by
  cases L with
  | nil => cases h
  | cons first rest =>
    by_cases hf : first.length < 1
    · simp only [ofList, hf, if_true] at h
      cases h
    · simp only [ofList, hf, if_false] at h
      by_cases hall : ∀ row ∈ first :: rest, row.length = first.length
      · rw [forEach_rows first.length (first :: rest) [] hall] at h
        injection h with h
        subst h
        exact hasShape_wellFormed (n := rest.length + 1) (m := first.length)
          ⟨by simp, by simpa using hall⟩ (by omega) (by omega)
      · have hj : ∃ row ∈ first :: rest, row.length ≠ first.length := by
          by_contra hc
          exact hall (fun row hrow => by
            by_contra hne
            exact hc ⟨row, hrow, hne⟩)
        rw [forEach_jagged first.length (first :: rest) [] hj] at h
        cases h

theorem add_ok_wf [Inhabited E] [Add E] {A B R : Matrix E} (hA : A.WellFormed)
    (hB : B.WellFormed) (h : A.add B = Except.ok R) : R.WellFormed := by
  obtain ⟨n, m, hn, hm, sA⟩ := wellFormed_hasShape hA
  obtain ⟨n', m', hn', _, sB⟩ := wellFormed_hasShape hB
  by_cases hs : n = n' ∧ m = m'
  · obtain ⟨e1, e2⟩ := hs
    subst e1 e2
    obtain ⟨R', hR', sR', _⟩ := add_spec sA sB hn hm
    rw [hR'] at h
    injection h with h
    subst h
    exact hasShape_wellFormed sR' hn hm
  · rw [add_mismatch sA sB hn hn' hs] at h
    cases h

theorem sub_ok_wf [Inhabited E] [Sub E] {A B R : Matrix E} (hA : A.WellFormed)
    (hB : B.WellFormed) (h : A.sub B = Except.ok R) : R.WellFormed := by
  obtain ⟨n, m, hn, hm, sA⟩ := wellFormed_hasShape hA
  obtain ⟨n', m', hn', _, sB⟩ := wellFormed_hasShape hB
  by_cases hs : n = n' ∧ m = m'
  · obtain ⟨e1, e2⟩ := hs
    subst e1 e2
    obtain ⟨R', hR', sR', _⟩ := sub_spec sA sB hn hm
    rw [hR'] at h
    injection h with h
    subst h
    exact hasShape_wellFormed sR' hn hm
  · rw [sub_mismatch sA sB hn hn' hs] at h
    cases h

theorem mul_ok_wf [Inhabited E] [Add E] [Mul E] {A B R : Matrix E} (hA : A.WellFormed)
    (hB : B.WellFormed) (h : A.mul B = Except.ok R) : R.WellFormed := by
  obtain ⟨n, k, hn, hk, sA⟩ := wellFormed_hasShape hA
  obtain ⟨k', m, hk', hm, sB⟩ := wellFormed_hasShape hB
  by_cases hs : k = k'
  · subst hs
    obtain ⟨R', hR', sR', _⟩ := mul_spec sA sB hn hk hm
    rw [hR'] at h
    injection h with h
    subst h
    exact hasShape_wellFormed sR' hn hm
  · rw [mul_mismatch sA hn (by rw [getN_of_shape sB]; omega)] at h
    cases h

theorem assignTemporary_wf {A : Matrix E} (hA : A.WellFormed) (value : Except Err (Matrix E))
    (hv : ∀ R, value = Except.ok R → R.WellFormed) :
    (assignTemporary A value).2.WellFormed := by
  cases value with
  | error e => exact hA
  | ok R => exact hv R rfl

end Matrix

namespace Matrix

variable {E : Type}

theorem fillRow_ok_shape [Inhabited E] {A R : Matrix E} {n m : Nat} (hA : A.HasShape n m)
    (r : Int) (e : E) (h : A.fillRow r e = Except.ok R) : R.HasShape n m := by
  by_cases hc : r < 0 ∨ r ≥ (n : Int)
  · rw [fillRow_rejected hA r e hc] at h
    cases h
  · obtain ⟨a, rfl⟩ : ∃ a : Nat, r = (a : Int) := ⟨r.toNat, by omega⟩
    obtain ⟨R', hR', sR', _⟩ := fillRow_spec hA a e (by omega)
    rw [hR'] at h
    injection h with h
    subst h
    exact sR'

theorem fillColumn_ok_shape [Inhabited E] {A R : Matrix E} {n m : Nat} (hA : A.HasShape n m)
    (hn : 1 ≤ n) (c : Int) (e : E) (h : A.fillColumn c e = Except.ok R) : R.HasShape n m := by
  by_cases hc : c < 0 ∨ c ≥ (m : Int)
  · rw [fillColumn_rejected hA hn c e hc] at h
    cases h
  · obtain ⟨b, rfl⟩ : ∃ b : Nat, c = (b : Int) := ⟨c.toNat, by omega⟩
    obtain ⟨R', hR', sR', _⟩ := fillColumn_spec hA hn b e (by omega)
    rw [hR'] at h
    injection h with h
    subst h
    exact sR'

theorem multiplyRow_ok_shape {S : Type} [Inhabited E] [HMul E S E] {A R : Matrix E}
    {n m : Nat} (hA : A.HasShape n m) (hn : 1 ≤ n) (r : Int) (s : S)
    (h : A.multiplyRow r s = Except.ok R) : R.HasShape n m := by
  by_cases hc : r < 0 ∨ r ≥ (n : Int)
  · rw [multiplyRow_rejected hA r s hc] at h
    cases h
  · obtain ⟨a, rfl⟩ : ∃ a : Nat, r = (a : Int) := ⟨r.toNat, by omega⟩
    obtain ⟨R', hR', sR', _⟩ := multiplyRow_spec hA hn a s (by omega)
    rw [hR'] at h
    injection h with h
    subst h
    exact sR'

theorem multiplyColumn_ok_shape {S : Type} [Inhabited E] [HMul E S E] {A R : Matrix E}
    {n m : Nat} (hA : A.HasShape n m) (hn : 1 ≤ n) (c : Int) (s : S)
    (h : A.multiplyColumn c s = Except.ok R) : R.HasShape n m := by
  by_cases hc : c < 0 ∨ c ≥ (m : Int)
  · rw [multiplyColumn_rejected hA hn c s hc] at h
    cases h
  · obtain ⟨b, rfl⟩ : ∃ b : Nat, c = (b : Int) := ⟨c.toNat, by omega⟩
    obtain ⟨R', hR', sR', _⟩ := multiplyColumn_spec hA hn b s (by omega)
    rw [hR'] at h
    injection h with h
    subst h
    exact sR'

theorem combineRows_ok_shape {S : Type} [Inhabited E] [HMul S E E] [Add E] {A R : Matrix E}
    {n m : Nat} (hA : A.HasShape n m) (hn : 1 ≤ n) (hm : 1 ≤ m) (r1 r2 dest : Int)
    (f1 f2 : S) (h : A.combineRows r1 f1 r2 f2 dest = Except.ok R) : R.HasShape n m := by
  by_cases hchk : r1 < 0 ∨ r1 ≥ (n : Int) ∨ r2 < 0 ∨ r2 ≥ (m : Int)
  · rw [combineRows_rejected hA hn r1 r2 dest f1 f2 hchk] at h
    cases h
  by_cases hout : r2 ≥ (n : Int) ∨ dest < 0 ∨ dest ≥ (n : Int)
  · rw [combineRows_outside hA hn hm r1 r2 dest f1 f2 (by omega) (by omega) hout] at h
    cases h
  obtain ⟨a, rfl⟩ : ∃ a : Nat, r1 = (a : Int) := ⟨r1.toNat, by omega⟩
  obtain ⟨b, rfl⟩ : ∃ b : Nat, r2 = (b : Int) := ⟨r2.toNat, by omega⟩
  obtain ⟨d, rfl⟩ : ∃ d : Nat, dest = (d : Int) := ⟨dest.toNat, by omega⟩
  obtain ⟨R', hR', sR', _⟩ := combineRows_spec hA hn a b d f1 f2 (by omega) (by omega)
    (by omega) (by omega)
  rw [hR'] at h
  injection h with h
  subst h
  exact sR'

theorem combineColumns_ok_shape [Inhabited E] [HMul Int E E] [Add E] {A R : Matrix E}
    {n m : Nat} (hA : A.HasShape n m) (hn : 1 ≤ n) (c1 c2 dest : Int) (f1 f2 : Int)
    (h : A.combineColumns c1 f1 c2 f2 dest = Except.ok R) : R.HasShape n m := by
  by_cases hchk : c1 < 0 ∨ c1 ≥ (m : Int) ∨ c2 < 0 ∨ c2 ≥ (m : Int)
  · rw [combineColumns_rejected hA hn c1 c2 dest f1 f2 hchk] at h
    cases h
  by_cases hout : dest < 0 ∨ dest ≥ (m : Int)
  · rw [combineColumns_outside hA hn c1 c2 dest f1 f2 (by omega) (by omega) hout] at h
    cases h
  obtain ⟨a, rfl⟩ : ∃ a : Nat, c1 = (a : Int) := ⟨c1.toNat, by omega⟩
  obtain ⟨b, rfl⟩ : ∃ b : Nat, c2 = (b : Int) := ⟨c2.toNat, by omega⟩
  obtain ⟨d, rfl⟩ : ∃ d : Nat, dest = (d : Int) := ⟨dest.toNat, by omega⟩
  obtain ⟨R', hR', sR', _⟩ := combineColumns_spec hA hn a b d f1 f2 (by omega) (by omega)
    (by omega)
  rw [hR'] at h
  injection h with h
  subst h
  exact sR'

end Matrix

/-- A sequence of two steps that returns: the first step returned, and the
second returned on its result. -/
theorem ok_of_bind_ok {α β : Type} (x : Except Err α) (f : α → Except Err β) (b : β)
    (h : bind x f = Except.ok b) : ∃ a, f a = Except.ok b ∧ x = Except.ok a :=
  match x, h with
  | Except.ok a, h => ⟨a, h, rfl⟩
  | Except.error _, h => nomatch h

/-- Partial-correctness rule for `forRange`: what every iteration that returns
keeps, a loop that returns keeps. -/
theorem forRange_ok_preserves {σ : Type} (P : σ → Prop) (body : Int → σ → Except Err σ)
    (hb : ∀ k t t', P t → body k t = Except.ok t' → P t') :
    ∀ (n : Nat) (s t : σ), P s → forRange n body s = Except.ok t → P t := by
  intro n
  induction n with
  | zero =>
    intro s t hs h
    simp only [forRange] at h
    injection h with h
    rw [← h]
    exact hs
  | succ k ih =>
    intro s t hs h
    rw [forRange] at h
    cases hk : forRange k body s with
    | error e =>
      rw [hk] at h
      cases h
    | ok u =>
      rw [hk] at h
      exact hb _ u t (ih s u hs hk) h

theorem index_ok_mem {α : Type} {v : List α} {i : Int} {x : α}
    (h : index v i = Except.ok x) : x ∈ v := by
  unfold index at h
  by_cases h0 : i < 0
  · simp only [h0, if_true] at h
    cases h
  · simp only [h0, if_false] at h
    cases hg : v[i.toNat]? with
    | none =>
      rw [hg] at h
      cases h
    | some y =>
      rw [hg] at h
      injection h with h
      rw [← h]
      exact List.getElem?_mem hg

theorem assign_ok_eq {α : Type} {v v' : List α} {i : Int} {x : α}
    (h : assign v i x = Except.ok v') : v' = v.set i.toNat x := by
  unfold assign at h
  by_cases h0 : i < 0
  · simp only [h0, if_true] at h
    cases h
  · by_cases h1 : i.toNat < v.length
    · simp only [h0, if_false, h1, if_true] at h
      injection h with h
      exact h.symm
    · simp only [h0, if_false, h1] at h
      cases h

namespace Matrix

variable {E : Type}

/-- An unchecked write that returns keeps the shape, whatever the indices. -/
theorem rawSet_ok_shape {A A' : Matrix E} {n m : Nat} (hA : A.HasShape n m) (r c : Int)
    (v : E) (h : A.rawSet r c v = Except.ok A') : A'.HasShape n m := by
  unfold rawSet at h
  obtain ⟨row, h2, h1⟩ := ok_of_bind_ok _ _ _ h
  obtain ⟨row', h4, h3⟩ := ok_of_bind_ok _ _ _ h2
  obtain ⟨data, h6, h5⟩ := ok_of_bind_ok _ _ _ h4
  have hrow : row.length = m := hA.2 row (index_ok_mem h1)
  rw [assign_ok_eq h3] at h5
  have hd := assign_ok_eq h5
  injection h6 with h6
  subst h6
  subst hd
  refine ⟨by simp [hA.1], ?_⟩
  intro x hx
  rcases List.mem_or_eq_of_mem_set hx with hmem | heq
  · exact hA.2 x hmem
  · rw [heq, List.length_set]
    exact hrow

theorem mulAssignRef_ok_shape {S : Type} [HMul E S E] {A R : Matrix E} {n m : Nat}
    (hA : A.HasShape n m) (ref : Matrix E → Except Err S)
    (h : A.mulAssignRef ref = Except.ok R) : R.HasShape n m := by
  unfold mulAssignRef forInt at h
  refine forRange_ok_preserves (fun t : Matrix E => t.HasShape n m) _ ?_ _ A R hA h
  intro i t t' ht hbody
  obtain ⟨b, hb2, _⟩ := ok_of_bind_ok _ _ _ hbody
  refine forRange_ok_preserves (fun u : Matrix E => u.HasShape n m) _ ?_ _ t t' ht hb2
  intro j u u' hu hinner
  obtain ⟨x, hx2, _⟩ := ok_of_bind_ok _ _ _ hinner
  obtain ⟨sv, hs2, _⟩ := ok_of_bind_ok _ _ _ hx2
  exact rawSet_ok_shape hu _ _ _ hs2

end Matrix

/-- C24: well-formedness is kept. A matrix returned by the constructor from
dimensions, from dimensions and a fill element, or from a nested list is
well-formed, and so is a copy of a well-formed matrix. For well-formed `A` and
`B`, every matrix returned or left by `+`, `-`, the matrix product, the scalar
product, `+=`, `-=`, `*=` (matrix and scalar), `transpose`, `inplaceTranspose`,
`fill`, `fillRow`, `fillColumn`, `multiplyRow`, `multiplyColumn`, `combineRows`,
`combineColumns` and `swap` is well-formed; for `*=` with a scalar this holds
whatever the scalar reference refers to, an entry of `A` included. -/
theorem C24_wellFormed {E S : Type} [Inhabited E] [Add E] [Sub E] [Mul E] [HMul S E E]
    [HMul E S E] [HMul Int E E] (A B : Matrix E) (hA : A.WellFormed) (hB : B.WellFormed) :
    (∀ (n m : Int) (R : Matrix E), ofDims n m = Except.ok R → R.WellFormed) ∧
    (∀ (n m : Int) (e : E) (R : Matrix E), ofFill n m e = Except.ok R → R.WellFormed) ∧
    (∀ (L : List (List E)) (R : Matrix E), ofList L = Except.ok R → R.WellFormed) ∧
    A.copy.WellFormed ∧
    (∀ R, A.add B = Except.ok R → R.WellFormed) ∧
    (∀ R, A.sub B = Except.ok R → R.WellFormed) ∧
    (∀ R, A.mul B = Except.ok R → R.WellFormed) ∧
    (∀ (s : S) (R : Matrix E), A.mulScalar s = Except.ok R → R.WellFormed) ∧
    (A.addAssign B).2.WellFormed ∧
    (A.subAssign B).2.WellFormed ∧
    (A.mulAssign B).2.WellFormed ∧
    (∀ (s : S) (R : Matrix E), A.mulAssignScalar s = Except.ok R → R.WellFormed) ∧
    (∀ R, A.transpose = Except.ok R → R.WellFormed) ∧
    (∀ R, A.inplaceTranspose = Except.ok R → R.WellFormed) ∧
    (∀ e : E, (A.fill e).WellFormed) ∧
    (∀ (r : Int) (e : E) (R : Matrix E), A.fillRow r e = Except.ok R → R.WellFormed) ∧
    (∀ (c : Int) (e : E) (R : Matrix E), A.fillColumn c e = Except.ok R → R.WellFormed) ∧
    (∀ (r : Int) (s : S) (R : Matrix E), A.multiplyRow r s = Except.ok R → R.WellFormed) ∧
    (∀ (c : Int) (s : S) (R : Matrix E), A.multiplyColumn c s = Except.ok R →
      R.WellFormed) ∧
    (∀ (r1 r2 dest : Int) (f1 f2 : S) (R : Matrix E),
      A.combineRows r1 f1 r2 f2 dest = Except.ok R → R.WellFormed) ∧
    (∀ (c1 c2 dest : Int) (f1 f2 : Int) (R : Matrix E),
      A.combineColumns c1 f1 c2 f2 dest = Except.ok R → R.WellFormed) ∧
    (A.swap B).1.WellFormed ∧ (A.swap B).2.WellFormed ∧
    (∀ (ref : Matrix E → Except Err S) (R : Matrix E),
      A.mulAssignRef ref = Except.ok R → R.WellFormed) := by
  obtain ⟨n, m, hn, hm, sA⟩ := wellFormed_hasShape hA
  refine ⟨fun n' m' R h => ofFill_ok_wf n' m' default R h,
    fun n' m' e R h => ofFill_ok_wf n' m' e R h,
    fun L R h => ofList_ok_wf L R h,
    hA,
    fun R h => add_ok_wf hA hB h,
    fun R h => sub_ok_wf hA hB h,
    fun R h => mul_ok_wf hA hB h,
    ?_,
    assignTemporary_wf hA _ (fun R h => add_ok_wf hA hB h),
    assignTemporary_wf hA _ (fun R h => sub_ok_wf hA hB h),
    assignTemporary_wf hA _ (fun R h => mul_ok_wf hA hB h),
    ?_, ?_, ?_,
    fun e => hasShape_wellFormed (fill_spec sA e).1 hn hm,
    fun r e R h => hasShape_wellFormed (fillRow_ok_shape sA r e h) hn hm,
    fun c e R h => hasShape_wellFormed (fillColumn_ok_shape sA hn c e h) hn hm,
    fun r s R h => hasShape_wellFormed (multiplyRow_ok_shape sA hn r s h) hn hm,
    fun c s R h => hasShape_wellFormed (multiplyColumn_ok_shape sA hn c s h) hn hm,
    fun r1 r2 dest f1 f2 R h =>
      hasShape_wellFormed (combineRows_ok_shape sA hn hm r1 r2 dest f1 f2 h) hn hm,
    fun c1 c2 dest f1 f2 R h =>
      hasShape_wellFormed (combineColumns_ok_shape sA hn c1 c2 dest f1 f2 h) hn hm,
    hB, hA,
    fun ref R h => hasShape_wellFormed (mulAssignRef_ok_shape sA ref h) hn hm⟩
  · intro s R h
    obtain ⟨R', hR', sR', _⟩ := mulScalar_spec sA hn hm s
    rw [hR'] at h
    injection h with h
    subst h
    exact hasShape_wellFormed sR' hn hm
  · intro s R h
    obtain ⟨R', hR', sR', _⟩ := mulAssignScalar_spec sA hn s
    rw [hR'] at h
    injection h with h
    subst h
    exact hasShape_wellFormed sR' hn hm
  · intro R h
    obtain ⟨R', hR', sR', _⟩ := transpose_spec sA hn hm
    rw [hR'] at h
    injection h with h
    subst h
    exact hasShape_wellFormed sR' hm hn
  · intro R h
    obtain ⟨R', hR', _, sR', _⟩ := inplaceTranspose_spec sA hn hm
    rw [hR'] at h
    injection h with h
    subst h
    exact hasShape_wellFormed sR' hm hn

theorem C24_wellFormed_witness :
    test_rc.WellFormed ∧ test_sq.WellFormed ∧
    (∀ R, test_rc.mul test_sq = Except.ok R → R.WellFormed) ∧
    (test_rc.addAssign test_sq).2.WellFormed ∧
    (∀ (r1 r2 dest : Int) (f1 f2 : Int) (R : Matrix Int),
      test_rc.combineRows r1 f1 r2 f2 dest = Except.ok R → R.WellFormed) :=
  ⟨by decide, by decide,
    (C24_wellFormed (S := Int) test_rc test_sq (by decide) (by decide)).2.2.2.2.2.2.1,
    (C24_wellFormed (S := Int) test_rc test_sq (by decide) (by decide)).2.2.2.2.2.2.2.2.1,
    (C24_wellFormed (S := Int) test_rc test_sq (by decide)
      (by decide)).2.2.2.2.2.2.2.2.2.2.2.2.2.2.2.2.2.2.2.1⟩

end linopt.inmemory
